import Mathlib

/-!
# Verification of the omni-stream core against its specification

This file gives a shallow embedding, in Lean 4, of the core algorithms of the
omni-stream repository (coordinator transfer orchestration, agent chunked
inbox, federated search, signed capability tokens, ACL resolution, passcode
lockout), together with proofs and refutations of the specification's
testable properties.

Modelling conventions:
* bytes are natural numbers `< 256`, byte strings are `List Nat`;
* machine integers are `Int`/`Nat` (the Python sources use unbounded ints);
* the database session is explicit state: each endpoint is a pure function
  from its inputs and the relevant rows to an `Except`-style result plus the
  updated rows;
* wall-clock time (`time.time()`, `datetime.now`) is passed as an explicit
  parameter;
* external effects (Argon2 verification outcome, agent HTTP responses,
  thread-pool completion order) are inputs to the embedded functions.
-/

namespace OmniStream

/-- An HTTP error as raised by `fastapi.HTTPException`: a status code and a
detail string. -/
structure HErr where
  status : Nat
  detail : String
deriving DecidableEq, Repr

/-! ## String helpers

Python's `str.strip`, `str.lower` and `str.split` modeled over character
lists (ASCII semantics), since they must evaluate inside the kernel. -/

def isPySpace (c : Char) : Bool := c.toNat = 32 || (9 ≤ c.toNat && c.toNat ≤ 13)

/-- `str.strip()` (ASCII whitespace). -/
def trimStr (s : String) : String :=
  ⟨((s.data.dropWhile isPySpace).reverse.dropWhile isPySpace).reverse⟩

/-- ASCII lowercasing of one character. -/
def lowerChar (c : Char) : Char :=
  if 65 ≤ c.toNat ∧ c.toNat ≤ 90 then Char.ofNat (c.toNat + 32) else c

/-- `str.lower()` (ASCII). -/
def strLower (s : String) : String := ⟨s.data.map lowerChar⟩

def splitOnCharGo (sep : Char) : List Char → List Char → List (List Char)
  | [], acc => [acc.reverse]
  | c :: rest, acc =>
    if c = sep then acc.reverse :: splitOnCharGo sep rest []
    else splitOnCharGo sep rest (c :: acc)

/-- `str.split(sep)` for a one-character separator. -/
def splitChar (sep : Char) (s : String) : List String :=
  (splitOnCharGo sep s.data []).map (fun cs => ⟨cs⟩)

/-! ## SHA-256 (`hashlib.sha256`)

A byte-level executable model of FIPS 180-4 SHA-256, used by
`shared/security.py` (HMAC signatures) and `agent/routers/inbox.py`
(commit-time checksum verification). -/

namespace Crypto

/-- Truncate to a 32-bit word. -/
def w32 (n : Nat) : Nat := n % 4294967296

/-- 32-bit addition. -/
def add32 (a b : Nat) : Nat := (a + b) % 4294967296

/-- Right rotation of a 32-bit word. -/
def rotr (n x : Nat) : Nat := w32 ((x >>> n) ||| (x <<< (32 - n)))

/-- Bitwise complement of a 32-bit word. -/
def not32 (x : Nat) : Nat := x ^^^ 4294967295

def bigSigma0 (x : Nat) : Nat := rotr 2 x ^^^ rotr 13 x ^^^ rotr 22 x
def bigSigma1 (x : Nat) : Nat := rotr 6 x ^^^ rotr 11 x ^^^ rotr 25 x
def smallSigma0 (x : Nat) : Nat := rotr 7 x ^^^ rotr 18 x ^^^ (x >>> 3)
def smallSigma1 (x : Nat) : Nat := rotr 17 x ^^^ rotr 19 x ^^^ (x >>> 10)

/-- The SHA-256 round constants. -/
def shaK : List Nat :=
  [1116352408, 1899447441, 3049323471, 3921009573, 961987163, 1508970993,
   2453635748, 2870763221, 3624381080, 310598401, 607225278, 1426881987,
   1925078388, 2162078206, 2614888103, 3248222580, 3835390401, 4022224774,
   264347078, 604807628, 770255983, 1249150122, 1555081692, 1996064986,
   2554220882, 2821834349, 2952996808, 3210313671, 3336571891, 3584528711,
   113926993, 338241895, 666307205, 773529912, 1294757372, 1396182291,
   1695183700, 1986661051, 2177026350, 2456956037, 2730485921, 2820302411,
   3259730800, 3345764771, 3516065817, 3600352804, 4094571909, 275423344,
   430227734, 506948616, 659060556, 883997877, 958139571, 1322822218,
   1537002063, 1747873779, 1955562222, 2024104815, 2227730452, 2361852424,
   2428436474, 2756734187, 3204031479, 3329325298]

/-- The SHA-256 initial hash value. -/
def shaH0 : List Nat :=
  [1779033703, 3144134277, 1013904242, 2773480762,
   1359893119, 2600822924, 528734635, 1541459225]

/-- Big-endian 32-bit words from bytes (length a multiple of 4). -/
def bytesToWords : List Nat → List Nat
  | b0 :: b1 :: b2 :: b3 :: rest => (((b0 * 256 + b1) * 256 + b2) * 256 + b3) :: bytesToWords rest
  | _ => []

/-- `k` big-endian bytes of `n`. -/
def natToBytesBE : Nat → Nat → List Nat
  | 0, _ => []
  | k + 1, n => natToBytesBE k (n / 256) ++ [n % 256]

/-- Big-endian bytes of a list of 32-bit words. -/
def wordsToBytes (ws : List Nat) : List Nat :=
  (ws.map (natToBytesBE 4)).flatten

/-- SHA-256 padding: append `0x80`, zeros to 56 mod 64, and the 64-bit
big-endian bit length. -/
def shaPad (msg : List Nat) : List Nat :=
  let L := msg.length
  let zeros := (120 - ((L + 1) % 64)) % 64
  msg ++ [0x80] ++ List.replicate zeros 0 ++ natToBytesBE 8 (8 * L)

/-- Split into 64-byte blocks. -/
def chunks64Go : List Nat → List Nat → List (List Nat)
  | [], cur => if cur.isEmpty then [] else [cur]
  | b :: rest, cur =>
    if cur.length = 63 then (cur ++ [b]) :: chunks64Go rest []
    else chunks64Go rest (cur ++ [b])

def chunks64 (l : List Nat) : List (List Nat) := chunks64Go l []

/-- Extend a 16-word schedule to 64 words, appending `count` more words. -/
def shaExtend : List Nat → Nat → List Nat
  | acc, 0 => acc
  | acc, count + 1 =>
    let i := acc.length
    let w := add32 (add32 (smallSigma1 (acc.getD (i - 2) 0)) (acc.getD (i - 7) 0))
                   (add32 (smallSigma0 (acc.getD (i - 15) 0)) (acc.getD (i - 16) 0))
    shaExtend (acc ++ [w]) count

/-- The SHA-256 working state `(a, b, c, d, e, f, g, h)`. -/
structure ShaState where
  a : Nat
  b : Nat
  c : Nat
  d : Nat
  e : Nat
  f : Nat
  g : Nat
  h : Nat
deriving Repr

/-- One SHA-256 compression round. -/
def shaRound (k w : Nat) (s : ShaState) : ShaState :=
  let ch := (s.e &&& s.f) ^^^ (not32 s.e &&& s.g)
  let maj := (s.a &&& s.b) ^^^ (s.a &&& s.c) ^^^ (s.b &&& s.c)
  let t1 := add32 (add32 (add32 s.h (bigSigma1 s.e)) (add32 ch k)) w
  let t2 := add32 (bigSigma0 s.a) maj
  ⟨add32 t1 t2, s.a, s.b, s.c, add32 s.d t1, s.e, s.f, s.g⟩

/-- Run the 64 rounds over paired constants and schedule words. -/
def shaRounds : List Nat → List Nat → ShaState → ShaState
  | k :: ks, w :: ws, s => shaRounds ks ws (shaRound k w s)
  | _, _, s => s

/-- Compress one 64-byte block into the running hash (8 words). -/
def shaCompress (hv : List Nat) (block : List Nat) : List Nat :=
  let ws := shaExtend (bytesToWords block) 48
  let init : ShaState :=
    ⟨hv.getD 0 0, hv.getD 1 0, hv.getD 2 0, hv.getD 3 0,
     hv.getD 4 0, hv.getD 5 0, hv.getD 6 0, hv.getD 7 0⟩
  let s := shaRounds shaK ws init
  [add32 (hv.getD 0 0) s.a, add32 (hv.getD 1 0) s.b, add32 (hv.getD 2 0) s.c,
   add32 (hv.getD 3 0) s.d, add32 (hv.getD 4 0) s.e, add32 (hv.getD 5 0) s.f,
   add32 (hv.getD 6 0) s.g, add32 (hv.getD 7 0) s.h]

/-- SHA-256 digest (32 bytes) of a byte string. -/
def sha256 (msg : List Nat) : List Nat :=
  wordsToBytes ((chunks64 (shaPad msg)).foldl shaCompress shaH0)

/-- HMAC-SHA256 (`hmac.new(key, msg, hashlib.sha256).digest()`). -/
def hmacSha256 (key msg : List Nat) : List Nat :=
  let key0 := if key.length > 64 then sha256 key else key
  let keyPad := key0 ++ List.replicate (64 - key0.length) 0
  let ipad := keyPad.map (fun b => b ^^^ 0x36)
  let opad := keyPad.map (fun b => b ^^^ 0x5c)
  sha256 (opad ++ sha256 (ipad ++ msg))

/-- Lowercase hex digit. -/
def hexDigit (n : Nat) : Char :=
  if n < 10 then Char.ofNat (48 + n) else Char.ofNat (87 + n)

/-- Lowercase hex string of a byte string (`.hexdigest()`). -/
def hexDigest (bs : List Nat) : String :=
  ⟨(bs.map (fun b => [hexDigit (b / 16), hexDigit (b % 16)])).flatten⟩

/-- UTF-8 encoding of one code point. -/
def utf8EncodeChar (c : Nat) : List Nat :=
  if c < 0x80 then [c]
  else if c < 0x800 then [0xC0 ||| (c >>> 6), 0x80 ||| (c &&& 63)]
  else if c < 0x10000 then
    [0xE0 ||| (c >>> 12), 0x80 ||| ((c >>> 6) &&& 63), 0x80 ||| (c &&& 63)]
  else
    [0xF0 ||| (c >>> 18), 0x80 ||| ((c >>> 12) &&& 63),
     0x80 ||| ((c >>> 6) &&& 63), 0x80 ||| (c &&& 63)]

/-- UTF-8 bytes of a string (`str.encode("utf-8")`). -/
def strBytes (s : String) : List Nat :=
  (s.data.map (fun c => utf8EncodeChar c.toNat)).flatten

/-- Decode one UTF-8 code point (strict: continuation bytes checked, overlong
forms, surrogates and values above U+10FFFF rejected). -/
def utf8DecodeOne : List Nat → Option (Char × List Nat)
  | [] => none
  | b :: rest =>
    if b < 0x80 then some (Char.ofNat b, rest)
    else if b < 0xC2 then none
    else if b < 0xE0 then
      match rest with
      | b2 :: rest2 =>
        if 0x80 ≤ b2 ∧ b2 < 0xC0 then
          some (Char.ofNat ((b - 0xC0) * 64 + (b2 - 0x80)), rest2)
        else none
      | [] => none
    else if b < 0xF0 then
      match rest with
      | b2 :: b3 :: rest2 =>
        let c := (b - 0xE0) * 4096 + (b2 - 0x80) * 64 + (b3 - 0x80)
        if 0x80 ≤ b2 ∧ b2 < 0xC0 ∧ 0x80 ≤ b3 ∧ b3 < 0xC0 ∧ 0x800 ≤ c ∧
            ¬(0xD800 ≤ c ∧ c < 0xE000) then
          some (Char.ofNat c, rest2)
        else none
      | _ => none
    else if b < 0xF5 then
      match rest with
      | b2 :: b3 :: b4 :: rest2 =>
        let c := (b - 0xF0) * 262144 + (b2 - 0x80) * 4096 + (b3 - 0x80) * 64 + (b4 - 0x80)
        if 0x80 ≤ b2 ∧ b2 < 0xC0 ∧ 0x80 ≤ b3 ∧ b3 < 0xC0 ∧ 0x80 ≤ b4 ∧ b4 < 0xC0 ∧
            0x10000 ≤ c ∧ c ≤ 0x10FFFF then
          some (Char.ofNat c, rest2)
        else none
      | _ => none
    else none

/-- Fuel-driven UTF-8 decoding loop; one unit of fuel per code point. -/
def utf8DecodeGo : Nat → List Nat → Option (List Char)
  | _, [] => some []
  | 0, _ :: _ => none
  | fuel + 1, b :: rest =>
    match utf8DecodeOne (b :: rest) with
    | some (c, rest2) => (utf8DecodeGo fuel rest2).map (fun cs => c :: cs)
    | none => none

/-- Strict UTF-8 decoding (`bytes.decode("utf-8")`); `none` models
`UnicodeDecodeError`. Each code point consumes at least one byte, so
`bs.length` fuel always suffices. -/
def utf8Decode (bs : List Nat) : Option (List Char) :=
  utf8DecodeGo bs.length bs

theorem utf8DecodeOne_ascii (b : Nat) (hb : b < 128) (rest : List Nat) :
    utf8DecodeOne (b :: rest) = some (Char.ofNat b, rest) := by
  show (if b < 0x80 then some (Char.ofNat b, rest) else _) = _
  rw [if_pos (by omega)]

theorem utf8DecodeGo_ascii (cs : List Char) (h : ∀ c ∈ cs, c.toNat < 128) :
    ∀ fuel, cs.length ≤ fuel →
      utf8DecodeGo fuel ((cs.map (fun c => utf8EncodeChar c.toNat)).flatten) = some cs := by
  induction cs with
  | nil => intro fuel hf; cases fuel <;> rfl
  | cons c rest ih =>
    intro fuel hf
    have hc : c.toNat < 128 := h c (by simp)
    have henc : utf8EncodeChar c.toNat = [c.toNat] := by
      unfold utf8EncodeChar
      rw [if_pos (by omega)]
    simp only [List.map_cons, List.flatten_cons, henc, List.cons_append, List.nil_append]
    match fuel with
    | 0 => simp at hf
    | fuel + 1 =>
      rw [utf8DecodeGo, utf8DecodeOne_ascii c.toNat hc]
      show Option.map (fun cs => Char.ofNat c.toNat :: cs)
          (utf8DecodeGo fuel ((rest.map (fun c => utf8EncodeChar c.toNat)).flatten)) =
        some (c :: rest)
      rw [ih (fun x hx => h x (by simp [hx])) fuel (by simp at hf; omega)]
      simp [Char.ofNat_toNat]

/-- Decoding the UTF-8 bytes of an ASCII string gives back its characters. -/
theorem utf8Decode_ascii (s : String) (h : ∀ c ∈ s.data, c.toNat < 128) :
    utf8Decode (strBytes s) = some s.data := by
  have hlen : s.data.length ≤ (strBytes s).length := by
    unfold strBytes
    induction s.data with
    | nil => simp
    | cons c rest ih =>
      simp only [List.map_cons, List.flatten_cons, List.length_append, List.length_cons]
      have : 1 ≤ (utf8EncodeChar c.toNat).length := by
        unfold utf8EncodeChar
        split
        · simp
        · split
          · simp
          · split <;> simp
      omega
  exact utf8DecodeGo_ascii s.data h (strBytes s).length hlen

end Crypto

/-! ## Base64url without padding (`shared/security.py` `_b64encode`/`_b64decode`)

`_b64encode` is `base64.urlsafe_b64encode(data).rstrip("=")`; `_b64decode`
re-adds padding and calls `base64.urlsafe_b64decode`. The model decodes
4-character groups directly (a trailing group of one character is invalid —
that is exactly the case where re-padding produces an illegal base64 string).
Python's decoder silently discards characters outside the base64url alphabet;
the model instead fails on them, which agrees with Python on every
alphabet-only input (all inputs used in this development). Python also ignores
the unused low bits of a trailing partial group, as does the model. -/

namespace B64

/-- The base64url alphabet, index to character. -/
def b64Char (n : Nat) : Char :=
  if n < 26 then Char.ofNat (65 + n)
  else if n < 52 then Char.ofNat (71 + n)
  else if n < 62 then Char.ofNat (n - 4)
  else if n = 62 then '-' else '_'

/-- The base64url alphabet, character to index. -/
def b64Val (c : Char) : Option Nat :=
  if 65 ≤ c.toNat ∧ c.toNat ≤ 90 then some (c.toNat - 65)
  else if 97 ≤ c.toNat ∧ c.toNat ≤ 122 then some (c.toNat - 71)
  else if 48 ≤ c.toNat ∧ c.toNat ≤ 57 then some (c.toNat + 4)
  else if c = '-' then some 62
  else if c = '_' then some 63
  else none

/-- Encode bytes to unpadded base64url characters. -/
def b64EncodeChars : List Nat → List Char
  | b0 :: b1 :: b2 :: rest =>
    b64Char (b0 / 4) :: b64Char ((b0 % 4) * 16 + b1 / 16) ::
      b64Char ((b1 % 16) * 4 + b2 / 64) :: b64Char (b2 % 64) :: b64EncodeChars rest
  | [b0, b1] => [b64Char (b0 / 4), b64Char ((b0 % 4) * 16 + b1 / 16), b64Char ((b1 % 16) * 4)]
  | [b0] => [b64Char (b0 / 4), b64Char ((b0 % 4) * 16)]
  | [] => []

/-- Decode unpadded base64url characters to bytes. -/
def b64DecodeChars : List Char → Option (List Nat)
  | [] => some []
  | [_] => none
  | [c0, c1] =>
    match b64Val c0, b64Val c1 with
    | some v0, some v1 => some [v0 * 4 + v1 / 16]
    | _, _ => none
  | [c0, c1, c2] =>
    match b64Val c0, b64Val c1, b64Val c2 with
    | some v0, some v1, some v2 => some [v0 * 4 + v1 / 16, (v1 % 16) * 16 + v2 / 4]
    | _, _, _ => none
  | c0 :: c1 :: c2 :: c3 :: rest =>
    match b64Val c0, b64Val c1, b64Val c2, b64Val c3, b64DecodeChars rest with
    | some v0, some v1, some v2, some v3, some bytes =>
      some ((v0 * 4 + v1 / 16) :: ((v1 % 16) * 16 + v2 / 4) :: ((v2 % 4) * 64 + v3) :: bytes)
    | _, _, _, _, _ => none

def b64Encode (bs : List Nat) : String := ⟨b64EncodeChars bs⟩

def b64Decode (s : String) : Option (List Nat) := b64DecodeChars s.data

theorem b64Val_b64Char : ∀ n < 64, b64Val (b64Char n) = some n := by decide

theorem b64Char_ne_dot : ∀ n < 64, b64Char n ≠ '.' := by decide

/-- Base64url round trip on byte strings. -/
theorem b64_roundtrip : ∀ bs : List Nat, (∀ b ∈ bs, b < 256) →
    b64DecodeChars (b64EncodeChars bs) = some bs
  | [], _ => rfl
  | [b0], h => by
    have h0 : b0 < 256 := h b0 (by simp)
    rw [b64EncodeChars, b64DecodeChars]
    rw [b64Val_b64Char _ (by omega), b64Val_b64Char _ (by omega)]
    simp only [Option.some.injEq, List.cons.injEq, and_true]
    omega
  | [b0, b1], h => by
    have h0 : b0 < 256 := h b0 (by simp)
    have h1 : b1 < 256 := h b1 (by simp)
    rw [b64EncodeChars, b64DecodeChars]
    rw [b64Val_b64Char _ (by omega), b64Val_b64Char _ (by omega),
      b64Val_b64Char _ (by omega)]
    simp only [Option.some.injEq, List.cons.injEq, and_true]
    omega
  | b0 :: b1 :: b2 :: rest, h => by
    have h0 : b0 < 256 := h b0 (by simp)
    have h1 : b1 < 256 := h b1 (by simp)
    have h2 : b2 < 256 := h b2 (by simp)
    have ih := b64_roundtrip rest (fun b hb => h b (by simp [hb]))
    rw [b64EncodeChars]
    have hne : b64EncodeChars rest = b64EncodeChars rest := rfl
    rw [b64DecodeChars]
    rw [b64Val_b64Char _ (by omega), b64Val_b64Char _ (by omega),
      b64Val_b64Char _ (by omega), b64Val_b64Char _ (by omega), ih]
    simp only [Option.some.injEq, List.cons.injEq, and_true]
    refine ⟨by omega, by omega, by omega⟩

/-- The encoder never emits a `.` separator character. -/
theorem b64Encode_ne_dot : ∀ bs : List Nat, (∀ b ∈ bs, b < 256) →
    ∀ c ∈ b64EncodeChars bs, c ≠ '.'
  | [], _ => by simp [b64EncodeChars]
  | [b0], h => by
    have h0 : b0 < 256 := h b0 (by simp)
    rw [b64EncodeChars]
    intro c hc
    simp only [List.mem_cons, List.not_mem_nil, or_false] at hc
    rcases hc with rfl | rfl
    · exact b64Char_ne_dot _ (by omega)
    · exact b64Char_ne_dot _ (by omega)
  | [b0, b1], h => by
    have h0 : b0 < 256 := h b0 (by simp)
    have h1 : b1 < 256 := h b1 (by simp)
    rw [b64EncodeChars]
    intro c hc
    simp only [List.mem_cons, List.not_mem_nil, or_false] at hc
    rcases hc with rfl | rfl | rfl
    · exact b64Char_ne_dot _ (by omega)
    · exact b64Char_ne_dot _ (by omega)
    · exact b64Char_ne_dot _ (by omega)
  | b0 :: b1 :: b2 :: rest, h => by
    have h0 : b0 < 256 := h b0 (by simp)
    have h1 : b1 < 256 := h b1 (by simp)
    have h2 : b2 < 256 := h b2 (by simp)
    have ih := b64Encode_ne_dot rest (fun b hb => h b (by simp [hb]))
    rw [b64EncodeChars]
    intro c hc
    simp only [List.mem_cons] at hc
    rcases hc with rfl | rfl | rfl | rfl | hc
    · exact b64Char_ne_dot _ (by omega)
    · exact b64Char_ne_dot _ (by omega)
    · exact b64Char_ne_dot _ (by omega)
    · exact b64Char_ne_dot _ (by omega)
    · exact ih c hc

end B64

/-! ## Canonical JSON (`json.dumps(..., separators=(",",":"), sort_keys=True)`
and `json.loads`)

JSON values are modelled without floating-point numbers: every numeric field
the token service reads or writes (`exp`) is an integer, and `decode_token`
rejects non-integer `exp` values. The serializer is Python's
`json.dumps` with compact separators, sorted keys and `ensure_ascii`; the
parser is a recursive-descent `json.loads` (it accepts leading zeros on
numbers and rejects lone UTF-16 surrogate escapes, where CPython is
respectively stricter and laxer — neither case arises below). -/

namespace Js

inductive Json where
  | null
  | bool (b : Bool)
  | num (n : Int)
  | str (s : String)
  | arr (elems : List Json)
  | obj (fields : List (String × Json))
deriving Repr

/-- Decimal digit character. -/
def digitChar (n : Nat) : Char := Char.ofNat (48 + n)

/-- Decimal digits of a natural number, most significant first; one unit of
fuel per digit (`n + 1` always suffices since `n / 10 < n` for `n ≥ 10`). -/
def natDigitsAux : Nat → Nat → List Char
  | 0, _ => []
  | fuel + 1, n =>
    if n < 10 then [digitChar n]
    else natDigitsAux fuel (n / 10) ++ [digitChar (n % 10)]

def natDigits (n : Nat) : List Char := natDigitsAux (n + 1) n

/-- Python's decimal rendering of an int. -/
def serInt (i : Int) : List Char :=
  if i < 0 then '-' :: natDigits i.natAbs else natDigits i.natAbs

/-- Four lowercase hex digits (`\uXXXX` escapes). -/
def hex4 (n : Nat) : List Char :=
  [Crypto.hexDigit (n / 4096 % 16), Crypto.hexDigit (n / 256 % 16),
   Crypto.hexDigit (n / 16 % 16), Crypto.hexDigit (n % 16)]

/-- `json.dumps` string escaping with `ensure_ascii=True`: short escapes for
the common control characters, `\uXXXX` for the rest and for every non-ASCII
character (as a surrogate pair above U+FFFF). -/
def escChar (c : Char) : List Char :=
  if c = '"' then ['\\', '"']
  else if c = '\\' then ['\\', '\\']
  else if c = Char.ofNat 10 then ['\\', 'n']
  else if c = Char.ofNat 9 then ['\\', 't']
  else if c = Char.ofNat 13 then ['\\', 'r']
  else if c = Char.ofNat 8 then ['\\', 'b']
  else if c = Char.ofNat 12 then ['\\', 'f']
  else if c.toNat < 0x20 ∨ 0x7F ≤ c.toNat then
    if c.toNat < 0x10000 then '\\' :: 'u' :: hex4 c.toNat
    else
      ('\\' :: 'u' :: hex4 (0xD800 + (c.toNat - 0x10000) / 1024)) ++
        ('\\' :: 'u' :: hex4 (0xDC00 + (c.toNat - 0x10000) % 1024))
  else [c]

/-- Serialized JSON string literal. -/
def serStr (s : String) : List Char := '"' :: (s.data.map escChar).flatten ++ ['"']

/-- Code-point-wise lexicographic comparison of character lists. -/
def charListLt : List Char → List Char → Bool
  | [], [] => false
  | [], _ :: _ => true
  | _ :: _, [] => false
  | a :: as, b :: bs =>
    if a.toNat < b.toNat then true
    else if b.toNat < a.toNat then false
    else charListLt as bs

/-- Python's `<` on strings: lexicographic by code point (agrees with
Lean's `String` order, and is kernel-executable). -/
def strLtB (a b : String) : Bool := charListLt a.data b.data

/-- Insert a serialized field into a key-sorted list (`sort_keys=True`). -/
def insertPair (p : String × List Char) : List (String × List Char) → List (String × List Char)
  | [] => [p]
  | q :: rest => if strLtB q.1 p.1 then q :: insertPair p rest else p :: q :: rest

/-- Sort serialized fields by raw key (Python compares strings by code
point, as does Lean). -/
def sortPairs : List (String × List Char) → List (String × List Char)
  | [] => []
  | p :: rest => insertPair p (sortPairs rest)

/-- Join serialized fields with `:` and `,`. -/
def joinFields : List (String × List Char) → List Char
  | [] => []
  | [(k, sv)] => serStr k ++ ':' :: sv
  | (k, sv) :: f2 :: fs => serStr k ++ ':' :: sv ++ ',' :: joinFields (f2 :: fs)

mutual

/-- Canonical serialization of a JSON value (compact separators, sorted
keys, ASCII-only output). -/
def serValue : Json → List Char
  | .null => 'n' :: 'u' :: ['l', 'l']
  | .bool true => 't' :: 'r' :: ['u', 'e']
  | .bool false => 'f' :: 'a' :: ['l', 's', 'e']
  | .num i => serInt i
  | .str s => serStr s
  | .arr xs => '[' :: serElems xs ++ [']']
  | .obj fs => Char.ofNat 123 :: joinFields (sortPairs (serFields fs)) ++ [Char.ofNat 125]

/-- Serialized array elements, comma separated. -/
def serElems : List Json → List Char
  | [] => []
  | [v] => serValue v
  | v :: v2 :: vs => serValue v ++ ',' :: serElems (v2 :: vs)

/-- Fields with serialized values, in original order. -/
def serFields : List (String × Json) → List (String × List Char)
  | [] => []
  | (k, v) :: fs => (k, serValue v) :: serFields fs

end

def serialize (v : Json) : String := ⟨serValue v⟩

/-- Insert a field into a key-sorted field list. -/
def insertField (p : String × Json) : List (String × Json) → List (String × Json)
  | [] => [p]
  | q :: rest => if strLtB q.1 p.1 then q :: insertField p rest else p :: q :: rest

/-- Sort fields by key. -/
def sortFields : List (String × Json) → List (String × Json)
  | [] => []
  | p :: rest => insertField p (sortFields rest)

mutual

/-- The canonical form of a JSON value: every object's fields sorted by key.
Serializing and re-parsing a value yields its canonical form; Python dicts
compare un-ordered, so canonicalization preserves dict equality. -/
def canonV : Json → Json
  | .null => .null
  | .bool b => .bool b
  | .num i => .num i
  | .str s => .str s
  | .arr xs => .arr (canonL xs)
  | .obj fs => .obj (sortFields (canonF fs))

def canonL : List Json → List Json
  | [] => []
  | v :: vs => canonV v :: canonL vs

def canonF : List (String × Json) → List (String × Json)
  | [] => []
  | (k, v) :: fs => (k, canonV v) :: canonF fs

end

mutual

/-- Parser fuel adequate for a value: one per nesting level or element. -/
def jsizeV : Json → Nat
  | .null => 1
  | .bool _ => 1
  | .num _ => 1
  | .str _ => 1
  | .arr xs => 1 + jsizeL xs
  | .obj fs => 1 + jsizeF fs

def jsizeL : List Json → Nat
  | [] => 1
  | v :: vs => 1 + jsizeV v + jsizeL vs

def jsizeF : List (String × Json) → Nat
  | [] => 1
  | (_, v) :: fs => 1 + jsizeV v + jsizeF fs

end

/-- Printable ASCII other than `"` and `\`: serialized verbatim. -/
def plainChar (c : Char) : Prop := 32 ≤ c.toNat ∧ c.toNat < 127 ∧ c ≠ '"' ∧ c ≠ '\\'

def plainStr (s : String) : Prop := ∀ c ∈ s.data, plainChar c

mutual

/-- All strings in the value are printable ASCII without `"` or `\`
(serialized without escapes). -/
def PlainV : Json → Prop
  | .null => True
  | .bool _ => True
  | .num _ => True
  | .str s => plainStr s
  | .arr xs => PlainL xs
  | .obj fs => PlainF fs

def PlainL : List Json → Prop
  | [] => True
  | v :: vs => PlainV v ∧ PlainL vs

def PlainF : List (String × Json) → Prop
  | [] => True
  | (k, v) :: fs => plainStr k ∧ PlainV v ∧ PlainF fs

end

theorem plainStr_of (s : String)
    (h : ∀ c ∈ s.data, 32 ≤ c.toNat ∧ c.toNat < 127 ∧ c ≠ '"' ∧ c ≠ '\\') :
    plainStr s := h

theorem plainF_nil : PlainF [] := trivial

theorem plainF_cons (k : String) (v : Json) (fs : List (String × Json))
    (hk : plainStr k) (hv : PlainV v) (hf : PlainF fs) : PlainF ((k, v) :: fs) :=
  ⟨hk, hv, hf⟩

theorem plainV_null : PlainV .null := trivial

theorem plainV_bool (b : Bool) : PlainV (.bool b) := trivial

theorem plainV_num (n : Int) : PlainV (.num n) := trivial

theorem plainV_str (s : String) (h : plainStr s) : PlainV (.str s) := h

theorem plainL_nil : PlainL [] := trivial

theorem plainL_cons (v : Json) (vs : List Json) (hv : PlainV v) (hl : PlainL vs) :
    PlainL (v :: vs) := ⟨hv, hl⟩

theorem plainV_arr (xs : List Json) (h : PlainL xs) : PlainV (.arr xs) := h

theorem plainV_obj (fs : List (String × Json)) (h : PlainF fs) : PlainV (.obj fs) := h

/-- `dict.get`. -/
def objLookup : List (String × Json) → String → Option Json
  | [], _ => none
  | (k, v) :: rest, key => if k = key then some v else objLookup rest key

/-- `d[key] = v`: replace in place, or append. -/
def setField (fs : List (String × Json)) (key : String) (v : Json) : List (String × Json) :=
  if fs.any (fun p => p.1 = key) then
    fs.map (fun p => if p.1 = key then (p.1, v) else p)
  else fs ++ [(key, v)]

/-! ### Parser (`json.loads`) -/

/-- JSON whitespace. -/
def isWsChar (c : Char) : Bool :=
  c = ' ' ∨ c = Char.ofNat 9 ∨ c = Char.ofNat 10 ∨ c = Char.ofNat 13

def skipWs : List Char → List Char
  | [] => []
  | c :: rest => if isWsChar c then skipWs rest else c :: rest

/-- Strip an expected literal. -/
def afterLit : List Char → List Char → Option (List Char)
  | [], s => some s
  | l :: ls, c :: rest => if c = l then afterLit ls rest else none
  | _ :: _, [] => none

/-- Greedy digit run, accumulating a decimal value. -/
def parseDigitsGo : List Char → Nat → Nat × List Char
  | [], acc => (acc, [])
  | c :: rest, acc =>
    if c.isDigit then parseDigitsGo rest (acc * 10 + (c.toNat - 48)) else (acc, c :: rest)

/-- A decimal natural number (at least one digit). -/
def parseNat : List Char → Option (Nat × List Char)
  | [] => none
  | c :: rest => if c.isDigit then some (parseDigitsGo (c :: rest) 0) else none

/-- Hex digit value. -/
def hexVal (c : Char) : Option Nat :=
  if 48 ≤ c.toNat ∧ c.toNat ≤ 57 then some (c.toNat - 48)
  else if 97 ≤ c.toNat ∧ c.toNat ≤ 102 then some (c.toNat - 87)
  else if 65 ≤ c.toNat ∧ c.toNat ≤ 70 then some (c.toNat - 55)
  else none

/-- Exactly four hex digits (`\uXXXX`). -/
def parseUEscape : List Char → Option (Nat × List Char)
  | h1 :: h2 :: h3 :: h4 :: rest =>
    match hexVal h1, hexVal h2, hexVal h3, hexVal h4 with
    | some v1, some v2, some v3, some v4 => some (((v1 * 16 + v2) * 16 + v3) * 16 + v4, rest)
    | _, _, _, _ => none
  | _ => none

/-- One escape sequence after the backslash. Surrogate pairs are recombined;
lone surrogates are rejected (Lean strings cannot hold them — CPython would
keep them). -/
def parseEscape : List Char → Option (Char × List Char)
  | [] => none
  | e :: rest =>
    if e = '"' then some ('"', rest)
    else if e = '\\' then some ('\\', rest)
    else if e = '/' then some ('/', rest)
    else if e = 'b' then some (Char.ofNat 8, rest)
    else if e = 'f' then some (Char.ofNat 12, rest)
    else if e = 'n' then some (Char.ofNat 10, rest)
    else if e = 'r' then some (Char.ofNat 13, rest)
    else if e = 't' then some (Char.ofNat 9, rest)
    else if e = 'u' then
      match parseUEscape rest with
      | none => none
      | some (n, rest2) =>
        if 0xD800 ≤ n ∧ n < 0xDC00 then
          match rest2 with
          | e2 :: u2 :: rest3 =>
            if e2 = '\\' ∧ u2 = 'u' then
              match parseUEscape rest3 with
              | some (m, rest4) =>
                if 0xDC00 ≤ m ∧ m < 0xE000 then
                  some (Char.ofNat (0x10000 + (n - 0xD800) * 1024 + (m - 0xDC00)), rest4)
                else none
              | none => none
            else none
          | _ => none
        else if 0xDC00 ≤ n ∧ n < 0xE000 then none
        else some (Char.ofNat n, rest2)
    else none

/-- Body of a string literal after the opening quote, undoing `escChar`; one
unit of fuel per consumed character (each step consumes at least one, so the
input length always suffices). -/
def parseStringBody : Nat → List Char → Option (List Char × List Char)
  | 0, _ => none
  | _ + 1, [] => none
  | fuel + 1, c :: rest =>
    if c = '"' then some ([], rest)
    else if c = '\\' then
      match parseEscape rest with
      | some (ch, rest2) => (parseStringBody fuel rest2).map (fun p => (ch :: p.1, p.2))
      | none => none
    else (parseStringBody fuel rest).map (fun p => (c :: p.1, p.2))

mutual

/-- Recursive-descent JSON value parser; one unit of fuel per nesting level
and per container element. -/
def parseValue : Nat → List Char → Option (Json × List Char)
  | 0, _ => none
  | fuel + 1, s =>
    match skipWs s with
    | [] => none
    | c :: rest =>
      if c = 'n' then (afterLit ['u', 'l', 'l'] rest).map (fun r => (Json.null, r))
      else if c = 't' then (afterLit ['r', 'u', 'e'] rest).map (fun r => (Json.bool true, r))
      else if c = 'f' then (afterLit ['a', 'l', 's', 'e'] rest).map (fun r => (Json.bool false, r))
      else if c = '"' then (parseStringBody rest.length rest).map (fun p => (Json.str ⟨p.1⟩, p.2))
      else if c = '[' then
        match skipWs rest with
        | [] => none
        | c2 :: r2 =>
          if c2 = ']' then some (Json.arr [], r2)
          else (parseElems fuel (c2 :: r2)).map (fun p => (Json.arr p.1, p.2))
      else if c = Char.ofNat 123 then
        match skipWs rest with
        | [] => none
        | c2 :: r2 =>
          if c2 = Char.ofNat 125 then some (Json.obj [], r2)
          else (parseFields fuel (c2 :: r2)).map (fun p => (Json.obj p.1, p.2))
      else if c = '-' then (parseNat rest).map (fun p => (Json.num (-(p.1 : Int)), p.2))
      else if c.isDigit then (parseNat (c :: rest)).map (fun p => (Json.num (p.1 : Int), p.2))
      else none

/-- Comma-separated values up to the closing `]`. -/
def parseElems : Nat → List Char → Option (List Json × List Char)
  | 0, _ => none
  | fuel + 1, s =>
    match parseValue fuel s with
    | none => none
    | some (v, r) =>
      match skipWs r with
      | [] => none
      | c :: r2 =>
        if c = ',' then (parseElems fuel r2).map (fun p => (v :: p.1, p.2))
        else if c = ']' then some ([v], r2)
        else none

/-- Comma-separated `"key": value` pairs up to the closing brace. -/
def parseFields : Nat → List Char → Option (List (String × Json) × List Char)
  | 0, _ => none
  | fuel + 1, s =>
    match skipWs s with
    | [] => none
    | c :: rest =>
      if c = '"' then
        match parseStringBody rest.length rest with
        | none => none
        | some (kcs, r) =>
          match skipWs r with
          | [] => none
          | c2 :: r2 =>
            if c2 = ':' then
              match parseValue fuel r2 with
              | none => none
              | some (v, r3) =>
                match skipWs r3 with
                | [] => none
                | c3 :: r4 =>
                  if c3 = ',' then
                    (parseFields fuel r4).map (fun p => ((⟨kcs⟩, v) :: p.1, p.2))
                  else if c3 = Char.ofNat 125 then some ([(⟨kcs⟩, v)], r4)
                  else none
            else none
      else none

end

/-- `json.loads` over characters: parse one value, then require only
whitespace to remain. -/
def jsonLoadsChars (cs : List Char) : Option Json :=
  match parseValue (2 * cs.length + 2) cs with
  | some (v, rest) => if skipWs rest = [] then some v else none
  | none => none

/-! ### Round-trip lemmas: parsing a canonically serialized value -/

theorem skipWs_cons (c : Char) (rest : List Char) (h : isWsChar c = false) :
    skipWs (c :: rest) = c :: rest := by
  simp [skipWs, h]

/-- Accumulated decimal value of a digit run. -/
def digitsVal (acc : Nat) (ds : List Char) : Nat :=
  ds.foldl (fun a c => a * 10 + (c.toNat - 48)) acc

theorem digitChar_isDigit : ∀ n < 10, (digitChar n).isDigit = true := by decide

theorem digitChar_toNat : ∀ n < 10, (digitChar n).toNat = 48 + n := by decide

theorem natDigitsAux_spec : ∀ fuel n, n < fuel →
    (∀ c ∈ natDigitsAux fuel n, c.isDigit = true) ∧
    natDigitsAux fuel n ≠ [] ∧
    ∀ acc, digitsVal acc (natDigitsAux fuel n) =
      acc * 10 ^ (natDigitsAux fuel n).length + n := by
  intro fuel
  induction fuel with
  | zero => intro n h; omega
  | succ fuel ih =>
    intro n hn
    by_cases h10 : n < 10
    · rw [natDigitsAux, if_pos h10]
      refine ⟨?_, by simp, ?_⟩
      · intro c hc
        simp only [List.mem_singleton] at hc
        subst hc
        exact digitChar_isDigit n h10
      · intro acc
        simp only [digitsVal, List.foldl_cons, List.foldl_nil, List.length_singleton,
          pow_one]
        rw [digitChar_toNat n h10]
        omega
    · rw [natDigitsAux, if_neg h10]
      obtain ⟨hdig, hne, hval⟩ := ih (n / 10) (by omega)
      refine ⟨?_, by simp [hne], ?_⟩
      · intro c hc
        simp only [List.mem_append, List.mem_singleton] at hc
        rcases hc with hc | hc
        · exact hdig c hc
        · subst hc
          exact digitChar_isDigit _ (by omega)
      · intro acc
        simp only [digitsVal, List.foldl_append] at hval ⊢
        rw [hval acc]
        simp only [List.foldl_cons, List.foldl_nil, List.length_append,
          List.length_singleton]
        rw [digitChar_toNat _ (by omega), pow_succ, ← mul_assoc]
        have hdm := Nat.div_add_mod n 10
        set P := acc * 10 ^ (natDigitsAux fuel (n / 10)).length with hP
        omega

/-- The continuation after a serialized number must not begin with a digit
(always true for `,`, `]`, a closing brace, or end of input). -/
def numStop : List Char → Prop
  | [] => True
  | c :: _ => c.isDigit = false

theorem parseDigitsGo_append : ∀ ds rest acc, (∀ c ∈ ds, c.isDigit = true) → numStop rest →
    parseDigitsGo (ds ++ rest) acc = (digitsVal acc ds, rest)
  | [], rest, acc, _, hr => by
    cases rest with
    | nil => rfl
    | cons c t =>
      simp only [List.nil_append, parseDigitsGo, digitsVal, List.foldl_nil]
      rw [if_neg (by simpa [numStop] using hr)]
  | d :: ds, rest, acc, hds, hr => by
    simp only [List.cons_append, parseDigitsGo, List.append_eq]
    rw [if_pos (hds d (by simp))]
    rw [parseDigitsGo_append ds rest _ (fun c hc => hds c (by simp [hc])) hr]
    rfl

theorem parseNat_natDigits (n : Nat) (rest : List Char) (hr : numStop rest) :
    parseNat (natDigits n ++ rest) = some (n, rest) := by
  obtain ⟨hdig, hne, hval⟩ := natDigitsAux_spec (n + 1) n (by omega)
  show parseNat (natDigitsAux (n + 1) n ++ rest) = some (n, rest)
  cases hds : natDigitsAux (n + 1) n with
  | nil => exact absurd hds hne
  | cons d ds =>
    rw [hds] at hdig hval
    simp only [List.cons_append, parseNat]
    rw [if_pos (hdig d (by simp))]
    rw [show d :: (ds ++ rest) = (d :: ds) ++ rest by simp]
    rw [parseDigitsGo_append (d :: ds) rest 0 hdig hr]
    have := hval 0
    simp only [Nat.zero_mul, Nat.zero_add] at this
    rw [this]

theorem escChar_plain (c : Char) (h : plainChar c) : escChar c = [c] := by
  obtain ⟨h1, h2, h3, h4⟩ := h
  unfold escChar
  rw [if_neg h3, if_neg h4,
    if_neg (fun hEq => by rw [hEq] at h1; exact absurd h1 (by decide)),
    if_neg (fun hEq => by rw [hEq] at h1; exact absurd h1 (by decide)),
    if_neg (fun hEq => by rw [hEq] at h1; exact absurd h1 (by decide)),
    if_neg (fun hEq => by rw [hEq] at h1; exact absurd h1 (by decide)),
    if_neg (fun hEq => by rw [hEq] at h1; exact absurd h1 (by decide)),
    if_neg (by omega)]

theorem parseStringBody_quote (fuel : Nat) (rest : List Char) :
    parseStringBody (fuel + 1) ('"' :: rest) = some ([], rest) := by
  rw [parseStringBody, if_pos rfl]

theorem parseStringBody_cons_plain (fuel : Nat) (c : Char) (rest : List Char)
    (h1 : c ≠ '"') (h2 : c ≠ '\\') :
    parseStringBody (fuel + 1) (c :: rest) =
      (parseStringBody fuel rest).map (fun p => (c :: p.1, p.2)) := by
  rw [parseStringBody, if_neg h1, if_neg h2]

theorem parseStringBody_plain : ∀ cs : List Char, ∀ fuel rest, cs.length < fuel →
    (∀ c ∈ cs, plainChar c) →
    parseStringBody fuel ((cs.map escChar).flatten ++ '"' :: rest) = some (cs, rest)
  | [], fuel, rest, hf, _ => by
    match fuel, hf with
    | fuel + 1, _ =>
      simp only [List.map_nil, List.flatten_nil, List.nil_append]
      exact parseStringBody_quote fuel rest
  | c :: cs, fuel, rest, hf, h => by
    match fuel, hf with
    | fuel + 1, hf =>
      have hc := h c (by simp)
      simp only [List.map_cons, List.flatten_cons, escChar_plain c hc, List.cons_append,
        List.nil_append]
      rw [parseStringBody_cons_plain fuel c _ hc.2.2.1 hc.2.2.2]
      rw [parseStringBody_plain cs fuel rest (by simp at hf; omega)
        (fun x hx => h x (by simp [hx]))]
      rfl

/-- A plain string serializes to exactly its own characters. -/
theorem flatten_escChar_length (cs : List Char) (h : ∀ c ∈ cs, plainChar c) :
    ((cs.map escChar).flatten).length = cs.length := by
  induction cs with
  | nil => rfl
  | cons c rest ih =>
    simp only [List.map_cons, List.flatten_cons, List.length_append, List.length_cons,
      escChar_plain c (h c (by simp)), List.length_singleton, List.length_nil]
    rw [ih (fun x hx => h x (by simp [hx]))]
    omega

theorem char_ne_of_digit (c d : Char) (hc : c.isDigit = true) (hd : d.isDigit = false) :
    c ≠ d := by
  intro h
  subst h
  rw [hc] at hd
  exact absurd hd (by decide)

theorem isWsChar_eq_false_of_isDigit (c : Char) (hd : c.isDigit = true) :
    isWsChar c = false := by
  cases hws : isWsChar c
  · rfl
  · exfalso
    have hmem : c = ' ' ∨ c = Char.ofNat 9 ∨ c = Char.ofNat 10 ∨ c = Char.ofNat 13 := by
      simpa [isWsChar] using hws
    rcases hmem with rfl | rfl | rfl | rfl <;> exact absurd hd (by decide)

/-! ### Sorting naturality and size lemmas -/

theorem insertPair_serFields (k : String) (v : Json) :
    ∀ fs, insertPair (k, serValue v) (serFields fs) = serFields (insertField (k, v) fs)
  | [] => rfl
  | (k2, v2) :: fs => by
    simp only [serFields, insertPair, insertField]
    by_cases hlt : strLtB k2 k = true
    · rw [if_pos hlt, if_pos hlt, insertPair_serFields k v fs]
      rfl
    · rw [if_neg hlt, if_neg hlt]
      rfl

theorem sortPairs_serFields : ∀ fs, sortPairs (serFields fs) = serFields (sortFields fs)
  | [] => rfl
  | (k, v) :: fs => by
    simp only [serFields, sortPairs, sortFields]
    rw [sortPairs_serFields fs, insertPair_serFields]

theorem canonF_insertField (k : String) (v : Json) :
    ∀ fs, canonF (insertField (k, v) fs) = insertField (k, canonV v) (canonF fs)
  | [] => rfl
  | (k2, v2) :: fs => by
    simp only [canonF, insertField]
    by_cases hlt : strLtB k2 k = true
    · rw [if_pos hlt, if_pos hlt]
      simp only [canonF, canonF_insertField k v fs]
    · rw [if_neg hlt, if_neg hlt]
      rfl

theorem canonF_sortFields : ∀ fs, canonF (sortFields fs) = sortFields (canonF fs)
  | [] => rfl
  | (k, v) :: fs => by
    simp only [sortFields, canonF]
    rw [canonF_insertField, canonF_sortFields fs]

theorem jsizeF_insertField (k : String) (v : Json) :
    ∀ fs, jsizeF (insertField (k, v) fs) = 1 + jsizeV v + jsizeF fs
  | [] => rfl
  | (k2, v2) :: fs => by
    simp only [insertField]
    by_cases hlt : strLtB k2 k = true
    · rw [if_pos hlt]
      simp only [jsizeF, jsizeF_insertField k v fs]
      omega
    · rw [if_neg hlt]
      rfl

theorem jsizeF_sortFields : ∀ fs, jsizeF (sortFields fs) = jsizeF fs
  | [] => rfl
  | (k, v) :: fs => by
    simp only [sortFields, jsizeF]
    rw [jsizeF_insertField, jsizeF_sortFields fs]

theorem PlainF_insertField (k : String) (v : Json) (hk : plainStr k) (hv : PlainV v) :
    ∀ fs, PlainF fs → PlainF (insertField (k, v) fs)
  | [], _ => ⟨hk, hv, trivial⟩
  | (k2, v2) :: fs, hf => by
    simp only [insertField]
    by_cases hlt : strLtB k2 k = true
    · rw [if_pos hlt]
      simp only [PlainF] at hf ⊢
      exact ⟨hf.1, hf.2.1, PlainF_insertField k v hk hv fs hf.2.2⟩
    · rw [if_neg hlt]
      exact ⟨hk, hv, hf⟩

theorem PlainF_sortFields : ∀ fs, PlainF fs → PlainF (sortFields fs)
  | [], h => h
  | (k, v) :: fs, h => by
    simp only [PlainF] at h
    exact PlainF_insertField k v h.1 h.2.1 _ (PlainF_sortFields fs h.2.2)

theorem insertField_ne_nil (p : String × Json) : ∀ fs, insertField p fs ≠ []
  | [] => by simp [insertField]
  | q :: fs => by
    simp only [insertField]
    by_cases hlt : strLtB q.1 p.1 = true
    · rw [if_pos hlt]; simp
    · rw [if_neg hlt]; simp

theorem sortFields_ne_nil (fs : List (String × Json)) (h : fs ≠ []) :
    sortFields fs ≠ [] := by
  cases fs with
  | nil => exact absurd rfl h
  | cons p fs => exact insertField_ne_nil p (sortFields fs)

theorem jsizeV_pos (v : Json) : 1 ≤ jsizeV v := by
  cases v <;> simp [jsizeV]

/-- A serialized value starts with a character that is not whitespace and not
a list/object delimiter. -/
theorem serValue_head (v : Json) : ∃ c t, serValue v = c :: t ∧ isWsChar c = false ∧
    c ≠ ']' ∧ c ≠ Char.ofNat 125 ∧ c ≠ ',' := by
  cases v with
  | null => exact ⟨'n', _, rfl, by decide, by decide, by decide, by decide⟩
  | bool b =>
    cases b
    · exact ⟨'f', _, rfl, by decide, by decide, by decide, by decide⟩
    · exact ⟨'t', _, rfl, by decide, by decide, by decide, by decide⟩
  | num i =>
    by_cases hi : i < 0
    · refine ⟨'-', natDigits i.natAbs, ?_, by decide, by decide, by decide, by decide⟩
      simp [serValue, serInt, hi]
    · obtain ⟨hdig, hne, _⟩ := natDigitsAux_spec (i.natAbs + 1) i.natAbs (by omega)
      cases hds : natDigitsAux (i.natAbs + 1) i.natAbs with
      | nil => exact absurd hds hne
      | cons d ds =>
        rw [hds] at hdig
        have hd : d.isDigit = true := hdig d (by simp)
        refine ⟨d, ds, ?_, isWsChar_eq_false_of_isDigit d hd,
          char_ne_of_digit d _ hd (by decide), char_ne_of_digit d _ hd (by decide),
          char_ne_of_digit d _ hd (by decide)⟩
        simp only [serValue, serInt, if_neg hi, natDigits, hds]
  | str s => exact ⟨'"', _, rfl, by decide, by decide, by decide, by decide⟩
  | arr xs => exact ⟨'[', _, rfl, by decide, by decide, by decide, by decide⟩
  | obj fs => exact ⟨Char.ofNat 123, _, rfl, by decide, by decide, by decide, by decide⟩

theorem skipWs_quote (rest : List Char) : skipWs ('"' :: rest) = '"' :: rest :=
  skipWs_cons _ _ (by decide)

theorem skipWs_colon (rest : List Char) : skipWs (':' :: rest) = ':' :: rest :=
  skipWs_cons _ _ (by decide)

theorem skipWs_comma (rest : List Char) : skipWs (',' :: rest) = ',' :: rest :=
  skipWs_cons _ _ (by decide)

theorem skipWs_rbrack (rest : List Char) : skipWs (']' :: rest) = ']' :: rest :=
  skipWs_cons _ _ (by decide)

theorem skipWs_rbrace (rest : List Char) :
    skipWs (Char.ofNat 125 :: rest) = Char.ofNat 125 :: rest :=
  skipWs_cons _ _ (by decide)

/-- One step of `parseElems` when the element parse is known. -/
theorem parseElems_step (fuel : Nat) (s : List Char) (v : Json) (r : List Char)
    (h : parseValue fuel s = some (v, r)) :
    parseElems (fuel + 1) s =
      match skipWs r with
      | [] => none
      | c :: r2 =>
        if c = ',' then (parseElems fuel r2).map (fun p => (v :: p.1, p.2))
        else if c = ']' then some ([v], r2)
        else none := by
  rw [parseElems, h]

/-- One step of `parseFields` when the key, colon and value parses are known. -/
theorem parseFields_step (fuel : Nat) (s rest : List Char)
    (hs : skipWs s = '"' :: rest) (kcs : List Char) (r : List Char)
    (hsb : parseStringBody rest.length rest = some (kcs, r))
    (r2 : List Char) (hr : skipWs r = ':' :: r2)
    (v : Json) (r3 : List Char) (hv : parseValue fuel r2 = some (v, r3)) :
    parseFields (fuel + 1) s =
      match skipWs r3 with
      | [] => none
      | c3 :: r4 =>
        if c3 = ',' then (parseFields fuel r4).map (fun p => ((⟨kcs⟩, v) :: p.1, p.2))
        else if c3 = Char.ofNat 125 then some ([(⟨kcs⟩, v)], r4)
        else none := by
  rw [parseFields, hs]
  simp only [reduceIte, Char.reduceEq, hsb, hr, hv]

/-- Round trip for values, array elements and object fields, by induction on
the parser fuel. -/
theorem parse_ser_aux : ∀ n : Nat,
    (∀ v : Json, ∀ rest, PlainV v → jsizeV v ≤ n → numStop rest →
      parseValue n (serValue v ++ rest) = some (canonV v, rest)) ∧
    (∀ xs : List Json, ∀ rest, xs ≠ [] → PlainL xs → jsizeL xs ≤ n →
      parseElems n (serElems xs ++ ']' :: rest) = some (canonL xs, rest)) ∧
    (∀ gs : List (String × Json), ∀ rest, gs ≠ [] → PlainF gs → jsizeF gs ≤ n →
      parseFields n (joinFields (serFields gs) ++ Char.ofNat 125 :: rest) =
        some (canonF gs, rest)) := by
  intro n
  induction n with
  | zero =>
    refine ⟨fun v rest _ hsz _ => absurd hsz (by have := jsizeV_pos v; omega), ?_, ?_⟩
    · intro xs rest hne _ hsz
      cases xs with
      | nil => exact absurd rfl hne
      | cons v vs => simp only [jsizeL] at hsz; omega
    · intro gs rest hne _ hsz
      cases gs with
      | nil => exact absurd rfl hne
      | cons p fs =>
        obtain ⟨k, v⟩ := p
        simp only [jsizeF] at hsz
        omega
  | succ fuel ih =>
    obtain ⟨ihV, ihL, ihF⟩ := ih
    refine ⟨?_, ?_, ?_⟩
    · -- values
      intro v rest hp hsz hstop
      cases v with
      | null =>
        simp only [serValue, List.cons_append, List.nil_append, parseValue]
        rw [skipWs_cons _ _ (by decide)]
        simp [afterLit, canonV]
      | bool b =>
        cases b
        · simp only [serValue, List.cons_append, List.nil_append, parseValue]
          rw [skipWs_cons _ _ (by decide)]
          simp [afterLit, canonV]
        · simp only [serValue, List.cons_append, List.nil_append, parseValue]
          rw [skipWs_cons _ _ (by decide)]
          simp [afterLit, canonV]
      | num i =>
        by_cases hi : i < 0
        · simp only [serValue, serInt, if_pos hi, List.cons_append, parseValue]
          rw [skipWs_cons _ _ (by decide)]
          simp only [reduceIte, Char.reduceEq]
          rw [parseNat_natDigits _ _ hstop]
          simp only [Option.map_some', canonV, Option.some.injEq, Prod.mk.injEq, and_true]
          congr 1
          omega
        · obtain ⟨hdig, hne, _⟩ := natDigitsAux_spec (i.natAbs + 1) i.natAbs (by omega)
          cases hds : natDigitsAux (i.natAbs + 1) i.natAbs with
          | nil => exact absurd hds hne
          | cons d ds =>
            rw [hds] at hdig
            have hd : d.isDigit = true := hdig d (by simp)
            have hser : serValue (.num i) = d :: ds := by
              simp only [serValue, serInt, if_neg hi, natDigits, hds]
            rw [hser, List.cons_append, parseValue]
            rw [skipWs_cons _ _ (isWsChar_eq_false_of_isDigit d hd)]
            simp only [char_ne_of_digit d 'n' hd (by decide),
              char_ne_of_digit d 't' hd (by decide), char_ne_of_digit d 'f' hd (by decide),
              char_ne_of_digit d '"' hd (by decide), char_ne_of_digit d '[' hd (by decide),
              char_ne_of_digit d (Char.ofNat 123) hd (by decide),
              char_ne_of_digit d '-' hd (by decide), hd, reduceIte, if_true, if_false]
            rw [show d :: (ds ++ rest) = natDigits i.natAbs ++ rest by
              simp only [natDigits, hds, List.cons_append]]
            rw [parseNat_natDigits _ _ hstop]
            simp only [Option.map_some', canonV, Option.some.injEq, Prod.mk.injEq,
              and_true]
            congr 1
            omega
      | str s =>
        simp only [serValue, serStr, List.cons_append, List.append_assoc,
          List.singleton_append, List.nil_append, parseValue]
        rw [skipWs_cons _ _ (by decide)]
        simp only [reduceIte, Char.reduceEq]
        have hps : plainStr s := hp
        rw [parseStringBody_plain s.data
          ((s.data.map escChar).flatten ++ '"' :: rest).length rest
          (by rw [List.length_append, flatten_escChar_length s.data hps, List.length_cons]
              omega)
          hps]
        simp [canonV]
      | arr xs =>
        cases xs with
        | nil =>
          simp only [serValue, serElems, List.nil_append, List.cons_append, parseValue]
          rw [skipWs_cons _ _ (by decide)]
          simp only [reduceIte, Char.reduceEq]
          rw [skipWs_cons _ _ (by decide)]
          simp [canonV, canonL]
        | cons v vs =>
          simp only [serValue, List.cons_append, List.append_assoc,
            List.singleton_append, List.nil_append, parseValue]
          rw [skipWs_cons _ _ (by decide)]
          simp only [reduceIte, Char.reduceEq]
          obtain ⟨c, t, hst, hws, hne1, hne2, hne3⟩ := serValue_head v
          have hhead : ∃ tail, serElems (v :: vs) ++ ']' :: rest = c :: tail := by
            cases vs with
            | nil =>
              simp only [serElems, hst, List.cons_append]
              exact ⟨t ++ ']' :: rest, rfl⟩
            | cons v2 vs2 =>
              simp only [serElems, hst, List.cons_append, List.append_assoc]
              exact ⟨_, rfl⟩
          obtain ⟨tail, htail⟩ := hhead
          rw [htail, skipWs_cons _ _ hws]
          simp only [hne1, ite_false, if_false, reduceIte]
          rw [← htail]
          rw [ihL (v :: vs) rest (by simp) hp (by simp only [jsizeV] at hsz; omega)]
          simp [canonV]
      | obj fs =>
        cases fs with
        | nil =>
          simp only [serValue, serFields, sortFields, sortPairs, joinFields,
            List.nil_append, List.cons_append, parseValue]
          rw [skipWs_cons _ _ (by decide)]
          simp only [reduceIte, Char.reduceEq]
          rw [skipWs_cons _ _ (by decide)]
          simp [canonV, canonF, sortFields]
        | cons p fs0 =>
          simp only [serValue, List.cons_append, List.append_assoc,
            List.singleton_append, List.nil_append, parseValue]
          rw [skipWs_cons _ _ (by decide)]
          simp only [reduceIte, Char.reduceEq]
          rw [sortPairs_serFields]
          have hsne : sortFields (p :: fs0) ≠ [] := sortFields_ne_nil _ (by simp)
          obtain ⟨q, gs, hgs⟩ : ∃ q gs, sortFields (p :: fs0) = q :: gs := by
            cases hgs : sortFields (p :: fs0) with
            | nil => exact absurd hgs hsne
            | cons q gs => exact ⟨q, gs, rfl⟩
          have hhead : ∃ tail, joinFields (serFields (sortFields (p :: fs0))) ++
              Char.ofNat 125 :: rest = '"' :: tail := by
            rw [hgs]
            obtain ⟨k1, v1⟩ := q
            cases gs with
            | nil =>
              simp only [serFields, joinFields, serStr, List.cons_append,
                List.append_assoc]
              exact ⟨_, rfl⟩
            | cons q2 gs2 =>
              obtain ⟨k2, v2⟩ := q2
              simp only [serFields, joinFields, serStr, List.cons_append,
                List.append_assoc]
              exact ⟨_, rfl⟩
          obtain ⟨tail, htail⟩ := hhead
          rw [htail, skipWs_cons _ _ (by decide)]
          simp only [reduceIte, Char.reduceEq]
          rw [← htail]
          rw [ihF (sortFields (p :: fs0)) rest hsne (PlainF_sortFields _ hp)
            (by rw [jsizeF_sortFields]; simp only [jsizeV] at hsz; omega)]
          simp only [Option.map_some', canonV, canonF_sortFields]
    · -- array elements
      intro xs rest hne hp hsz
      cases xs with
      | nil => exact absurd rfl hne
      | cons v vs =>
        cases vs with
        | nil =>
          simp only [serElems]
          rw [parseElems_step fuel _ _ _ (ihV v (']' :: rest) hp.1
            (by simp only [jsizeL] at hsz; omega) (by simp [numStop]))]
          rw [skipWs_rbrack]
          simp only [reduceIte, Char.reduceEq]
          simp [canonL]
        | cons v2 vs2 =>
          simp only [serElems, List.append_assoc, List.cons_append]
          rw [parseElems_step fuel _ _ _ (ihV v
            (',' :: (serElems (v2 :: vs2) ++ ']' :: rest)) hp.1
            (by simp only [jsizeL] at hsz; omega) (by simp [numStop]))]
          rw [skipWs_comma]
          simp only [reduceIte, Char.reduceEq]
          rw [ihL (v2 :: vs2) rest (by simp) hp.2
            (by simp only [jsizeL] at hsz ⊢; omega)]
          simp [canonL]
    · -- object fields
      intro gs rest hne hp hsz
      cases gs with
      | nil => exact absurd rfl hne
      | cons kv fs =>
        obtain ⟨k, v⟩ := kv
        obtain ⟨hk, hv, hfs⟩ : plainStr k ∧ PlainV v ∧ PlainF fs := hp
        cases fs with
        | nil =>
          simp only [serFields, joinFields, serStr, List.cons_append, List.append_assoc,
            List.singleton_append, List.nil_append]
          rw [parseFields_step fuel _ _ (skipWs_quote _) k.data _
            (parseStringBody_plain k.data _ _
              (by
                rw [List.length_append, flatten_escChar_length k.data hk, List.length_cons]
                omega)
              hk)
            _ (skipWs_colon _) (canonV v) _
            (ihV v _ hv (by simp only [jsizeF] at hsz; omega) (by simp [numStop]))]
          rw [skipWs_rbrace]
          simp only [reduceIte, Char.reduceEq]
          simp [canonF]
        | cons kv2 fs2 =>
          obtain ⟨k2, v2⟩ := kv2
          simp only [serFields, joinFields, serStr, List.cons_append, List.append_assoc,
            List.singleton_append, List.nil_append]
          rw [parseFields_step fuel _ _ (skipWs_quote _) k.data _
            (parseStringBody_plain k.data _ _
              (by
                rw [List.length_append, flatten_escChar_length k.data hk, List.length_cons]
                omega)
              hk)
            _ (skipWs_colon _) (canonV v) _
            (ihV v _ hv (by simp only [jsizeF] at hsz; omega) (by simp [numStop]))]
          rw [skipWs_comma]
          simp only [reduceIte, Char.reduceEq]
          have hrec := ihF ((k2, v2) :: fs2) rest (by simp) hfs
            (by simp only [jsizeF] at hsz ⊢; omega)
          simp only [serFields, joinFields, serStr, List.cons_append, List.append_assoc,
            List.singleton_append, List.nil_append] at hrec
          rw [hrec]
          simp [canonF]

/-- Parsing a canonically serialized value yields its canonical form and
consumes exactly the serialized text. -/
theorem parse_serValue (v : Json) (fuel : Nat) (rest : List Char) (hp : PlainV v)
    (hsz : jsizeV v ≤ fuel) (hstop : numStop rest) :
    parseValue fuel (serValue v ++ rest) = some (canonV v, rest) :=
  (parse_ser_aux fuel).1 v rest hp hsz hstop

/-- The fuel measure is at most twice the serialized length. -/
theorem jsize_le_serLen_aux : ∀ n : Nat,
    (∀ v : Json, jsizeV v ≤ n → jsizeV v ≤ 2 * (serValue v).length) ∧
    (∀ xs : List Json, jsizeL xs ≤ n → jsizeL xs ≤ 2 * (serElems xs).length + 2) ∧
    (∀ gs : List (String × Json), jsizeF gs ≤ n →
      jsizeF gs ≤ 2 * (joinFields (serFields gs)).length + 2) := by
  intro n
  induction n with
  | zero =>
    refine ⟨fun v h => absurd h (by have := jsizeV_pos v; omega), ?_, ?_⟩
    · intro xs h
      cases xs <;> simp only [jsizeL] at h <;> omega
    · intro gs h
      cases gs with
      | nil => simp only [jsizeF] at h; omega
      | cons p fs =>
        obtain ⟨k, v⟩ := p
        simp only [jsizeF] at h
        omega
  | succ n ih =>
    obtain ⟨ihV, ihL, ihF⟩ := ih
    refine ⟨?_, ?_, ?_⟩
    · intro v hsz
      cases v with
      | null => simp [jsizeV, serValue]
      | bool b => cases b <;> simp [jsizeV, serValue]
      | num i =>
        have hne : serInt i ≠ [] := by
          obtain ⟨_, hne, _⟩ := natDigitsAux_spec (i.natAbs + 1) i.natAbs (by omega)
          unfold serInt
          split <;> simp [natDigits, hne]
        have : 1 ≤ (serInt i).length := by
          cases h : serInt i with
          | nil => exact absurd h hne
          | cons a l => simp
        simp only [jsizeV, serValue]
        omega
      | str s =>
        simp only [jsizeV, serValue, serStr, List.length_cons, List.length_append]
        omega
      | arr xs =>
        have hL := ihL xs (by simp only [jsizeV] at hsz; omega)
        simp only [jsizeV, serValue, List.length_cons, List.length_append,
          List.length_singleton] at hsz ⊢
        omega
      | obj fs =>
        have hF := ihF (sortFields fs)
          (by rw [jsizeF_sortFields]; simp only [jsizeV] at hsz; omega)
        rw [jsizeF_sortFields] at hF
        simp only [jsizeV, serValue, sortPairs_serFields, List.length_cons,
          List.length_append, List.length_singleton] at hsz ⊢
        omega
    · intro xs hsz
      cases xs with
      | nil => simp [jsizeL, serElems]
      | cons v vs =>
        have hV := ihV v (by simp only [jsizeL] at hsz; omega)
        cases vs with
        | nil =>
          simp only [jsizeL, serElems] at hsz ⊢
          omega
        | cons v2 vs2 =>
          have hL := ihL (v2 :: vs2) (by simp only [jsizeL] at hsz ⊢; omega)
          simp only [jsizeL, serElems, List.length_append, List.length_cons] at hsz hL ⊢
          omega
    · intro gs hsz
      cases gs with
      | nil => simp [jsizeF, joinFields, serFields]
      | cons kv fs =>
        obtain ⟨k, v⟩ := kv
        have hV := ihV v (by simp only [jsizeF] at hsz; omega)
        cases fs with
        | nil =>
          simp only [jsizeF, serFields, joinFields, serStr, List.length_append,
            List.length_cons] at hsz ⊢
          omega
        | cons kv2 fs2 =>
          obtain ⟨k2, v2⟩ := kv2
          have hF := ihF ((k2, v2) :: fs2) (by simp only [jsizeF] at hsz ⊢; omega)
          simp only [jsizeF, serFields, joinFields, serStr, List.length_append,
            List.length_cons] at hsz hF ⊢
          omega

theorem jsizeV_le_serLen (v : Json) : jsizeV v ≤ 2 * (serValue v).length :=
  (jsize_le_serLen_aux (jsizeV v)).1 v le_rfl

/-- `json.loads` of a canonically serialized plain value returns its
canonical form. -/
theorem jsonLoadsChars_ser (v : Json) (hp : PlainV v) :
    jsonLoadsChars (serValue v) = some (canonV v) := by
  unfold jsonLoadsChars
  have h := parse_serValue v (2 * (serValue v).length + 2) [] hp
    (by have := jsizeV_le_serLen v; omega) trivial
  rw [List.append_nil] at h
  rw [h]
  rfl

/-! ### ASCII output and permutation lemmas -/

theorem natDigitsAux_ascii : ∀ fuel n, ∀ c ∈ natDigitsAux fuel n, c.toNat < 128 := by
  intro fuel
  induction fuel with
  | zero => intro n c hc; simp [natDigitsAux] at hc
  | succ fuel ih =>
    intro n c hc
    rw [natDigitsAux] at hc
    by_cases h10 : n < 10
    · rw [if_pos h10] at hc
      simp only [List.mem_singleton] at hc
      subst hc
      rw [digitChar_toNat n h10]
      omega
    · rw [if_neg h10] at hc
      simp only [List.mem_append, List.mem_singleton] at hc
      rcases hc with hc | hc
      · exact ih (n / 10) c hc
      · subst hc
        rw [digitChar_toNat _ (by omega)]
        omega

theorem serInt_ascii (i : Int) : ∀ c ∈ serInt i, c.toNat < 128 := by
  intro c hc
  unfold serInt at hc
  split at hc
  · simp only [List.mem_cons] at hc
    rcases hc with rfl | hc
    · decide
    · exact natDigitsAux_ascii _ _ c hc
  · exact natDigitsAux_ascii _ _ c hc

theorem serStr_ascii (s : String) (hs : plainStr s) : ∀ c ∈ serStr s, c.toNat < 128 := by
  intro c hc
  simp only [serStr, List.mem_cons, List.mem_append, List.mem_singleton,
    List.not_mem_nil, or_false] at hc
  rcases hc with (rfl | hc) | rfl
  · decide
  · rw [List.mem_flatten] at hc
    obtain ⟨l, hl, hcl⟩ := hc
    rw [List.mem_map] at hl
    obtain ⟨c0, hc0, rfl⟩ := hl
    rw [escChar_plain c0 (hs c0 hc0)] at hcl
    simp only [List.mem_singleton] at hcl
    subst hcl
    have hlt := (hs c hc0).2.1
    omega
  · decide

/-- All characters of a serialized plain value are ASCII. -/
theorem serValue_ascii_aux : ∀ n : Nat,
    (∀ v : Json, jsizeV v ≤ n → PlainV v → ∀ c ∈ serValue v, c.toNat < 128) ∧
    (∀ xs : List Json, jsizeL xs ≤ n → PlainL xs → ∀ c ∈ serElems xs, c.toNat < 128) ∧
    (∀ gs : List (String × Json), jsizeF gs ≤ n → PlainF gs →
      ∀ c ∈ joinFields (serFields gs), c.toNat < 128) := by
  intro n
  induction n with
  | zero =>
    refine ⟨fun v h => absurd h (by have := jsizeV_pos v; omega), ?_, ?_⟩
    · intro xs h
      cases xs with
      | nil => intro _ c hc; simp [serElems] at hc
      | cons v vs => simp only [jsizeL] at h; omega
    · intro gs h
      cases gs with
      | nil => intro _ c hc; simp [serFields, joinFields] at hc
      | cons p fs =>
        obtain ⟨k, v⟩ := p
        simp only [jsizeF] at h
        omega
  | succ n ih =>
    obtain ⟨ihV, ihL, ihF⟩ := ih
    refine ⟨?_, ?_, ?_⟩
    · intro v hsz hp c hc
      cases v with
      | null => fin_cases hc <;> decide
      | bool b => cases b <;> simp only [serValue] at hc <;> (fin_cases hc <;> decide)
      | num i => exact serInt_ascii i c hc
      | str s => exact serStr_ascii s hp c hc
      | arr xs =>
        simp only [serValue, List.mem_cons, List.mem_append, List.mem_singleton,
          List.not_mem_nil, or_false] at hc
        rcases hc with (rfl | hc) | rfl
        · decide
        · exact ihL xs (by simp only [jsizeV] at hsz; omega) hp c hc
        · decide
      | obj fs =>
        simp only [serValue, sortPairs_serFields, List.mem_cons, List.mem_append,
          List.mem_singleton, List.not_mem_nil, or_false] at hc
        rcases hc with (rfl | hc) | rfl
        · decide
        · exact ihF (sortFields fs)
            (by rw [jsizeF_sortFields]; simp only [jsizeV] at hsz; omega)
            (PlainF_sortFields _ hp) c hc
        · decide
    · intro xs hsz hp c hc
      cases xs with
      | nil => simp [serElems] at hc
      | cons v vs =>
        cases vs with
        | nil => exact ihV v (by simp only [jsizeL] at hsz; omega) hp.1 c hc
        | cons v2 vs2 =>
          simp only [serElems, List.mem_append, List.mem_cons] at hc
          rcases hc with hc | rfl | hc
          · exact ihV v (by simp only [jsizeL] at hsz; omega) hp.1 c hc
          · decide
          · exact ihL (v2 :: vs2) (by simp only [jsizeL] at hsz ⊢; omega) hp.2 c hc
    · intro gs hsz hp c hc
      cases gs with
      | nil => simp [serFields, joinFields] at hc
      | cons kv fs =>
        obtain ⟨k, v⟩ := kv
        obtain ⟨hk, hv, hfs⟩ : plainStr k ∧ PlainV v ∧ PlainF fs := hp
        cases fs with
        | nil =>
          simp only [serFields, joinFields, List.mem_append, List.mem_cons] at hc
          rcases hc with hc | rfl | hc
          · exact serStr_ascii k hk c hc
          · decide
          · exact ihV v (by simp only [jsizeF] at hsz; omega) hv c hc
        | cons kv2 fs2 =>
          obtain ⟨k2, v2⟩ := kv2
          simp only [serFields, joinFields, List.mem_append, List.mem_cons] at hc
          have hjoin := ihF ((k2, v2) :: fs2) (by simp only [jsizeF] at hsz ⊢; omega) hfs c
          simp only [serFields, joinFields] at hjoin
          rcases hc with (hc | rfl | hc) | (rfl | hc)
          · exact serStr_ascii k hk c hc
          · decide
          · exact ihV v (by simp only [jsizeF] at hsz; omega) hv c hc
          · decide
          · exact hjoin hc

theorem serValue_ascii (v : Json) (hp : PlainV v) : ∀ c ∈ serValue v, c.toNat < 128 :=
  (serValue_ascii_aux (jsizeV v)).1 v le_rfl hp

/-- Insertion keeps exactly the same fields. -/
theorem insertField_perm (p : String × Json) :
    ∀ fs, List.Perm (insertField p fs) (p :: fs)
  | [] => List.Perm.refl _
  | q :: fs => by
    simp only [insertField]
    by_cases hlt : strLtB q.1 p.1 = true
    · rw [if_pos hlt]
      exact ((insertField_perm p fs).cons q).trans (List.Perm.swap p q fs)
    · rw [if_neg hlt]

theorem sortFields_perm : ∀ fs, List.Perm (sortFields fs) fs
  | [] => List.Perm.refl _
  | p :: fs =>
    (insertField_perm p (sortFields fs)).trans ((sortFields_perm fs).cons p)

theorem canonF_map (fs : List (String × Json)) :
    canonF fs = fs.map (fun p => (p.1, canonV p.2)) := by
  induction fs with
  | nil => rfl
  | cons p fs ih =>
    obtain ⟨k, v⟩ := p
    simp [canonF, ih]

/-- Lookup in a field list with unique keys finds the unique binding. -/
theorem objLookup_eq_of_mem : ∀ gs : List (String × Json), ∀ key v,
    (key, v) ∈ gs → (gs.map Prod.fst).Nodup → objLookup gs key = some v
  | [], key, v, hmem, _ => by simp at hmem
  | (k0, v0) :: gs, key, v, hmem, hnodup => by
    simp only [objLookup]
    simp only [List.map_cons, List.nodup_cons] at hnodup
    by_cases hk : k0 = key
    · subst hk
      rw [if_pos rfl]
      simp only [List.mem_cons, Prod.mk.injEq] at hmem
      rcases hmem with ⟨_, rfl⟩ | hmem
      · rfl
      · exact absurd (List.mem_map_of_mem Prod.fst hmem) hnodup.1
    · rw [if_neg hk]
      simp only [List.mem_cons, Prod.mk.injEq] at hmem
      rcases hmem with ⟨hkey, _⟩ | hmem
      · exact absurd hkey.symm hk
      · exact objLookup_eq_of_mem gs key v hmem hnodup.2

end Js

/-! ## Signed capability tokens (`shared/security.py`) -/

namespace Token

open Crypto B64 Js

/-- The single error kind `TokenError`, split by message. -/
inductive TokenErr where
  | malformed
  | badSignature
  | invalidBody
  | invalidPayload
  | invalidExpiry
  | expired
deriving DecidableEq, Repr

/-- A decode failure: either a `TokenError` (the kind callers catch) or an
uncaught `UnicodeDecodeError` from `body.decode("utf-8")` (a server error,
not a `TokenError`). -/
inductive DecodeFailure where
  | tokenError (e : TokenErr)
  | unicodeError
deriving DecidableEq, Repr

/-- `token.split(".", 1)`: split at the first dot; `none` models the
`ValueError` of unpacking a splitless string. -/
def splitDotGo (acc : List Char) : List Char → Option (List Char × List Char)
  | [] => none
  | c :: rest => if c = '.' then some (acc.reverse, rest) else splitDotGo (c :: acc) rest

/-- `issue_token(secret, payload, expires_in=ttl)` at time `now`
(`int(time.time())`): body is canonical JSON of the payload with `exp`
set to `now + max(1, ttl)`, signed with HMAC-SHA256. -/
def issue_token (secret : String) (payload : List (String × Json)) (expires_in : Int)
    (now : Int) : String :=
  let exp : Int := now + max 1 expires_in
  let body : List Char := serValue (.obj (setField payload "exp" (.num exp)))
  let bodyBytes := strBytes ⟨body⟩
  let signature := hmacSha256 (strBytes secret) bodyBytes
  b64Encode bodyBytes ++ "." ++ b64Encode signature

/-- `decode_token(secret, token)` at time `now`. Mirrors the source order:
split, base64-decode both parts (any failure → malformed), constant-time
signature compare, UTF-8 + JSON decode, object check, integer `exp` check,
expiry check. -/
def decode_token (secret : String) (token : String) (now : Int) :
    Except DecodeFailure Json :=
  match splitDotGo [] token.data with
  | none => .error (.tokenError .malformed)
  | some (bodyPart, sigPart) =>
    match b64Decode ⟨bodyPart⟩, b64Decode ⟨sigPart⟩ with
    | some body, some signature =>
      if signature = hmacSha256 (strBytes secret) body then
        match utf8Decode body with
        | none => .error .unicodeError
        | some chars =>
          match jsonLoadsChars chars with
          | none => .error (.tokenError .invalidBody)
          | some payload =>
            match payload with
            | .obj fields =>
              match objLookup fields "exp" with
              | some (.num exp) =>
                if exp < now then .error (.tokenError .expired) else .ok (.obj fields)
              | _ => .error (.tokenError .invalidExpiry)
            | _ => .error (.tokenError .invalidPayload)
      else .error (.tokenError .badSignature)
    | _, _ => .error (.tokenError .malformed)

/-! ### Byte-range lemmas -/

theorem char_toNat_lt (c : Char) : c.toNat < 1114112 := by
  rcases c.valid with h | ⟨_, h2⟩
  · exact lt_trans h (by norm_num)
  · exact h2

theorem or_lt_256 {a b : Nat} (ha : a < 256) (hb : b < 256) : (a ||| b) < 256 := by
  have : a ||| b < 2 ^ 8 := Nat.or_lt_two_pow (by simpa using ha) (by simpa using hb)
  simpa using this

theorem utf8EncodeChar_lt256 (n : Nat) (hn : n < 1114112) :
    ∀ b ∈ utf8EncodeChar n, b < 256 := by
  intro b hb
  unfold utf8EncodeChar at hb
  have hshr : ∀ k m : Nat, k >>> m = k / 2 ^ m := fun k m => Nat.shiftRight_eq_div_pow k m
  split at hb
  · simp only [List.mem_singleton] at hb
    omega
  · split at hb
    · simp only [List.mem_cons, List.not_mem_nil, or_false] at hb
      rcases hb with rfl | rfl
      · exact or_lt_256 (by omega) (by rw [hshr]; omega)
      · exact or_lt_256 (by omega) (by have := Nat.and_le_right (n := n) (m := 63); omega)
    · split at hb
      · simp only [List.mem_cons, List.not_mem_nil, or_false] at hb
        rcases hb with rfl | rfl | rfl
        · exact or_lt_256 (by omega) (by rw [hshr]; omega)
        · exact or_lt_256 (by omega)
            (by have := Nat.and_le_right (n := n >>> 6) (m := 63); omega)
        · exact or_lt_256 (by omega) (by have := Nat.and_le_right (n := n) (m := 63); omega)
      · simp only [List.mem_cons, List.not_mem_nil, or_false] at hb
        rcases hb with rfl | rfl | rfl | rfl
        · exact or_lt_256 (by omega) (by rw [hshr]; omega)
        · exact or_lt_256 (by omega)
            (by have := Nat.and_le_right (n := n >>> 12) (m := 63); omega)
        · exact or_lt_256 (by omega)
            (by have := Nat.and_le_right (n := n >>> 6) (m := 63); omega)
        · exact or_lt_256 (by omega) (by have := Nat.and_le_right (n := n) (m := 63); omega)

theorem strBytes_lt256 (s : String) : ∀ b ∈ strBytes s, b < 256 := by
  intro b hb
  unfold strBytes at hb
  rw [List.mem_flatten] at hb
  obtain ⟨l, hl, hbl⟩ := hb
  rw [List.mem_map] at hl
  obtain ⟨c, _, rfl⟩ := hl
  exact utf8EncodeChar_lt256 c.toNat (char_toNat_lt c) b hbl

theorem natToBytesBE_lt256 : ∀ k n : Nat, ∀ b ∈ natToBytesBE k n, b < 256 := by
  intro k
  induction k with
  | zero => intro n b hb; simp [natToBytesBE] at hb
  | succ k ih =>
    intro n b hb
    rw [natToBytesBE] at hb
    simp only [List.mem_append, List.mem_singleton] at hb
    rcases hb with hb | rfl
    · exact ih (n / 256) b hb
    · omega

theorem sha256_lt256 (msg : List Nat) : ∀ b ∈ Crypto.sha256 msg, b < 256 := by
  intro b hb
  unfold Crypto.sha256 Crypto.wordsToBytes at hb
  rw [List.mem_flatten] at hb
  obtain ⟨l, hl, hbl⟩ := hb
  rw [List.mem_map] at hl
  obtain ⟨w, _, rfl⟩ := hl
  exact natToBytesBE_lt256 4 w b hbl

theorem hmacSha256_lt256 (key msg : List Nat) : ∀ b ∈ hmacSha256 key msg, b < 256 :=
  sha256_lt256 _

/-! ### Splitting and round-trip lemmas -/

theorem splitDotGo_append : ∀ a : List Char, ∀ acc b, (∀ c ∈ a, c ≠ '.') →
    splitDotGo acc (a ++ '.' :: b) = some (acc.reverse ++ a, b)
  | [], acc, b, _ => by simp [splitDotGo]
  | c :: a, acc, b, h => by
    simp only [List.cons_append, splitDotGo, List.append_eq]
    rw [if_neg (h c (by simp))]
    rw [splitDotGo_append a (c :: acc) b (fun x hx => h x (by simp [hx]))]
    simp

theorem PlainF_replaceMap (key : String) (v : Json) (hv : PlainV v) :
    ∀ fs, PlainF fs → PlainF (fs.map (fun p => if p.1 = key then (p.1, v) else p))
  | [], h => h
  | (k0, v0) :: fs, h => by
    obtain ⟨hk0, hv0, hrest⟩ : plainStr k0 ∧ PlainV v0 ∧ PlainF fs := h
    simp only [List.map_cons]
    by_cases hk : k0 = key
    · rw [if_pos (by simpa using hk)]
      exact ⟨hk0, hv, PlainF_replaceMap key v hv fs hrest⟩
    · rw [if_neg (by simpa using hk)]
      exact ⟨hk0, hv0, PlainF_replaceMap key v hv fs hrest⟩

theorem PlainF_append_single (key : String) (v : Json) (hkey : plainStr key)
    (hv : PlainV v) : ∀ fs, PlainF fs → PlainF (fs ++ [(key, v)])
  | [], _ => ⟨hkey, hv, trivial⟩
  | (k0, v0) :: fs, h => by
    obtain ⟨hk0, hv0, hrest⟩ : plainStr k0 ∧ PlainV v0 ∧ PlainF fs := h
    exact ⟨hk0, hv0, PlainF_append_single key v hkey hv fs hrest⟩

theorem PlainF_setField (key : String) (v : Json) (hkey : plainStr key) (hv : PlainV v)
    (fs : List (String × Json)) (hfs : PlainF fs) : PlainF (setField fs key v) := by
  unfold setField
  split
  · exact PlainF_replaceMap key v hv fs hfs
  · exact PlainF_append_single key v hkey hv fs hfs

theorem map_replace_keys (key : String) (v : Json) :
    ∀ fs : List (String × Json),
      (fs.map (fun p => if p.1 = key then (p.1, v) else p)).map Prod.fst = fs.map Prod.fst
  | [] => rfl
  | p :: fs => by
    simp only [List.map_cons]
    rw [map_replace_keys key v fs]
    by_cases hk : p.1 = key
    · rw [if_pos hk]
    · rw [if_neg hk]

/-- Keys after `setField`. -/
theorem setField_keys_replace (fs : List (String × Json)) (key : String) (v : Json)
    (h : fs.any (fun p => p.1 = key) = true) :
    (setField fs key v).map Prod.fst = fs.map Prod.fst := by
  unfold setField
  rw [if_pos h]
  exact map_replace_keys key v fs

/-- `("exp", v)` is a member of `setField fs "exp" v`. -/
theorem setField_mem (fs : List (String × Json)) (key : String) (v : Json) :
    (key, v) ∈ setField fs key v := by
  unfold setField
  split
  · rename_i h
    rw [List.any_eq_true] at h
    obtain ⟨p, hp, hpk⟩ := h
    rw [List.mem_map]
    refine ⟨p, hp, ?_⟩
    simp only [decide_eq_true_eq] at hpk
    rw [if_pos hpk, hpk]
  · simp

theorem mem_canonF (fs : List (String × Json)) (k : String) (v : Json)
    (h : (k, v) ∈ fs) : (k, canonV v) ∈ canonF fs := by
  rw [canonF_map, List.mem_map]
  exact ⟨(k, v), h, rfl⟩

theorem canonF_keys (fs : List (String × Json)) :
    (canonF fs).map Prod.fst = fs.map Prod.fst := by
  rw [canonF_map, List.map_map]
  rfl

theorem sortFields_keys_perm (fs : List (String × Json)) :
    List.Perm ((sortFields fs).map Prod.fst) (fs.map Prod.fst) :=
  (sortFields_perm fs).map Prod.fst

theorem setField_keys_nodup (fs : List (String × Json)) (key : String) (v : Json)
    (h : (fs.map Prod.fst).Nodup) : ((setField fs key v).map Prod.fst).Nodup := by
  unfold setField
  split
  · rw [map_replace_keys key v fs]
    exact h
  · rename_i hany
    rw [List.map_append]
    simp only [List.map_cons, List.map_nil]
    rw [List.nodup_append]
    refine ⟨h, List.nodup_singleton key, ?_⟩
    intro a ha hmem
    simp only [List.mem_singleton] at hmem
    subst hmem
    rw [List.mem_map] at ha
    obtain ⟨p, hp, hpk⟩ := ha
    rw [Bool.not_eq_true, List.any_eq_false] at hany
    have := hany p hp
    simp only [decide_eq_true_eq] at this
    exact this hpk

theorem plainStr_exp : plainStr "exp" := by
  unfold plainStr plainChar
  decide

/-- Decoding a freshly issued token with the same secret succeeds exactly
when the check time is not past `exp = issue_time + max(1, ttl)`, yielding
the canonical form of the payload with the `exp` field set. -/
theorem decode_issue (secret : String) (payload : List (String × Json))
    (ttl tIss tNow : Int) (hp : PlainF payload)
    (hnodup : (payload.map Prod.fst).Nodup) :
    decode_token secret (issue_token secret payload ttl tIss) tNow =
      if tIss + max 1 ttl < tNow then .error (.tokenError .expired)
      else .ok (canonV (.obj (setField payload "exp" (.num (tIss + max 1 ttl))))) := by
  set exp : Int := tIss + max 1 ttl with hexp
  set P : List (String × Json) := setField payload "exp" (.num exp) with hPdef
  have hPlainP : PlainF P := PlainF_setField "exp" (Json.num exp) plainStr_exp
    (show PlainV (Json.num exp) from trivial) payload hp
  have hPlainV : PlainV (Json.obj P) := hPlainP
  set bodyChars : List Char := serValue (Json.obj P) with hbody
  set A : List Nat := strBytes ⟨bodyChars⟩ with hA
  set B : List Nat := hmacSha256 (strBytes secret) A with hB
  have hAbytes : ∀ b ∈ A, b < 256 := strBytes_lt256 _
  have hBbytes : ∀ b ∈ B, b < 256 := hmacSha256_lt256 _ _
  have hdata : (issue_token secret payload ttl tIss).data =
      b64EncodeChars A ++ '.' :: b64EncodeChars B := by
    show (b64Encode (strBytes ⟨serValue (Json.obj (setField payload "exp"
        (.num (tIss + max 1 ttl))))⟩) ++ "." ++
      b64Encode (hmacSha256 (strBytes secret) (strBytes ⟨serValue (Json.obj (setField
        payload "exp" (.num (tIss + max 1 ttl))))⟩))).data = _
    rw [String.data_append, String.data_append, List.append_assoc]
    rfl
  have hsplit : splitDotGo [] ((issue_token secret payload ttl tIss).data) =
      some (b64EncodeChars A, b64EncodeChars B) := by
    rw [hdata, splitDotGo_append _ _ _ (b64Encode_ne_dot A hAbytes)]
    simp
  have hdecA : b64Decode ⟨b64EncodeChars A⟩ = some A := b64_roundtrip A hAbytes
  have hdecB : b64Decode ⟨b64EncodeChars B⟩ = some B := b64_roundtrip B hBbytes
  have hutf : utf8Decode A = some bodyChars := by
    rw [hA]
    exact utf8Decode_ascii ⟨bodyChars⟩ (serValue_ascii _ hPlainV)
  have hjson : jsonLoadsChars bodyChars = some (canonV (Json.obj P)) :=
    jsonLoadsChars_ser _ hPlainV
  have hcanon : canonV (Json.obj P) = Json.obj (sortFields (canonF P)) := rfl
  have hkeysNodup : ((sortFields (canonF P)).map Prod.fst).Nodup := by
    rw [(sortFields_keys_perm (canonF P)).nodup_iff, canonF_keys]
    exact setField_keys_nodup payload "exp" _ hnodup
  have hmem : ("exp", Json.num exp) ∈ sortFields (canonF P) := by
    rw [List.Perm.mem_iff (sortFields_perm (canonF P))]
    exact mem_canonF P "exp" (Json.num exp) (setField_mem payload "exp" (Json.num exp))
  have hlookup : objLookup (sortFields (canonF P)) "exp" = some (Json.num exp) :=
    objLookup_eq_of_mem _ "exp" (Json.num exp) hmem hkeysNodup
  unfold decode_token
  rw [hsplit]
  simp only [hdecA, hdecB, hB, eq_self_iff_true, if_true, hutf, hjson, hcanon, hlookup]

/-- A token in the wire format: base64url body (a serialized JSON object)
then `.` then a base64url signature (not necessarily the right one). -/
def mkToken (fields : List (String × Json)) (sig : List Nat) : String :=
  b64Encode (strBytes ⟨serValue (.obj fields)⟩) ++ "." ++ b64Encode sig

/-- Full characterization of `decode_token` on wire-format tokens: the
signature must be the HMAC of the body, the (canonicalized) payload must
carry an integer `exp`, and `exp` must not be in the past. -/
theorem decode_mkToken (secret : String) (fields : List (String × Json)) (sig : List Nat)
    (now : Int) (hp : PlainF fields) (hsig : ∀ b ∈ sig, b < 256) :
    decode_token secret (mkToken fields sig) now =
      if sig = hmacSha256 (strBytes secret) (strBytes ⟨serValue (.obj fields)⟩) then
        match objLookup (sortFields (canonF fields)) "exp" with
        | some (.num exp) =>
          if exp < now then .error (.tokenError .expired)
          else .ok (.obj (sortFields (canonF fields)))
        | _ => .error (.tokenError .invalidExpiry)
      else .error (.tokenError .badSignature) := by
  have hPlainV : PlainV (Json.obj fields) := hp
  set bodyChars : List Char := serValue (Json.obj fields) with hbody
  set A : List Nat := strBytes ⟨bodyChars⟩ with hA
  have hAbytes : ∀ b ∈ A, b < 256 := strBytes_lt256 _
  have hdata : (mkToken fields sig).data =
      b64EncodeChars A ++ '.' :: b64EncodeChars sig := by
    show (b64Encode (strBytes ⟨serValue (Json.obj fields)⟩) ++ "." ++ b64Encode sig).data = _
    rw [String.data_append, String.data_append, List.append_assoc]
    rfl
  have hsplit : splitDotGo [] ((mkToken fields sig).data) =
      some (b64EncodeChars A, b64EncodeChars sig) := by
    rw [hdata, splitDotGo_append _ _ _ (b64Encode_ne_dot A hAbytes)]
    simp
  have hdecA : b64Decode ⟨b64EncodeChars A⟩ = some A := b64_roundtrip A hAbytes
  have hdecS : b64Decode ⟨b64EncodeChars sig⟩ = some sig := b64_roundtrip sig hsig
  have hutf : utf8Decode A = some bodyChars := by
    rw [hA]
    exact utf8Decode_ascii ⟨bodyChars⟩ (serValue_ascii _ hPlainV)
  have hjson : jsonLoadsChars bodyChars = some (canonV (Json.obj fields)) :=
    jsonLoadsChars_ser _ hPlainV
  have hcanon : canonV (Json.obj fields) = Json.obj (sortFields (canonF fields)) := rfl
  unfold decode_token
  rw [hsplit]
  simp only [hdecA, hdecS, hutf, hjson, hcanon]

end Token

/-! ## Agent ticket verification (`agent/security.py`) -/

namespace Agent

open Js Token

/-- The message carried by each `TokenError` (`detail=str(exc)`). -/
def ticketErrDetail : TokenErr → String
  | .malformed => "Malformed token"
  | .badSignature => "Invalid token signature"
  | .invalidBody => "Invalid token body"
  | .invalidPayload => "Invalid token payload"
  | .invalidExpiry => "Invalid token expiry"
  | .expired => "Token expired"

/-- A ticket-verification failure: an HTTP error, or an uncaught exception
(`UnicodeDecodeError` escaping `decode_token`). -/
inductive VerifyFailure where
  | http (e : HErr)
  | uncaught
deriving DecidableEq, Repr

/-- `decode_ticket`: `TokenError` becomes a 401 with the message as detail. -/
def decode_ticket (secretKey ticket : String) (now : Int) : Except VerifyFailure Json :=
  match decode_token secretKey ticket now with
  | .ok claims => .ok claims
  | .error (.tokenError e) => .error (.http ⟨401, ticketErrDetail e⟩)
  | .error .unicodeError => .error .uncaught

/-- `claims.get(key)` (decoded claims are always a JSON object). -/
def jget (claims : Json) (key : String) : Option Json :=
  match claims with
  | .obj fields => objLookup fields key
  | _ => none

/-- `set(claims.get("permissions") or [])`: a JSON array yields its
elements, anything else (absent, `null`, `[]`) yields the empty set. -/
def permissionsOf (claims : Json) : List Json :=
  match jget claims "permissions" with
  | some (.arr xs) => xs
  | _ => []

/-- `required_permission in set(...)`: string equality against the
members (Python string equality with a non-string member is `False`). -/
def permsContains (xs : List Json) (p : String) : Bool :=
  xs.any (fun j =>
    match j with
    | .str s => s = p
    | _ => false)

/-- Python `claims.get(key) == lit` for a string literal: true exactly when
the claim is present and is that string (equality across types is false). -/
def ojeqStr (o : Option Json) (lit : String) : Bool :=
  match o with
  | some (.str t) => t = lit
  | _ => false

/-- `verify_read_ticket(ticket, share_id, required_permission)`. -/
def verify_read_ticket (secretKey ticket share_id required_permission : String)
    (now : Int) : Except VerifyFailure Json :=
  match decode_ticket secretKey ticket now with
  | .error e => .error e
  | .ok claims =>
    if ¬(ojeqStr (jget claims "kind") "read_ticket" ∨
        ojeqStr (jget claims "kind") "internal_agent") then
      .error (.http ⟨401, "Invalid read ticket"⟩)
    else if ¬ ojeqStr (jget claims "share_id") share_id then
      .error (.http ⟨403, "Ticket share mismatch"⟩)
    else if ojeqStr (jget claims "kind") "read_ticket" ∧
        permsContains (permissionsOf claims) required_permission = false then
      .error (.http ⟨403, "Permission denied"⟩)
    else .ok claims

/-- `verify_transfer_ticket(ticket, transfer_id, share_id)`. -/
def verify_transfer_ticket (secretKey ticket transfer_id share_id : String)
    (now : Int) : Except VerifyFailure Json :=
  match decode_ticket secretKey ticket now with
  | .error e => .error e
  | .ok claims =>
    if ¬ ojeqStr (jget claims "kind") "transfer_upload_ticket" then
      .error (.http ⟨401, "Invalid transfer ticket"⟩)
    else if ¬ ojeqStr (jget claims "transfer_id") transfer_id then
      .error (.http ⟨403, "Transfer ticket mismatch"⟩)
    else if ¬ ojeqStr (jget claims "receiver_share_id") share_id then
      .error (.http ⟨403, "Share mismatch"⟩)
    else .ok claims

end Agent

/-! ## Shared permission vocabulary (`shared/permissions.py`)

Python permission sets are modeled as lists; set membership is list
membership (normalization deduplicates, mirroring set construction). -/

namespace Perms

def PERMISSIONS : List String :=
  ["read", "download", "request_send", "accept_incoming", "manage_share"]

def OWNER_PERMISSIONS : List String :=
  ["read", "download", "request_send", "accept_incoming", "manage_share"]

def DEFAULT_EXTERNAL_PERMISSIONS : List String :=
  ["read", "download", "request_send"]

/-- `normalize_permissions`: strip each value, drop falsy/blank ones,
deduplicate (set construction), keep only known permissions. -/
def normalize_permissions (values : List String) : List String :=
  (((values.filter (fun v => !v.isEmpty && !(trimStr v).isEmpty)).map trimStr).eraseDups).filter
    (fun v => PERMISSIONS.contains v)

/-- Insert into a `≤`-sorted list of strings. -/
def insertStr (s : String) : List String → List String
  | [] => [s]
  | t :: rest => if Js.strLtB t s then t :: insertStr s rest else s :: t :: rest

/-- `sorted(...)` for strings (code-point order, as in Python). -/
def sortStrs : List String → List String
  | [] => []
  | s :: rest => insertStr s (sortStrs rest)

/-- `encode_permissions`: comma-join of the sorted normalized set. -/
def encode_permissions (values : List String) : String :=
  String.intercalate "," (sortStrs (normalize_permissions values))

/-- `decode_permissions`: `None` or empty raw yields the empty set. -/
def decode_permissions (raw : Option String) : List String :=
  match raw with
  | none => []
  | some r => if r.isEmpty then [] else normalize_permissions (splitChar ',' r)

end Perms

/-! ## Coordinator data rows -/

namespace Coord

/-- An `AgentDevice` row (fields used by ACL resolution and search). -/
structure AgentDevice where
  id : String
  owner_principal_id : String
  name : String
  base_url : String
  visibility : Bool
  online_state : Bool
  last_seen : Option Int
deriving DecidableEq, Repr

/-- A `Share` row. -/
structure Share where
  id : String
  agent_device_id : String
  name : String
deriving DecidableEq, Repr

/-- An `AclGrant` row. The database enforces at most one row per
`(principal_id, share_id)`; lookups take the first match. -/
structure AclGrant where
  principal_id : String
  share_id : String
  permissions_raw : String
deriving DecidableEq, Repr

end Coord

/-! ## ACL resolution (`coordinator/services/acl.py`) -/

namespace Acl

open Perms Coord

/-- `get_permissions_for_share`: `devices` stands for the `AgentDevice`
table (`db.get` is a primary-key lookup), `grants` for the `AclGrant`
table. -/
def get_permissions_for_share (devices : List AgentDevice) (grants : List AclGrant)
    (principal_id : String) (share : Share)
    (owner_principal_id : Option String) : List String :=
  let owner : Option String :=
    match owner_principal_id with
    | some o => some o
    | none =>
      match devices.find? (fun d => d.id == share.agent_device_id) with
      | some agent => some agent.owner_principal_id
      | none => none
  if owner = some principal_id then OWNER_PERMISSIONS
  else
    match grants.find? (fun g => g.principal_id == principal_id && g.share_id == share.id) with
    | some grant => decode_permissions (some grant.permissions_raw)
    | none => decode_permissions none

/-- `get_permissions_for_shares`: bulk variant used by federated search.
`owner_map` is the caller-supplied share-id → owner dictionary. -/
def get_permissions_for_shares (grants : List AclGrant) (principal_id : String)
    (shares : List Share) (owner_map : List (String × String)) :
    List (String × List String) :=
  if shares.isEmpty then []
  else
    shares.map (fun share =>
      (share.id,
        if owner_map.lookup share.id = some principal_id then OWNER_PERMISSIONS
        else
          match grants.find? (fun g => g.principal_id == principal_id && g.share_id == share.id) with
          | some g => decode_permissions (some g.permissions_raw)
          | none => []))

end Acl

/-! ## Passcode windows (`coordinator/services/passcode.py`)

Timestamps are UTC seconds as `Int`. Argon2 is modeled by its outcomes:
`hashed` stands for `_hasher.hash(passcode)` and `ok` for the result of
`_hasher.verify` (`False` when `VerifyMismatchError` is raised). -/

namespace Passcode

structure PasscodeWindow where
  passcode_hash : String
  attempts_left : Int
  failure_count : Nat
  locked_until : Option Int
  expires_at : Int
  opened_at : Option Int
  opened_by_principal_id : Option String
deriving DecidableEq, Repr

/-- `set_transfer_passcode` (row creation and reset paths coincide up to
the generated id, which is not modeled). -/
def set_transfer_passcode (passcode_window_seconds : Int)
    (_window : Option PasscodeWindow) (passcode : String) (hashed : String)
    (now : Int) : Except HErr PasscodeWindow :=
  if passcode.length != 4 || !(passcode.data.all Char.isDigit) then
    .error ⟨400, "Passcode must be 4 digits"⟩
  else
    .ok { passcode_hash := hashed
          attempts_left := 5
          failure_count := 0
          locked_until := none
          expires_at := now + passcode_window_seconds
          opened_at := none
          opened_by_principal_id := none }

/-- `verify_passcode_for_transfer`. The first component is the HTTP
outcome, the second the window state in the request's database session
after the call: `db.flush` makes the failure-path mutations visible
within the open transaction only, and this function commits nothing. -/
def verify_passcode_for_transfer (window : Option PasscodeWindow)
    (principal_id : String) (ok : Bool) (now : Int) :
    Except HErr PasscodeWindow × Option PasscodeWindow :=
  match window with
  | none => (.error ⟨400, "Passcode is not configured"⟩, none)
  | some w =>
    if w.expires_at < now then
      (.error ⟨410, "Passcode window expired"⟩, some w)
    else if w.locked_until.any (fun t => decide (now < t)) then
      (.error ⟨429, "Passcode temporarily locked"⟩, some w)
    else if ok then
      let w' := { w with
        attempts_left := 5
        locked_until := none
        opened_by_principal_id := some principal_id
        opened_at := some now }
      (.ok w', some w')
    else
      let w1 := { w with
        failure_count := w.failure_count + 1
        attempts_left := w.attempts_left - 1 }
      let w2 :=
        if w1.attempts_left ≤ 0 then
          { w1 with
            locked_until := some (now + ((min 300 (2 ^ min w1.failure_count 8) : Nat) : Int))
            attempts_left := 5 }
        else w1
      (.error ⟨401, "Invalid passcode"⟩, some w2)

/-- The `open_passcode_window` route at the request boundary
(`routers/transfers.py`): the handler commits only after a successful
verification, while a raised `HTTPException` propagates to `get_db`,
whose `finally: db.close()` discards the uncommitted transaction
(`coordinator/db.py`) — the flushed failure-path mutations are rolled
back. The second component is the window as later requests read it. -/
def open_passcode_window (window : Option PasscodeWindow)
    (principal_id : String) (ok : Bool) (now : Int) :
    Except HErr PasscodeWindow × Option PasscodeWindow :=
  match verify_passcode_for_transfer window principal_id ok now with
  | (.ok w', _) => (.ok w', some w')
  | (.error e, _) => (.error e, window)

/-- Unfolding equation of `verify_passcode_for_transfer` on an existing
window, with the state updates written out. -/
theorem verify_some (w : PasscodeWindow) (principal : String) (ok : Bool) (now : Int) :
    verify_passcode_for_transfer (some w) principal ok now =
      if w.expires_at < now then
        (.error ⟨410, "Passcode window expired"⟩, some w)
      else if w.locked_until.any (fun t => decide (now < t)) then
        (.error ⟨429, "Passcode temporarily locked"⟩, some w)
      else if ok then
        ((.ok { w with
            attempts_left := 5
            locked_until := none
            opened_by_principal_id := some principal
            opened_at := some now }),
         some { w with
            attempts_left := 5
            locked_until := none
            opened_by_principal_id := some principal
            opened_at := some now })
      else
        (.error ⟨401, "Invalid passcode"⟩,
         some (if w.attempts_left - 1 ≤ 0 then
            { w with
              failure_count := w.failure_count + 1
              locked_until :=
                some (now + ((min 300 (2 ^ min (w.failure_count + 1) 8) : Nat) : Int))
              attempts_left := 5 }
          else
            { w with
              failure_count := w.failure_count + 1
              attempts_left := w.attempts_left - 1 })) := rfl

end Passcode

/-! ## Transfer item state updates (`coordinator/routers/transfers.py`) -/

namespace Transfers

structure TransferItem where
  id : String
  state : String
deriving DecidableEq, Repr

structure Transfer where
  id : String
  state : String
deriving DecidableEq, Repr

def TERMINAL_TRANSFER_STATES : List String :=
  ["completed", "rejected", "expired", "failed", "cancelled"]

/-- `TransferItemStateRequest`: pydantic accepts any string of length 1–30
(there is no vocabulary constraint); FastAPI rejects others with 422. -/
def stateRequestValid (s : String) : Bool :=
  1 ≤ s.length && s.length ≤ 30

/-- `update_transfer_item_state`. `items` are the `TransferItem` rows of
this transfer; the grouped state counts equal filter lengths over them.
On success returns the persisted transfer and item rows (the HTTP body is
always `{"ok": true}`). -/
def update_transfer_item_state (agent_shared_secret : String)
    (x_agent_secret : Option String) (transfer : Option Transfer)
    (items : List TransferItem) (item_id : String) (body_state : String) :
    Except HErr (Transfer × List TransferItem) :=
  if !stateRequestValid body_state then .error ⟨422, "Unprocessable Entity"⟩
  else if x_agent_secret ≠ some agent_shared_secret then
    .error ⟨401, "Invalid agent secret"⟩
  else
    match transfer with
    | none => .error ⟨404, "Transfer not found"⟩
    | some t =>
      if TERMINAL_TRANSFER_STATES.contains t.state then .ok (t, items)
      else
        match items.find? (fun i => i.id == item_id) with
        | none => .error ⟨404, "Transfer item not found"⟩
        | some _ =>
          let items' := items.map (fun i =>
            if i.id = item_id then { i with state := body_state } else i)
          let total_items := items'.length
          let finalized_count := (items'.filter (fun i =>
            i.state == "finalized" || i.state == "completed")).length
          let active_count := (items'.filter (fun i =>
            i.state == "receiving" || i.state == "staged" || i.state == "committed")).length
          let t' :=
            if total_items ≠ 0 ∧ finalized_count = total_items then
              { t with state := "completed" }
            else if active_count > 0 then { t with state := "in_progress" }
            else t
          .ok (t', items')

/-- Unfolding equation for a valid request on a non-terminal transfer with
an existing item. -/
theorem update_ok (secret : String) (t : Transfer) (items : List TransferItem)
    (item_id body_state : String) (it : TransferItem)
    (hreq : stateRequestValid body_state = true)
    (hterm : TERMINAL_TRANSFER_STATES.contains t.state = false)
    (hfind : items.find? (fun i => i.id == item_id) = some it) :
    update_transfer_item_state secret (some secret) (some t) items item_id body_state =
      (let items' := items.map (fun i =>
        if i.id = item_id then { i with state := body_state } else i)
       let fin := (items'.filter (fun i =>
        i.state == "finalized" || i.state == "completed")).length
       let act := (items'.filter (fun i =>
        i.state == "receiving" || i.state == "staged" || i.state == "committed")).length
       .ok (if items'.length ≠ 0 ∧ fin = items'.length then { t with state := "completed" }
            else if act > 0 then { t with state := "in_progress" }
            else t, items')) := by
  unfold update_transfer_item_state
  rw [hreq]
  simp only [Bool.not_true, Bool.false_eq_true, if_false]
  rw [if_neg (fun h => h rfl)]
  simp only [hterm, Bool.false_eq_true, if_false, hfind]

end Transfers

/-! ## Agent inbox (`agent/routers/inbox.py`)

Files are byte lists; a missing file is `none`. The database session is
modeled by returning the persisted row: uncommitted mutations are
discarded when the request fails (`get_db` closes the session without
commit, rolling the transaction back). Request headers arrive already
parsed (`content-length` and `x-chunk-offset` integers; an unparsable
header yields a 400 not modeled here). -/

namespace Inbox

open Crypto

structure AgentConfig where
  inbox_dir : String
  upload_chunk_max_bytes : Nat
deriving DecidableEq, Repr

/-- An `InboxTransferItem` row. -/
structure InboxTransferItem where
  id : String
  transfer_id : String
  item_id : String
  share_id : String
  filename : String
  expected_size : Int
  expected_sha256 : String
  received_size : Int
  part_path : String
  inbox_path : Option String
  state : String
deriving DecidableEq, Repr

/-- The coordinator's per-item manifest, as consumed by `upload_chunk`
(`manifest.get(...)` coercions applied). -/
structure Manifest where
  receiver_share_id : String
  filename : String
  size : Int
  sha256 : String
deriving DecidableEq, Repr

def UNKNOWN_SHA256 : String := ⟨List.replicate 64 '0'⟩

/-- `_safe_filename`: `Path(name).name` is the last nonempty `/`-separated
component, then stripped; empty is rejected. -/
def safe_filename (name : String) : Except HErr String :=
  let cleaned := trimStr (((splitChar '/' name).filter (fun p => !p.isEmpty)).getLast?.getD "")
  if cleaned.isEmpty then .error ⟨400, "Invalid filename"⟩ else .ok cleaned

/-- Index of the last `.` in a character list, if any. -/
def lastDotIdx : List Char → Option Nat
  | [] => none
  | c :: rest =>
    match lastDotIdx rest with
    | some i => some (i + 1)
    | none => if c = '.' then some 0 else none

/-- `Path.stem` / `Path.suffix`: split at the last `.` when it is neither
leading nor trailing. -/
def splitSuffix (name : String) : String × String :=
  let cs := name.data
  match lastDotIdx cs with
  | some i =>
    if 0 < i ∧ i < cs.length - 1 then (⟨cs.take i⟩, ⟨cs.drop i⟩) else (name, "")
  | none => (name, "")

def nextAvailGo (existing : List String) (stem suffix : String) :
    Nat → Nat → Option String
  | _, 0 => none
  | i, fuel + 1 =>
    let candidate := stem ++ " (" ++ toString i ++ ")" ++ suffix
    if !existing.contains candidate then some candidate
    else nextAvailGo existing stem suffix (i + 1) fuel

/-- `_next_available_path` over the names already present in the target
directory: the name itself, else `stem (i)suffix` for `i` in `1..999`,
else the 409 allocation failure (`none`). -/
def next_available_name (existing : List String) (name : String) : Option String :=
  if !existing.contains name then some name
  else
    let (stem, suffix) := splitSuffix name
    nextAvailGo existing stem suffix 1 999

/-- The streaming loop of `upload_chunk`: empty payloads are skipped, the
running byte count must stay within the per-request cap and the remaining
expected bytes. Returns the total bytes written. -/
def writeChunks (maxBytes : Nat) (remaining : Int) :
    List (List Nat) → Nat → Except HErr Nat
  | [], written => .ok written
  | c :: rest, written =>
    if c.isEmpty then writeChunks maxBytes remaining rest written
    else
      let written' := written + c.length
      if written' > maxBytes then .error ⟨413, "Chunk too large"⟩
      else if (written' : Int) > remaining then
        .error ⟨409, "Chunk exceeds expected item size"⟩
      else writeChunks maxBytes remaining rest written'

structure ChunkResponse where
  item_id : String
  received_size : Int
  expected_size : Int
  state : String
deriving DecidableEq, Repr

/-- Outcome of a chunk upload: HTTP result, persisted row, part file. -/
structure UploadOutcome where
  result : Except Agent.VerifyFailure ChunkResponse
  record : Option InboxTransferItem
  partFile : Option (List Nat)
deriving Repr

/-- The record-creation branch of `upload_chunk` (unknown item: fetch the
manifest and validate the chunk metadata against it). -/
def recordFromManifest (cfg : AgentConfig) (transfer_id share_id item_id : String)
    (safe_name : String) (size : Int) (sha256_lower : String)
    (manifest? : Option Manifest) : Except HErr InboxTransferItem :=
  match manifest? with
  | none => .error ⟨404, "Transfer item not approved"⟩
  | some m =>
    if m.receiver_share_id ≠ share_id then
      .error ⟨403, "Share mismatch for transfer item"⟩
    else
      match safe_filename m.filename with
      | .error e => .error e
      | .ok expected_filename =>
        let expected_sha256 := strLower m.sha256
        if expected_sha256.length ≠ 64 then
          .error ⟨409, "Transfer item manifest is invalid"⟩
        else if safe_name ≠ expected_filename ∨ size ≠ m.size ∨
            sha256_lower ≠ expected_sha256 then
          .error ⟨409, "Chunk metadata mismatch"⟩
        else
          .ok { id := transfer_id ++ ":" ++ item_id
                transfer_id := transfer_id
                item_id := item_id
                share_id := share_id
                filename := expected_filename
                expected_size := m.size
                expected_sha256 := expected_sha256
                received_size := 0
                part_path := cfg.inbox_dir ++ "/transfers/" ++ transfer_id ++ "/" ++ item_id ++ ".part"
                inbox_path := none
                state := "pending" }

/-- The `content-length` header checks of `upload_chunk`. -/
def clCheck (cfg : AgentConfig) (contentLength : Option Int) : Option HErr :=
  match contentLength with
  | none => none
  | some cl =>
    if cl < 0 then some ⟨400, "Invalid content-length header"⟩
    else if cl > (cfg.upload_chunk_max_bytes : Int) then some ⟨413, "Chunk too large"⟩
    else none

/-- The record resolution of `upload_chunk`: the existing row, or one
built (and validated) from the coordinator manifest. -/
def resolveRecord (cfg : AgentConfig) (transfer_id share_id item_id safe_name : String)
    (size : Int) (sha256_lower : String) (record? : Option InboxTransferItem)
    (manifest? : Option Manifest) : Except HErr InboxTransferItem :=
  match record? with
  | some r => .ok r
  | none =>
    recordFromManifest cfg transfer_id share_id item_id safe_name size
      sha256_lower manifest?

/-- `upload_chunk`. `record?` is the `InboxTransferItem` row keyed
`"{transfer_id}:{item_id}"`, `manifest?` the coordinator manifest fetched
when that row is absent, `partFile?` the on-disk part file, `body` the
request byte stream. -/
def upload_chunk (cfg : AgentConfig) (secretKey : String) (now : Int)
    (transfer_id share_id item_id filename : String) (size : Int)
    (sha256 ticket : String) (contentLength : Option Int) (offset : Int)
    (is_last_chunk : Bool) (record? : Option InboxTransferItem)
    (manifest? : Option Manifest) (partFile? : Option (List Nat))
    (body : List (List Nat)) : UploadOutcome :=
  let failH : HErr → UploadOutcome :=
    fun e => ⟨.error (.http e), record?, partFile?⟩
  if size < 0 ∨ sha256.length ≠ 64 ∨ ticket.isEmpty then
    failH ⟨422, "Unprocessable Entity"⟩
  else
    match Agent.verify_transfer_ticket secretKey ticket transfer_id share_id now with
    | .error e => ⟨.error e, record?, partFile?⟩
    | .ok _ =>
      match clCheck cfg contentLength with
      | some e => failH e
      | none =>
        if offset < 0 then failH ⟨400, "Invalid x-chunk-offset header"⟩
        else
          match safe_filename filename with
          | .error e => failH e
          | .ok safe_name =>
            let sha256_lower := strLower sha256
            if sha256_lower.length ≠ 64 then failH ⟨400, "Invalid sha256"⟩
            else
              match resolveRecord cfg transfer_id share_id item_id safe_name
                  size sha256_lower record? manifest? with
              | .error e => failH e
              | .ok r =>
                if r.share_id ≠ share_id then
                  failH ⟨403, "Share mismatch for item"⟩
                else if r.state = "committed" ∨ r.state = "finalized" then
                  failH ⟨409, "Item already committed"⟩
                else if r.state = "paused" then
                  failH ⟨409, "Transfer is paused"⟩
                else if r.expected_sha256 ≠ sha256_lower ∨ r.expected_size ≠ size then
                  failH ⟨409, "Chunk metadata mismatch"⟩
                else
                  let orig := partFile?.getD []
                  let current_size : Int := (orig.length : Int)
                  let r1 := { r with received_size := current_size }
                  if offset ≠ r1.received_size then
                    failH ⟨409, "Unexpected chunk offset, expected " ++ toString r1.received_size⟩
                  else
                    let remaining := r.expected_size - offset
                    if remaining < 0 then
                      failH ⟨409, "Chunk offset exceeds expected size"⟩
                    else
                      match writeChunks cfg.upload_chunk_max_bytes remaining body 0 with
                      | .error e => ⟨.error (.http e), record?, some orig⟩
                      | .ok written =>
                        let received := offset + (written : Int)
                        let fileBytes := orig ++ body.flatten
                        if is_last_chunk ∧ received ≠ r.expected_size then
                          ⟨.error (.http ⟨409, "Final chunk does not match expected size"⟩),
                           record?, some fileBytes⟩
                        else
                          let new_state := if is_last_chunk then "staged" else "receiving"
                          let r2 := { r1 with
                            received_size := received
                            state := new_state }
                          ⟨.ok { item_id := r.item_id
                                 received_size := received
                                 expected_size := r.expected_size
                                 state := new_state },
                           some r2, some fileBytes⟩

structure CommitResponse where
  item_id : String
  state : String
  inbox_path : String
deriving DecidableEq, Repr

/-- Outcome of a commit: HTTP result, persisted row, part file, and the
file placed in the committed directory (name and bytes). -/
structure CommitOutcome where
  result : Except Agent.VerifyFailure CommitResponse
  record : Option InboxTransferItem
  partFile : Option (List Nat)
  committedFile : Option (String × List Nat)
deriving Repr

/-- `commit_transfer_item`. `record?` is the row keyed
`"{transfer_id}:{item_id}"`; `existingCommitted` lists the file names
already present in the committed directory for this transfer. SHA-256 is
streamed in 1 MiB chunks in the source, which digests the same bytes. -/
def commit_transfer_item (cfg : AgentConfig) (secretKey : String) (now : Int)
    (transfer_id share_id _item_id ticket : String)
    (record? : Option InboxTransferItem) (partFile? : Option (List Nat))
    (existingCommitted : List String) : CommitOutcome :=
  let failH : HErr → CommitOutcome :=
    fun e => ⟨.error (.http e), record?, partFile?, none⟩
  if ticket.isEmpty then failH ⟨422, "Unprocessable Entity"⟩
  else
    match Agent.verify_transfer_ticket secretKey ticket transfer_id share_id now with
    | .error e => ⟨.error e, record?, partFile?, none⟩
    | .ok _ =>
      match record? with
      | none => failH ⟨404, "Transfer item not found"⟩
      | some r =>
        if r.transfer_id ≠ transfer_id ∨ r.share_id ≠ share_id then
          failH ⟨404, "Transfer item not found"⟩
        else
          match partFile? with
          | none => failH ⟨404, "Transfer chunk file missing"⟩
          | some data =>
            if (data.length : Int) ≠ r.expected_size then
              failH ⟨409, "Received size does not match expected size"⟩
            else if r.expected_sha256 ≠ UNKNOWN_SHA256 ∧
                hexDigest (sha256 data) ≠ r.expected_sha256 then
              failH ⟨409, "Checksum mismatch"⟩
            else
              match safe_filename r.filename with
              | .error e => failH e
              | .ok name =>
                match next_available_name existingCommitted name with
                | none => failH ⟨409, "Failed to allocate destination filename"⟩
                | some chosen =>
                  let path := cfg.inbox_dir ++ "/committed/" ++ transfer_id ++ "/" ++ chosen
                  let r2 := { r with
                    inbox_path := some path
                    state := "committed" }
                  ⟨.ok { item_id := r.item_id
                         state := "committed"
                         inbox_path := path },
                   some r2, none, some (chosen, data)⟩

end Inbox

/-! ## Federated search (`coordinator/routers/files.py`, federated branch)

The thread pool is modeled by its observable behaviour: `completed` lists
the futures yielded by `as_completed` before the deadline, in completion
order, each with its share's raw agent payload (or the exception message);
`timedOut` records whether `as_completed` raised `TimeoutError` after
those (it is `false` when every submitted future finished in time).
Ticket issuance and URL decoration do not affect item counts, the
truncated flag, or errors, and are not modeled. -/

namespace Search

open Coord

/-- `_is_online`: a last-seen timestamp exists, the device reports online,
and it was seen within the last 90 seconds. -/
def is_online (d : AgentDevice) (now : Int) : Bool :=
  match d.last_seen with
  | none => false
  | some t => d.online_state && decide (now - t ≤ 90)

/-- The visibility filter of the federated branch: skip devices that are
hidden from this principal or offline. -/
def visibleShares (rows : List (Share × AgentDevice)) (principal : String)
    (now : Int) : List (Share × AgentDevice) :=
  rows.filter (fun sd =>
    (sd.2.visibility || sd.2.owner_principal_id == principal) && is_online sd.2 now)

/-- The candidate loop: keep shares granting `read`, stopping once
`max_shares` have been collected. -/
def selectGo (permsOf : String → List String) (max_shares : Nat) :
    List (Share × AgentDevice) → List (AgentDevice × Share × List String) →
    List (AgentDevice × Share × List String)
  | [], acc => acc
  | (s, d) :: rest, acc =>
    if !(permsOf s.id).contains "read" then selectGo permsOf max_shares rest acc
    else
      let acc' := acc ++ [(d, s, permsOf s.id)]
      if max_shares ≤ acc'.length then acc'
      else selectGo permsOf max_shares rest acc'

/-- Candidate selection: visible online shares, permissions resolved in
bulk, `read` required, capped at `max_shares` without touching the
truncated flag. -/
def select_candidates (rows : List (Share × AgentDevice))
    (grants : List AclGrant) (principal : String) (max_shares : Nat)
    (now : Int) : List (AgentDevice × Share × List String) :=
  let visible := visibleShares rows principal now
  let ownerMap := visible.map (fun sd => (sd.1.id, sd.2.owner_principal_id))
  let pbs := Acl.get_permissions_for_shares grants principal
    (visible.map Prod.fst) ownerMap
  selectGo (fun sid => (pbs.lookup sid).getD []) max_shares visible []

/-- An item as returned by an agent's share search. -/
structure AgentItem where
  path : String
  is_dir : Bool
deriving DecidableEq, Repr

/-- An agent's search response payload. -/
structure AgentPayload where
  items : List AgentItem
  truncated : Bool
deriving DecidableEq, Repr

/-- An item annotated for the federated response. -/
structure ResultItem where
  path : String
  is_dir : Bool
  device_id : String
  share_id : String
  share_name : String
  device_name : String
deriving DecidableEq, Repr

/-- A per-share search payload after `_run_search`. -/
structure RunPayload where
  items : List ResultItem
  truncated : Bool
deriving DecidableEq, Repr

/-- `_run_search`: slice the agent's items at `max_results_per_share` and
annotate each with device and share identity. -/
def run_search (device : AgentDevice) (share : Share) (max_per : Nat)
    (agent : AgentPayload) : RunPayload :=
  { items := (agent.items.take max_per).map (fun it =>
      { path := it.path
        is_dir := it.is_dir
        device_id := device.id
        share_id := share.id
        share_name := share.name
        device_name := device.name })
    truncated := agent.truncated }

/-- A per-share error entry. -/
structure SearchErr where
  device_id : String
  share_id : String
  error : String
deriving DecidableEq, Repr

/-- The inner result loop: append items one at a time; reaching
`max_results_total` flags truncation and stops. -/
def appendItems (maxTotal : Nat) :
    List ResultItem → List ResultItem → List ResultItem × Bool
  | res, [] => (res, false)
  | res, item :: rest =>
    let res' := res ++ [item]
    if maxTotal ≤ res'.length then (res', true)
    else appendItems maxTotal res' rest

/-- The `as_completed` merge loop. Failed futures append an error entry; a
payload's truncated flag or hitting the total cap sets `truncated`; the
loop breaks once truncated with the cap reached; exhausting the list with
a pending deadline expiry (`timedOut`) sets `truncated`. -/
def mergeGo (maxTotal : Nat) (timedOut : Bool) :
    List (AgentDevice × Share × Except String RunPayload) →
    List ResultItem → List SearchErr → Bool →
    List ResultItem × List SearchErr × Bool
  | [], res, errs, tr => (res, errs, tr || timedOut)
  | (d, s, .error e) :: rest, res, errs, tr =>
    mergeGo maxTotal timedOut rest res (errs ++ [⟨d.id, s.id, e⟩]) tr
  | (_d, _s, .ok p) :: rest, res, errs, tr =>
    let tr1 := tr || p.truncated
    let pr := appendItems maxTotal res p.items
    let tr2 := tr1 || pr.2
    if tr2 && decide (maxTotal ≤ pr.1.length) then (pr.1, errs, tr2)
    else mergeGo maxTotal timedOut rest pr.1 errs tr2

/-- The final sort key: `(not is_dir, path.casefold())` — directories
first, then case-insensitive path order (casefold modeled as lowercase). -/
def itemLE (a b : ResultItem) : Bool :=
  let ka := !a.is_dir
  let kb := !b.is_dir
  if ka = kb then !Js.strLtB (strLower b.path) (strLower a.path) else !ka

def insertItem (x : ResultItem) : List ResultItem → List ResultItem
  | [] => [x]
  | y :: rest => if itemLE y x then y :: insertItem x rest else x :: y :: rest

/-- Stable sort by `itemLE` (Python `list.sort`). -/
def sortItems : List ResultItem → List ResultItem
  | [] => []
  | x :: rest => insertItem x (sortItems rest)

structure SearchResponse where
  query : String
  base_path : String
  recursive : Bool
  federated : Bool
  items : List ResultItem
  truncated : Bool
  errors : List SearchErr
deriving DecidableEq, Repr

/-- The federated branch of `search_files` (no `device_id`/`share_id`
pin). `completed` pairs each finished future's device and share with its
agent payload or exception message. -/
def search_files_federated (q path : String) (recursive : Bool)
    (rows : List (Share × AgentDevice)) (grants : List AclGrant)
    (principal : String) (max_shares max_per max_total : Nat) (now : Int)
    (completed : List ((AgentDevice × Share) × Except String AgentPayload))
    (timedOut : Bool) : SearchResponse :=
  let candidates := select_candidates rows grants principal max_shares now
  if candidates.isEmpty then
    { query := q
      base_path := path
      recursive := recursive
      federated := true
      items := []
      truncated := false
      errors := [] }
  else
    let outcomes := completed.map (fun ce =>
      (ce.1.1, ce.1.2, ce.2.map (run_search ce.1.1 ce.1.2 max_per)))
    let m := mergeGo max_total timedOut outcomes [] [] false
    { query := q
      base_path := path
      recursive := recursive
      federated := true
      items := (sortItems m.1).take max_total
      truncated := m.2.2
      errors := m.2.1 }

end Search

/-! ## Helper lemmas -/

/-- C9: if the principal owns the share's AgentDevice, permission
resolution returns exactly the owner permission set
{read, download, request_send, accept_incoming, manage_share} regardless
of any AclGrant rows; otherwise it returns the decoded permission set of
the AclGrant row for (principal, share), or the empty set if no such row
exists. -/
theorem get_permissions_owner_or_grant
    (devices : List Coord.AgentDevice) (grants : List Coord.AclGrant)
    (principal_id : String) (share : Coord.Share) :
    ((∃ d, devices.find? (fun d => d.id == share.agent_device_id) = some d ∧
        d.owner_principal_id = principal_id) →
      Acl.get_permissions_for_share devices grants principal_id share none =
        Perms.OWNER_PERMISSIONS) ∧
    ((∀ d, devices.find? (fun d => d.id == share.agent_device_id) = some d →
        d.owner_principal_id ≠ principal_id) →
      Acl.get_permissions_for_share devices grants principal_id share none =
        (match grants.find? (fun g =>
            g.principal_id == principal_id && g.share_id == share.id) with
         | some g => Perms.decode_permissions (some g.permissions_raw)
         | none => Perms.decode_permissions none)) ∧
    Perms.decode_permissions none = [] := by
  refine ⟨?_, ?_, rfl⟩
  · rintro ⟨d, hd, hown⟩
    unfold Acl.get_permissions_for_share
    simp only [hd, hown, if_true]
  · intro hno
    unfold Acl.get_permissions_for_share
    cases hfind : devices.find? (fun d => d.id == share.agent_device_id) with
    | none => simp [hfind]
    | some d =>
      have hne : d.owner_principal_id ≠ principal_id := hno d hfind
      simp only [hfind, Option.some.injEq]
      rw [if_neg (by simpa using hne)]

/-- C9 witness. -/
theorem get_permissions_owner_or_grant_witness :
    Acl.get_permissions_for_share
      [{ id := "dev1", owner_principal_id := "alice", name := "d", base_url := "u",
         visibility := true, online_state := true, last_seen := some 0 }]
      [{ principal_id := "alice", share_id := "s1", permissions_raw := "read" }]
      "alice"
      { id := "s1", agent_device_id := "dev1", name := "s" } none =
      Perms.OWNER_PERMISSIONS := by
  exact (get_permissions_owner_or_grant _ _ _ _).1
    ⟨_, rfl, rfl⟩

/-- C7 (amended): the persisted failure_count never decreases across any
verification call; a successful match resets attempts_left to 5, clears
locked_until, sets opened_at/opened_by_principal_id — but leaves
failure_count unchanged (it is reset only by set_transfer_passcode). -/
theorem verify_passcode_state_spec
    (w : Passcode.PasscodeWindow) (principal : String) (ok : Bool) (now : Int) :
    (∀ w', (Passcode.verify_passcode_for_transfer (some w) principal ok now).2 = some w' →
      w.failure_count ≤ w'.failure_count) ∧
    (∀ w', (Passcode.verify_passcode_for_transfer (some w) principal ok now).1 = .ok w' →
      w'.attempts_left = 5 ∧ w'.locked_until = none ∧ w'.opened_at = some now ∧
      w'.opened_by_principal_id = some principal ∧
      w'.failure_count = w.failure_count) ∧
    (∀ seconds oldw passcode hashed w'',
      Passcode.set_transfer_passcode seconds oldw passcode hashed now = .ok w'' →
      w''.failure_count = 0) := by
  refine ⟨?_, ?_, ?_⟩
  · intro w' h
    rw [Passcode.verify_some] at h
    split_ifs at h <;> (dsimp only at h) <;> (injection h with h) <;> subst h <;> simp
  · intro w' h
    rw [Passcode.verify_some] at h
    split_ifs at h <;> (dsimp only at h) <;> (injection h with h) <;> subst h <;> simp
  · intro seconds oldw passcode hashed w'' h
    unfold Passcode.set_transfer_passcode at h
    split_ifs at h <;> simp only [Except.ok.injEq] at h
    · subst h; rfl

/-- C7 witness. -/
theorem verify_passcode_state_spec_witness :
    (5 : Int) = 5 ∧ (none : Option Int) = none ∧ some (50 : Int) = some 50 ∧
    some "p" = some "p" ∧ (3 : Nat) = 3 := by
  have h := (verify_passcode_state_spec
    ⟨"h", 2, 3, none, 100, none, none⟩ "p" true 50).2.1
    ⟨"h", 5, 3, none, 100, some 50, some "p"⟩ rfl
  exact ⟨h.1, h.2.1, h.2.2.1, h.2.2.2.1, h.2.2.2.2⟩

/-- C7 counterexample: a successful verification does not reset
failure_count — a window with failure_count 3 keeps it after a match. -/
theorem verify_passcode_no_failure_reset :
    (Passcode.verify_passcode_for_transfer
      (some ⟨"h", 2, 3, none, 100, none, none⟩) "alice" true 50).2 =
      some ⟨"h", 5, 3, none, 100, some 50, some "alice"⟩ ∧ (3 : Nat) ≠ 0 := by
  exact ⟨rfl, by decide⟩

/-- C8: the claimed lockout is computed but never persisted. Each
mismatch raises the 401 before any commit, and the session rollback at
the request boundary discards the flushed increment, so five consecutive
wrong attempts on a fresh window leave the stored window unchanged
(failure_count 0, attempts_left 5, no locked_until) and a sixth wrong
attempt still fails with 401 Invalid passcode rather than 429. Inside
the aborted transaction the mutation follows the claim exactly: on the
fifth in-session failure attempts_left reaches 0, locked_until is set to
now plus min(300, 2^min(5, 8)) = 32 seconds and attempts_left resets to
5 — only the persistence is missing. -/
theorem passcode_lockout_rolled_back :
    (Nat.iterate (fun st : Option Passcode.PasscodeWindow =>
        (Passcode.open_passcode_window st "p" false 10).2)
      5 (some ⟨"h", 5, 0, none, 1000, none, none⟩) =
      some ⟨"h", 5, 0, none, 1000, none, none⟩) ∧
    ((Passcode.open_passcode_window (some ⟨"h", 5, 0, none, 1000, none, none⟩)
        "p" false 10).1 = Except.error ⟨401, "Invalid passcode"⟩) ∧
    ((Passcode.verify_passcode_for_transfer
        (some ⟨"h", 1, 4, none, 1000, none, none⟩) "p" false 10).2 =
      some ⟨"h", 5, 5, some 42, 1000, none, none⟩) := by
  exact ⟨rfl, rfl, rfl⟩

/-- C10: any state string of length 1 to 30 passes request validation and
is stored verbatim on the item — there is no check against the item-state
vocabulary — and the stored value feeds the transfer-state
recomputation. -/
theorem arbitrary_state_string_stored
    (secret : String) (t : Transfers.Transfer) (items : List Transfers.TransferItem)
    (item_id s : String) (it : Transfers.TransferItem)
    (hlen : 1 ≤ s.length ∧ s.length ≤ 30)
    (hterm : Transfers.TERMINAL_TRANSFER_STATES.contains t.state = false)
    (hfind : items.find? (fun i => i.id == item_id) = some it) :
    ∃ t', Transfers.update_transfer_item_state secret (some secret) (some t)
        items item_id s =
      .ok (t', items.map (fun i =>
        if i.id = item_id then { i with state := s } else i)) ∧
      ∀ i ∈ items.map (fun i => if i.id = item_id then { i with state := s } else i),
        i.id = item_id → i.state = s := by
  have hreq : Transfers.stateRequestValid s = true := by
    unfold Transfers.stateRequestValid
    simp [hlen.1, hlen.2]
  rw [Transfers.update_ok secret t items item_id s it hreq hterm hfind]
  simp only
  refine ⟨_, rfl, ?_⟩
  intro i hi hid
  simp only [List.mem_map] at hi
  obtain ⟨j, hj, rfl⟩ := hi
  by_cases hjid : j.id = item_id
  · simp [hjid]
  · rw [if_neg hjid] at hid
    exact absurd hid hjid

/-- C10 witness. -/
theorem arbitrary_state_string_stored_witness :
    ∃ t', Transfers.update_transfer_item_state "sec" (some "sec")
        (some ⟨"t1", "pending"⟩) [⟨"i1", "receiving"⟩] "i1" "totally-bogus" =
      .ok (t', ([⟨"i1", "receiving"⟩] : List Transfers.TransferItem).map (fun i =>
        if i.id = "i1" then { i with state := "totally-bogus" } else i)) ∧
      ∀ i ∈ ([⟨"i1", "receiving"⟩] : List Transfers.TransferItem).map (fun i =>
          if i.id = "i1" then { i with state := "totally-bogus" } else i),
        i.id = "i1" → i.state = "totally-bogus" := by
  exact arbitrary_state_string_stored "sec" ⟨"t1", "pending"⟩
    [⟨"i1", "receiving"⟩] "i1" "totally-bogus" ⟨"i1", "receiving"⟩
    ⟨by decide, by decide⟩ (by decide) rfl

open Js Token Crypto

/-- C4 (amended): over wire-format tokens with canonical plain payloads,
read-ticket verification accepts exactly when the signature is the HMAC of
the body under the shared secret, the payload carries an integer exp with
now not past it, the kind is read_ticket or internal_agent, the share_id
claim equals the share of the call, and — only when the kind is
read_ticket — the required permission is among the permissions claim
(internal_agent tickets skip the permission check, and exp may equal now);
in every other case it raises an HTTP 401/403 error. -/
theorem verify_read_ticket_iff (secret share perm : String)
    (fields : List (String × Json)) (sig : List Nat) (now : Int)
    (hp : Js.PlainF fields) (hsig : ∀ b ∈ sig, b < 256)
    (hcanon : Js.sortFields (Js.canonF fields) = fields) :
    (Agent.verify_read_ticket secret (Token.mkToken fields sig) share perm now =
        .ok (.obj fields) ↔
      (sig = hmacSha256 (strBytes secret) (strBytes ⟨Js.serValue (.obj fields)⟩) ∧
       (∃ e : Int, Js.objLookup fields "exp" = some (.num e) ∧ ¬ e < now) ∧
       (Agent.ojeqStr (Js.objLookup fields "kind") "read_ticket" = true ∨
        Agent.ojeqStr (Js.objLookup fields "kind") "internal_agent" = true) ∧
       Agent.ojeqStr (Js.objLookup fields "share_id") share = true ∧
       (Agent.ojeqStr (Js.objLookup fields "kind") "read_ticket" = true →
        Agent.permsContains (Agent.permissionsOf (.obj fields)) perm = true))) ∧
    (∀ res, Agent.verify_read_ticket secret (Token.mkToken fields sig) share perm now =
        .error res → ∃ e : HErr, res = .http e ∧ (e.status = 401 ∨ e.status = 403)) := by
  have hms := Token.decode_mkToken secret fields sig now hp hsig
  rw [hcanon] at hms
  by_cases hs : sig = hmacSha256 (strBytes secret) (strBytes ⟨Js.serValue (.obj fields)⟩)
  case neg =>
    rw [if_neg hs] at hms
    have hv : Agent.verify_read_ticket secret (Token.mkToken fields sig) share perm now =
        .error (.http ⟨401, "Invalid token signature"⟩) := by
      unfold Agent.verify_read_ticket Agent.decode_ticket
      rw [hms]
      rfl
    rw [hv]
    constructor
    · constructor
      · intro h; exact absurd h (by simp)
      · rintro ⟨hs', _⟩; exact absurd hs' hs
    · intro res hres
      simp only [Except.error.injEq] at hres
      exact ⟨_, hres.symm, Or.inl rfl⟩
  case pos =>
    rw [if_pos hs] at hms
    cases hlk : Js.objLookup fields "exp" with
    | none =>
      rw [hlk] at hms
      have hms' : Token.decode_token secret (Token.mkToken fields sig) now =
          .error (.tokenError .invalidExpiry) := hms
      have hv : Agent.verify_read_ticket secret (Token.mkToken fields sig) share perm now =
          .error (.http ⟨401, "Invalid token expiry"⟩) := by
        unfold Agent.verify_read_ticket Agent.decode_ticket
        rw [hms']
        rfl
      rw [hv]
      constructor
      · constructor
        · intro h; exact absurd h (by simp)
        · rintro ⟨_, ⟨e, he, _⟩, _⟩; exact absurd he (by simp)
      · intro res hres
        simp only [Except.error.injEq] at hres
        exact ⟨_, hres.symm, Or.inl rfl⟩
    | some v =>
      rw [hlk] at hms
      cases v with
      | num e =>
        have hms' : Token.decode_token secret (Token.mkToken fields sig) now =
            (if e < now then .error (.tokenError .expired) else .ok (.obj fields)) := hms
        by_cases he : e < now
        case pos =>
          rw [if_pos he] at hms'
          have hv : Agent.verify_read_ticket secret (Token.mkToken fields sig) share perm now =
              .error (.http ⟨401, "Token expired"⟩) := by
            unfold Agent.verify_read_ticket Agent.decode_ticket
            rw [hms']
            rfl
          rw [hv]
          constructor
          · constructor
            · intro h; exact absurd h (by simp)
            · rintro ⟨_, ⟨e', he', hne'⟩, _⟩
              simp only [Option.some.injEq, Js.Json.num.injEq] at he'
              exact (hne' (he' ▸ he)).elim
          · intro res hres
            simp only [Except.error.injEq] at hres
            exact ⟨_, hres.symm, Or.inl rfl⟩
        case neg =>
          rw [if_neg he] at hms'
          have hvr : Agent.verify_read_ticket secret (Token.mkToken fields sig) share perm now =
              (if ¬(Agent.ojeqStr (Js.objLookup fields "kind") "read_ticket" ∨
                    Agent.ojeqStr (Js.objLookup fields "kind") "internal_agent") then
                .error (.http ⟨401, "Invalid read ticket"⟩)
              else if ¬ Agent.ojeqStr (Js.objLookup fields "share_id") share then
                .error (.http ⟨403, "Ticket share mismatch"⟩)
              else if Agent.ojeqStr (Js.objLookup fields "kind") "read_ticket" ∧
                  Agent.permsContains (Agent.permissionsOf (.obj fields)) perm = false then
                .error (.http ⟨403, "Permission denied"⟩)
              else .ok (.obj fields)) := by
            unfold Agent.verify_read_ticket Agent.decode_ticket
            rw [hms']
            rfl
          rw [hvr]
          by_cases h1 : (Agent.ojeqStr (Js.objLookup fields "kind") "read_ticket" = true ∨
              Agent.ojeqStr (Js.objLookup fields "kind") "internal_agent" = true)
          case neg =>
            rw [if_pos h1]
            constructor
            · constructor
              · intro h; exact absurd h (by simp)
              · rintro ⟨_, _, hk, _⟩; exact absurd hk h1
            · intro res hres
              simp only [Except.error.injEq] at hres
              exact ⟨_, hres.symm, Or.inl rfl⟩
          case pos =>
            rw [if_neg (not_not_intro h1)]
            by_cases h2 : Agent.ojeqStr (Js.objLookup fields "share_id") share = true
            case neg =>
              rw [if_pos h2]
              constructor
              · constructor
                · intro h; exact absurd h (by simp)
                · rintro ⟨_, _, _, hsh, _⟩; exact absurd hsh h2
              · intro res hres
                simp only [Except.error.injEq] at hres
                exact ⟨_, hres.symm, Or.inr rfl⟩
            case pos =>
              rw [if_neg (not_not_intro h2)]
              by_cases h3 : (Agent.ojeqStr (Js.objLookup fields "kind") "read_ticket" = true ∧
                  Agent.permsContains (Agent.permissionsOf (.obj fields)) perm = false)
              case pos =>
                rw [if_pos h3]
                constructor
                · constructor
                  · intro h; exact absurd h (by simp)
                  · rintro ⟨_, _, _, _, hpc⟩
                    have hcp := hpc h3.1
                    rw [h3.2] at hcp
                    exact absurd hcp (by simp)
                · intro res hres
                  simp only [Except.error.injEq] at hres
                  exact ⟨_, hres.symm, Or.inr rfl⟩
              case neg =>
                rw [if_neg h3]
                constructor
                · constructor
                  · intro _
                    refine ⟨hs, ⟨e, rfl, he⟩, h1, h2, ?_⟩
                    intro hk1
                    by_cases hpc : Agent.permsContains
                        (Agent.permissionsOf (.obj fields)) perm = true
                    · exact hpc
                    · exact absurd ⟨hk1, Bool.not_eq_true _ ▸ hpc⟩ h3
                  · intro _; rfl
                · intro res hres; exact absurd hres (by simp)
      | null =>
        have hms' : Token.decode_token secret (Token.mkToken fields sig) now =
            .error (.tokenError .invalidExpiry) := hms
        have hv : Agent.verify_read_ticket secret (Token.mkToken fields sig) share perm now =
            .error (.http ⟨401, "Invalid token expiry"⟩) := by
          unfold Agent.verify_read_ticket Agent.decode_ticket
          rw [hms']
          rfl
        rw [hv]
        constructor
        · constructor
          · intro h; exact absurd h (by simp)
          · rintro ⟨_, ⟨e, he, _⟩, _⟩; exact absurd he (by simp)
        · intro res hres
          simp only [Except.error.injEq] at hres
          exact ⟨_, hres.symm, Or.inl rfl⟩
      | bool b =>
        have hms' : Token.decode_token secret (Token.mkToken fields sig) now =
            .error (.tokenError .invalidExpiry) := hms
        have hv : Agent.verify_read_ticket secret (Token.mkToken fields sig) share perm now =
            .error (.http ⟨401, "Invalid token expiry"⟩) := by
          unfold Agent.verify_read_ticket Agent.decode_ticket
          rw [hms']
          rfl
        rw [hv]
        constructor
        · constructor
          · intro h; exact absurd h (by simp)
          · rintro ⟨_, ⟨e, he, _⟩, _⟩; exact absurd he (by simp)
        · intro res hres
          simp only [Except.error.injEq] at hres
          exact ⟨_, hres.symm, Or.inl rfl⟩
      | str s =>
        have hms' : Token.decode_token secret (Token.mkToken fields sig) now =
            .error (.tokenError .invalidExpiry) := hms
        have hv : Agent.verify_read_ticket secret (Token.mkToken fields sig) share perm now =
            .error (.http ⟨401, "Invalid token expiry"⟩) := by
          unfold Agent.verify_read_ticket Agent.decode_ticket
          rw [hms']
          rfl
        rw [hv]
        constructor
        · constructor
          · intro h; exact absurd h (by simp)
          · rintro ⟨_, ⟨e, he, _⟩, _⟩; exact absurd he (by simp)
        · intro res hres
          simp only [Except.error.injEq] at hres
          exact ⟨_, hres.symm, Or.inl rfl⟩
      | arr xs =>
        have hms' : Token.decode_token secret (Token.mkToken fields sig) now =
            .error (.tokenError .invalidExpiry) := hms
        have hv : Agent.verify_read_ticket secret (Token.mkToken fields sig) share perm now =
            .error (.http ⟨401, "Invalid token expiry"⟩) := by
          unfold Agent.verify_read_ticket Agent.decode_ticket
          rw [hms']
          rfl
        rw [hv]
        constructor
        · constructor
          · intro h; exact absurd h (by simp)
          · rintro ⟨_, ⟨e, he, _⟩, _⟩; exact absurd he (by simp)
        · intro res hres
          simp only [Except.error.injEq] at hres
          exact ⟨_, hres.symm, Or.inl rfl⟩
      | obj fs =>
        have hms' : Token.decode_token secret (Token.mkToken fields sig) now =
            .error (.tokenError .invalidExpiry) := hms
        have hv : Agent.verify_read_ticket secret (Token.mkToken fields sig) share perm now =
            .error (.http ⟨401, "Invalid token expiry"⟩) := by
          unfold Agent.verify_read_ticket Agent.decode_ticket
          rw [hms']
          rfl
        rw [hv]
        constructor
        · constructor
          · intro h; exact absurd h (by simp)
          · rintro ⟨_, ⟨e, he, _⟩, _⟩; exact absurd he (by simp)
        · intro res hres
          simp only [Except.error.injEq] at hres
          exact ⟨_, hres.symm, Or.inl rfl⟩

/-- C4 witness. -/
theorem verify_read_ticket_iff_witness :
    Agent.verify_read_ticket "sec"
      (Token.mkToken
        [("exp", .num 100), ("kind", .str "read_ticket"),
         ("permissions", .arr [.str "read"]), ("share_id", .str "s1")]
        (Crypto.hmacSha256 (Crypto.strBytes "sec")
          (Crypto.strBytes ⟨Js.serValue (.obj
            [("exp", .num 100), ("kind", .str "read_ticket"),
             ("permissions", .arr [.str "read"]), ("share_id", .str "s1")])⟩)))
      "s1" "read" 50 =
      .ok (.obj [("exp", .num 100), ("kind", .str "read_ticket"),
        ("permissions", .arr [.str "read"]), ("share_id", .str "s1")]) := by
  have hp : Js.PlainF
      [("exp", Js.Json.num 100), ("kind", Js.Json.str "read_ticket"),
       ("permissions", Js.Json.arr [Js.Json.str "read"]),
       ("share_id", Js.Json.str "s1")] :=
    Js.plainF_cons _ _ _ (Js.plainStr_of _ (by decide)) (Js.plainV_num 100)
      (Js.plainF_cons _ _ _ (Js.plainStr_of _ (by decide))
        (Js.plainV_str _ (Js.plainStr_of _ (by decide)))
        (Js.plainF_cons _ _ _ (Js.plainStr_of _ (by decide))
          (Js.plainV_arr _ (Js.plainL_cons _ _
            (Js.plainV_str _ (Js.plainStr_of _ (by decide))) Js.plainL_nil))
          (Js.plainF_cons _ _ _ (Js.plainStr_of _ (by decide))
            (Js.plainV_str _ (Js.plainStr_of _ (by decide))) Js.plainF_nil)))
  exact (verify_read_ticket_iff "sec" "s1" "read" _ _ 50 hp
    (Token.hmacSha256_lt256 _ _) rfl).1.mpr
    ⟨rfl, ⟨100, rfl, by omega⟩, Or.inl rfl, rfl, fun _ => rfl⟩

/-- C4 counterexample: a correctly signed internal_agent ticket whose
payload carries no permissions claim, checked at now equal to exp, is
accepted — so acceptance requires neither the required permission's
membership in the permissions claim nor exp strictly in the future. -/
theorem internal_agent_ticket_accepted :
    Agent.verify_read_ticket "sec"
      (Token.mkToken
        [("exp", .num 100), ("kind", .str "internal_agent"), ("share_id", .str "s1")]
        (Crypto.hmacSha256 (Crypto.strBytes "sec")
          (Crypto.strBytes ⟨Js.serValue (.obj
            [("exp", .num 100), ("kind", .str "internal_agent"),
             ("share_id", .str "s1")])⟩)))
      "s1" "read" 100 =
      .ok (.obj [("exp", .num 100), ("kind", .str "internal_agent"),
        ("share_id", .str "s1")]) ∧
    Agent.permsContains (Agent.permissionsOf (.obj
      [("exp", .num 100), ("kind", .str "internal_agent"), ("share_id", .str "s1")]))
      "read" = false ∧
    ¬ (100 : Int) < 100 := by
  have hp : Js.PlainF
      [("exp", Js.Json.num 100), ("kind", Js.Json.str "internal_agent"),
       ("share_id", Js.Json.str "s1")] :=
    Js.plainF_cons _ _ _ (Js.plainStr_of _ (by decide)) (Js.plainV_num 100)
      (Js.plainF_cons _ _ _ (Js.plainStr_of _ (by decide))
        (Js.plainV_str _ (Js.plainStr_of _ (by decide)))
        (Js.plainF_cons _ _ _ (Js.plainStr_of _ (by decide))
          (Js.plainV_str _ (Js.plainStr_of _ (by decide))) Js.plainF_nil))
  have hdec := Token.decode_mkToken "sec"
    [("exp", .num 100), ("kind", .str "internal_agent"), ("share_id", .str "s1")]
    (Crypto.hmacSha256 (Crypto.strBytes "sec")
      (Crypto.strBytes ⟨Js.serValue (.obj
        [("exp", .num 100), ("kind", .str "internal_agent"), ("share_id", .str "s1")])⟩))
    100 hp (Token.hmacSha256_lt256 _ _)
  rw [if_pos rfl] at hdec
  have hdec' : Token.decode_token "sec"
      (Token.mkToken
        [("exp", .num 100), ("kind", .str "internal_agent"), ("share_id", .str "s1")]
        (Crypto.hmacSha256 (Crypto.strBytes "sec")
          (Crypto.strBytes ⟨Js.serValue (.obj
            [("exp", .num 100), ("kind", .str "internal_agent"),
             ("share_id", .str "s1")])⟩))) 100 =
      .ok (.obj [("exp", .num 100), ("kind", .str "internal_agent"),
        ("share_id", .str "s1")]) := by
    rw [hdec]
    rfl
  refine ⟨?_, rfl, by omega⟩
  unfold Agent.verify_read_ticket Agent.decode_ticket
  rw [hdec']
  rfl

/-- C6 (amended): decoding a token issued with the same secret yields the
canonical payload plus the integer exp claim, where exp is the issue time
plus max(1, ttl); decoding succeeds exactly when exp is not in the past —
including when the current time equals exp — and otherwise fails with the
expired TokenError. -/
theorem token_round_trip (secret : String) (payload : List (String × Js.Json))
    (ttl tIss tNow : Int) (hp : Js.PlainF payload)
    (hnodup : (payload.map Prod.fst).Nodup) :
    Token.decode_token secret (Token.issue_token secret payload ttl tIss) tNow =
      if tIss + max 1 ttl < tNow then .error (.tokenError .expired)
      else .ok (Js.canonV (.obj (Js.setField payload "exp" (.num (tIss + max 1 ttl))))) :=
  Token.decode_issue secret payload ttl tIss tNow hp hnodup

/-- C6 witness. -/
theorem token_round_trip_witness :
    Token.decode_token "k" (Token.issue_token "k" [] 1 0) 1 =
      if (0 : Int) + max 1 1 < 1 then .error (.tokenError .expired)
      else .ok (Js.canonV (.obj (Js.setField [] "exp" (.num ((0 : Int) + max 1 1))))) :=
  token_round_trip "k" [] 1 0 1 Js.plainF_nil (by simp)

set_option maxRecDepth 100000 in
/-- C6 counterexample: decoding succeeds when the current time equals exp
(not only strictly before it), and altering a byte of the token — its
final base64 character, whose low bits are padding that the decoder
discards — leaves decoding successful, so tampering a byte does not
always make decoding fail. -/
theorem token_decode_at_exp_and_tampered :
    Token.decode_token "k" (Token.issue_token "k" [] 1 0) 1 =
      .ok (.obj [("exp", .num 1)]) ∧
    Token.issue_token "k" [] 1 0 =
      "eyJleHAiOjF9.et2pSmMrZ97R9kQl4GyEJ-YoIw_hVfsgEhvUwcZavtY" ∧
    "eyJleHAiOjF9.et2pSmMrZ97R9kQl4GyEJ-YoIw_hVfsgEhvUwcZavtZ" ≠
      "eyJleHAiOjF9.et2pSmMrZ97R9kQl4GyEJ-YoIw_hVfsgEhvUwcZavtY" ∧
    Token.decode_token "k" "eyJleHAiOjF9.et2pSmMrZ97R9kQl4GyEJ-YoIw_hVfsgEhvUwcZavtZ" 1 =
      .ok (.obj [("exp", .num 1)]) := by
  refine ⟨rfl, rfl, by decide, rfl⟩

/-- C2: a commit succeeds only when the part file exists with length
exactly expected_size and, whenever expected_sha256 is not the 64-zero
sentinel, only when the file's SHA-256 hex digest equals expected_sha256;
on a digest mismatch the commit fails with 409 "Checksum mismatch" and the
persisted item row and part file are untouched (the item's state — staged
— is unchanged, so it does not become committed). -/
theorem commit_transfer_item_spec
    (cfg : Inbox.AgentConfig) (secretKey : String) (now : Int)
    (transfer_id share_id item_id ticket : String)
    (record? : Option Inbox.InboxTransferItem) (partFile? : Option (List Nat))
    (existing : List String) :
    (∀ resp, (Inbox.commit_transfer_item cfg secretKey now transfer_id share_id item_id
        ticket record? partFile? existing).result = .ok resp →
      ∃ r data, record? = some r ∧ partFile? = some data ∧
        (data.length : Int) = r.expected_size ∧
        (r.expected_sha256 ≠ Inbox.UNKNOWN_SHA256 →
          Crypto.hexDigest (Crypto.sha256 data) = r.expected_sha256) ∧
        ∃ chosen, (Inbox.commit_transfer_item cfg secretKey now transfer_id share_id
          item_id ticket record? partFile? existing).committedFile = some (chosen, data) ∧
        (Inbox.commit_transfer_item cfg secretKey now transfer_id share_id
          item_id ticket record? partFile? existing).record =
          some { r with inbox_path := some (cfg.inbox_dir ++ "/committed/" ++
            transfer_id ++ "/" ++ chosen), state := "committed" }) ∧
    (∀ r data, record? = some r → partFile? = some data →
      r.transfer_id = transfer_id → r.share_id = share_id →
      ticket.isEmpty = false →
      (∃ claims, Agent.verify_transfer_ticket secretKey ticket transfer_id share_id now =
        .ok claims) →
      (data.length : Int) = r.expected_size →
      r.expected_sha256 ≠ Inbox.UNKNOWN_SHA256 →
      Crypto.hexDigest (Crypto.sha256 data) ≠ r.expected_sha256 →
      (Inbox.commit_transfer_item cfg secretKey now transfer_id share_id item_id
          ticket record? partFile? existing).result =
        .error (.http ⟨409, "Checksum mismatch"⟩) ∧
      (Inbox.commit_transfer_item cfg secretKey now transfer_id share_id item_id
          ticket record? partFile? existing).record = record? ∧
      (Inbox.commit_transfer_item cfg secretKey now transfer_id share_id item_id
          ticket record? partFile? existing).partFile = partFile?) := by
  constructor
  · intro resp h
    by_cases h1 : ticket.isEmpty = true
    · have hout : Inbox.commit_transfer_item cfg secretKey now transfer_id share_id
          item_id ticket record? partFile? existing =
          ⟨.error (.http ⟨422, "Unprocessable Entity"⟩), record?, partFile?, none⟩ := by
        unfold Inbox.commit_transfer_item
        rw [if_pos h1]
      rw [hout] at h
      exact Except.noConfusion h
    rcases hclaims : Agent.verify_transfer_ticket secretKey ticket transfer_id share_id now
      with e | claims
    · have hout : Inbox.commit_transfer_item cfg secretKey now transfer_id share_id
          item_id ticket record? partFile? existing =
          ⟨.error e, record?, partFile?, none⟩ := by
        unfold Inbox.commit_transfer_item
        rw [if_neg h1]
        simp only [hclaims]
      rw [hout] at h
      exact Except.noConfusion h
    rcases hrec : record? with _ | r
    all_goals rw [hrec] at h
    · have hout : Inbox.commit_transfer_item cfg secretKey now transfer_id share_id
          item_id ticket none partFile? existing =
          ⟨.error (.http ⟨404, "Transfer item not found"⟩), none, partFile?, none⟩ := by
        unfold Inbox.commit_transfer_item
        rw [if_neg h1]
        simp only [hclaims]
      rw [hout] at h
      exact Except.noConfusion h
    by_cases h2 : (r.transfer_id ≠ transfer_id ∨ r.share_id ≠ share_id)
    · have hout : Inbox.commit_transfer_item cfg secretKey now transfer_id share_id
          item_id ticket (some r) partFile? existing =
          ⟨.error (.http ⟨404, "Transfer item not found"⟩), some r, partFile?, none⟩ := by
        unfold Inbox.commit_transfer_item
        rw [if_neg h1]
        simp only [hclaims, if_pos h2]
      rw [hout] at h
      exact Except.noConfusion h
    rcases hdata : partFile? with _ | data
    all_goals rw [hdata] at h
    · have hout : Inbox.commit_transfer_item cfg secretKey now transfer_id share_id
          item_id ticket (some r) none existing =
          ⟨.error (.http ⟨404, "Transfer chunk file missing"⟩), some r, none, none⟩ := by
        unfold Inbox.commit_transfer_item
        rw [if_neg h1]
        simp only [hclaims, if_neg h2]
      rw [hout] at h
      exact Except.noConfusion h
    by_cases h3 : (data.length : Int) ≠ r.expected_size
    · have hout : Inbox.commit_transfer_item cfg secretKey now transfer_id share_id
          item_id ticket (some r) (some data) existing =
          ⟨.error (.http ⟨409, "Received size does not match expected size"⟩),
           some r, some data, none⟩ := by
        unfold Inbox.commit_transfer_item
        rw [if_neg h1]
        simp only [hclaims, if_neg h2, if_pos h3]
      rw [hout] at h
      exact Except.noConfusion h
    by_cases h4 : (r.expected_sha256 ≠ Inbox.UNKNOWN_SHA256 ∧
        Crypto.hexDigest (Crypto.sha256 data) ≠ r.expected_sha256)
    · have hout : Inbox.commit_transfer_item cfg secretKey now transfer_id share_id
          item_id ticket (some r) (some data) existing =
          ⟨.error (.http ⟨409, "Checksum mismatch"⟩), some r, some data, none⟩ := by
        unfold Inbox.commit_transfer_item
        rw [if_neg h1]
        simp only [hclaims, if_neg h2, if_neg h3, if_pos h4]
      rw [hout] at h
      exact Except.noConfusion h
    rcases hname : Inbox.safe_filename r.filename with e | name
    · have hout : Inbox.commit_transfer_item cfg secretKey now transfer_id share_id
          item_id ticket (some r) (some data) existing =
          ⟨.error (.http e), some r, some data, none⟩ := by
        unfold Inbox.commit_transfer_item
        rw [if_neg h1]
        simp only [hclaims, if_neg h2, if_neg h3, if_neg h4, hname]
      rw [hout] at h
      exact Except.noConfusion h
    rcases hchosen : Inbox.next_available_name existing name with _ | chosen
    · have hout : Inbox.commit_transfer_item cfg secretKey now transfer_id share_id
          item_id ticket (some r) (some data) existing =
          ⟨.error (.http ⟨409, "Failed to allocate destination filename"⟩),
           some r, some data, none⟩ := by
        unfold Inbox.commit_transfer_item
        rw [if_neg h1]
        simp only [hclaims, if_neg h2, if_neg h3, if_neg h4, hname, hchosen]
      rw [hout] at h
      exact Except.noConfusion h
    have hout : Inbox.commit_transfer_item cfg secretKey now transfer_id share_id
        item_id ticket (some r) (some data) existing =
        ⟨.ok ⟨r.item_id, "committed", cfg.inbox_dir ++ "/committed/" ++ transfer_id ++ "/" ++ chosen⟩,
         some { r with inbox_path := some (cfg.inbox_dir ++ "/committed/" ++ transfer_id ++ "/" ++ chosen), state := "committed" },
         none, some (chosen, data)⟩ := by
      unfold Inbox.commit_transfer_item
      rw [if_neg h1]
      simp only [hclaims, if_neg h2, if_neg h3, if_neg h4, hname, hchosen]
    refine ⟨r, data, rfl, rfl, by omega, ?_, chosen, ?_, ?_⟩
    · intro hsha
      by_contra hne
      exact h4 ⟨hsha, hne⟩
    · rw [hout]
    · rw [hout]
  · rintro r data hr hdata htid hsid htk ⟨claims, hclaims⟩ hlen hshane hdg
    have hout : Inbox.commit_transfer_item cfg secretKey now transfer_id share_id
        item_id ticket record? partFile? existing =
        ⟨.error (.http ⟨409, "Checksum mismatch"⟩), record?, partFile?, none⟩ := by
      unfold Inbox.commit_transfer_item
      rw [if_neg (by simp [htk])]
      simp only [hclaims, hr, hdata]
      rw [if_neg (by simp [htid, hsid]), if_neg (by omega), if_pos ⟨hshane, hdg⟩]
    rw [hout]
    exact ⟨rfl, rfl, rfl⟩

set_option maxRecDepth 1000000 in
/-- C2 witness. -/
theorem commit_transfer_item_spec_witness :
    ((Inbox.commit_transfer_item ⟨"inbox", 1000⟩ "sec" 50 "t1" "s1" "i1"
        (Token.mkToken
          [("exp", .num 100), ("kind", .str "transfer_upload_ticket"),
           ("receiver_share_id", .str "s1"), ("transfer_id", .str "t1")]
          (Crypto.hmacSha256 (Crypto.strBytes "sec")
            (Crypto.strBytes ⟨Js.serValue (.obj
              [("exp", .num 100), ("kind", .str "transfer_upload_ticket"),
               ("receiver_share_id", .str "s1"), ("transfer_id", .str "t1")])⟩)))
        (some ⟨"t1:i1", "t1", "i1", "s1", "f.txt", 1,
          "aaaaaaaaaaaaaaaaaaaaaaaaaaaaaaaaaaaaaaaaaaaaaaaaaaaaaaaaaaaaaaaa",
          1, "inbox/transfers/t1/i1.part", none, "staged"⟩)
        (some [42]) []).result =
      .error (.http ⟨409, "Checksum mismatch"⟩)) ∧
    (∃ cf, (Inbox.commit_transfer_item ⟨"inbox", 1000⟩ "sec" 50 "t1" "s1" "i1"
        (Token.mkToken
          [("exp", .num 100), ("kind", .str "transfer_upload_ticket"),
           ("receiver_share_id", .str "s1"), ("transfer_id", .str "t1")]
          (Crypto.hmacSha256 (Crypto.strBytes "sec")
            (Crypto.strBytes ⟨Js.serValue (.obj
              [("exp", .num 100), ("kind", .str "transfer_upload_ticket"),
               ("receiver_share_id", .str "s1"), ("transfer_id", .str "t1")])⟩)))
        (some ⟨"t1:i1", "t1", "i1", "s1", "f.txt", 1,
          Inbox.UNKNOWN_SHA256, 1, "inbox/transfers/t1/i1.part", none, "staged"⟩)
        (some [42]) []).committedFile = some cf) := by
  constructor
  · exact ((commit_transfer_item_spec ⟨"inbox", 1000⟩ "sec" 50 "t1" "s1" "i1"
      (Token.mkToken
          [("exp", .num 100), ("kind", .str "transfer_upload_ticket"),
           ("receiver_share_id", .str "s1"), ("transfer_id", .str "t1")]
          (Crypto.hmacSha256 (Crypto.strBytes "sec")
            (Crypto.strBytes ⟨Js.serValue (.obj
              [("exp", .num 100), ("kind", .str "transfer_upload_ticket"),
               ("receiver_share_id", .str "s1"), ("transfer_id", .str "t1")])⟩)))
      (some ⟨"t1:i1", "t1", "i1", "s1", "f.txt", 1,
        "aaaaaaaaaaaaaaaaaaaaaaaaaaaaaaaaaaaaaaaaaaaaaaaaaaaaaaaaaaaaaaaa",
        1, "inbox/transfers/t1/i1.part", none, "staged"⟩)
      (some [42]) []).2 _ [42] rfl rfl rfl rfl rfl ⟨_, rfl⟩ rfl (by decide) (by decide)).1
  · obtain ⟨r, d, _, _, _, _, c, hcf, _⟩ :=
      (commit_transfer_item_spec ⟨"inbox", 1000⟩ "sec" 50 "t1" "s1" "i1"
        (Token.mkToken
          [("exp", .num 100), ("kind", .str "transfer_upload_ticket"),
           ("receiver_share_id", .str "s1"), ("transfer_id", .str "t1")]
          (Crypto.hmacSha256 (Crypto.strBytes "sec")
            (Crypto.strBytes ⟨Js.serValue (.obj
              [("exp", .num 100), ("kind", .str "transfer_upload_ticket"),
               ("receiver_share_id", .str "s1"), ("transfer_id", .str "t1")])⟩)))
        (some ⟨"t1:i1", "t1", "i1", "s1", "f.txt", 1,
          Inbox.UNKNOWN_SHA256, 1, "inbox/transfers/t1/i1.part", none, "staged"⟩)
        (some [42]) []).1 ⟨"i1", "committed", "inbox/committed/t1/f.txt"⟩ rfl
    exact ⟨(c, d), hcf⟩

namespace Inbox

theorem writeChunks_ok_len (maxBytes : Nat) (remaining : Int) :
    ∀ chunks acc w, writeChunks maxBytes remaining chunks acc = .ok w →
      w = acc + chunks.flatten.length := by
  intro chunks
  induction chunks with
  | nil =>
    intro acc w h
    unfold writeChunks at h
    simp only [Except.ok.injEq] at h
    simp [h]
  | cons c rest ih =>
    intro acc w h
    unfold writeChunks at h
    by_cases hc : c.isEmpty = true
    · rw [if_pos hc] at h
      have hv := ih _ _ h
      have hcnil : c = [] := List.isEmpty_iff.mp hc
      simp [hv, hcnil]
    · rw [if_neg hc] at h
      simp only [] at h
      split_ifs at h with hcap hrem
      have hv := ih _ _ h
      simp only [List.flatten_cons, List.length_append]
      omega

theorem writeChunks_ok_bound (maxBytes : Nat) (remaining : Int) :
    ∀ chunks acc w, writeChunks maxBytes remaining chunks acc = .ok w →
      w = acc ∨ (w : Int) ≤ remaining := by
  intro chunks
  induction chunks with
  | nil =>
    intro acc w h
    unfold writeChunks at h
    simp only [Except.ok.injEq] at h
    exact Or.inl h.symm
  | cons c rest ih =>
    intro acc w h
    unfold writeChunks at h
    by_cases hc : c.isEmpty = true
    · rw [if_pos hc] at h
      exact ih _ _ h
    · rw [if_neg hc] at h
      simp only [] at h
      split_ifs at h with hcap hrem
      rcases ih _ _ h with heq | hle
      · right; omega
      · right; exact hle

end Inbox



/-- C1: for every accepted chunk upload the item's received_size after the
call equals offset plus the bytes written and is at most expected_size,
matching both the persisted row and the part file length; and for every
otherwise-valid chunk whose x-chunk-offset differs from the item's current
received_size (reconciled to the part file length) the call fails with 409
"Unexpected chunk offset, expected <received_size>" and the part file and
persisted row are unchanged. -/
theorem upload_chunk_spec
    (cfg : Inbox.AgentConfig) (secretKey : String) (now : Int)
    (transfer_id share_id item_id filename : String) (size : Int)
    (sha256 ticket : String) (contentLength : Option Int) (offset : Int)
    (is_last : Bool) (record? : Option Inbox.InboxTransferItem)
    (manifest? : Option Inbox.Manifest) (partFile? : Option (List Nat))
    (body : List (List Nat)) :
    (∀ resp, (Inbox.upload_chunk cfg secretKey now transfer_id share_id item_id filename
        size sha256 ticket contentLength offset is_last record? manifest? partFile?
        body).result = .ok resp →
      resp.received_size = offset + (body.flatten.length : Int) ∧
      resp.received_size ≤ resp.expected_size ∧
      (∃ r', (Inbox.upload_chunk cfg secretKey now transfer_id share_id item_id filename
          size sha256 ticket contentLength offset is_last record? manifest? partFile?
          body).record = some r' ∧
        r'.received_size = resp.received_size ∧ r'.expected_size = resp.expected_size) ∧
      (∃ fb, (Inbox.upload_chunk cfg secretKey now transfer_id share_id item_id filename
          size sha256 ticket contentLength offset is_last record? manifest? partFile?
          body).partFile = some fb ∧ (fb.length : Int) = resp.received_size)) ∧
    (∀ r, record? = some r →
      ¬(size < 0 ∨ sha256.length ≠ 64 ∨ ticket.isEmpty = true) →
      (∃ claims, Agent.verify_transfer_ticket secretKey ticket transfer_id share_id now =
        .ok claims) →
      (∀ cl, contentLength = some cl →
        ¬ cl < 0 ∧ ¬ cl > (cfg.upload_chunk_max_bytes : Int)) →
      ¬ offset < 0 →
      (∃ sn, Inbox.safe_filename filename = .ok sn) →
      ¬ (strLower sha256).length ≠ 64 →
      ¬ r.share_id ≠ share_id →
      ¬ (r.state = "committed" ∨ r.state = "finalized") →
      ¬ r.state = "paused" →
      ¬ (r.expected_sha256 ≠ strLower sha256 ∨ r.expected_size ≠ size) →
      offset ≠ ((partFile?.getD []).length : Int) →
      (Inbox.upload_chunk cfg secretKey now transfer_id share_id item_id filename
          size sha256 ticket contentLength offset is_last record? manifest? partFile?
          body).result =
        .error (.http ⟨409, "Unexpected chunk offset, expected " ++
          toString ((partFile?.getD []).length : Int)⟩) ∧
      (Inbox.upload_chunk cfg secretKey now transfer_id share_id item_id filename
          size sha256 ticket contentLength offset is_last record? manifest? partFile?
          body).record = record? ∧
      (Inbox.upload_chunk cfg secretKey now transfer_id share_id item_id filename
          size sha256 ticket contentLength offset is_last record? manifest? partFile?
          body).partFile = partFile?) := by
  constructor
  · intro resp h
    by_cases h1 : (size < 0 ∨ sha256.length ≠ 64 ∨ ticket.isEmpty = true)
    · have hout : Inbox.upload_chunk cfg secretKey now transfer_id share_id item_id
          filename size sha256 ticket contentLength offset is_last record? manifest?
          partFile? body =
          ⟨.error (.http ⟨422, "Unprocessable Entity"⟩), record?, partFile?⟩ := by
        unfold Inbox.upload_chunk
        rw [if_pos h1]
      rw [hout] at h
      exact Except.noConfusion h
    rcases hv : Agent.verify_transfer_ticket secretKey ticket transfer_id share_id now
      with e | claims
    ·
      have hout : Inbox.upload_chunk cfg secretKey now transfer_id share_id item_id
          filename size sha256 ticket contentLength offset is_last record? manifest?
          partFile? body = ⟨.error e, record?, partFile?⟩ := by
        unfold Inbox.upload_chunk
        rw [if_neg h1]
        simp only [hv]
      rw [hout] at h
      exact Except.noConfusion h
    rcases hclk : Inbox.clCheck cfg contentLength with _ | e
    swap
    ·
      have hout : Inbox.upload_chunk cfg secretKey now transfer_id share_id item_id
          filename size sha256 ticket contentLength offset is_last record? manifest?
          partFile? body = ⟨.error (.http e), record?, partFile?⟩ := by
        unfold Inbox.upload_chunk
        rw [if_neg h1]
        simp only [hv, hclk]
      rw [hout] at h
      exact Except.noConfusion h
    by_cases h4 : offset < 0
    · have hout : Inbox.upload_chunk cfg secretKey now transfer_id share_id item_id
          filename size sha256 ticket contentLength offset is_last record? manifest?
          partFile? body =
          ⟨.error (.http ⟨400, "Invalid x-chunk-offset header"⟩), record?, partFile?⟩ := by
        unfold Inbox.upload_chunk
        rw [if_neg h1]
        simp only [hv, hclk, if_pos h4]
      rw [hout] at h
      exact Except.noConfusion h
    rcases hsn : Inbox.safe_filename filename with e | sn
    ·
      have hout : Inbox.upload_chunk cfg secretKey now transfer_id share_id item_id
          filename size sha256 ticket contentLength offset is_last record? manifest?
          partFile? body = ⟨.error (.http e), record?, partFile?⟩ := by
        unfold Inbox.upload_chunk
        rw [if_neg h1]
        simp only [hv, hclk, if_neg h4, hsn]
      rw [hout] at h
      exact Except.noConfusion h
    by_cases h6 : (strLower sha256).length ≠ 64
    · have hout : Inbox.upload_chunk cfg secretKey now transfer_id share_id item_id
          filename size sha256 ticket contentLength offset is_last record? manifest?
          partFile? body =
          ⟨.error (.http ⟨400, "Invalid sha256"⟩), record?, partFile?⟩ := by
        unfold Inbox.upload_chunk
        rw [if_neg h1]
        simp only [hv, hclk, if_neg h4, hsn, if_pos h6]
      rw [hout] at h
      exact Except.noConfusion h
    rcases hrr : Inbox.resolveRecord cfg transfer_id share_id item_id sn size
        (strLower sha256) record? manifest? with e | r
    ·
      have hout : Inbox.upload_chunk cfg secretKey now transfer_id share_id item_id
          filename size sha256 ticket contentLength offset is_last record? manifest?
          partFile? body = ⟨.error (.http e), record?, partFile?⟩ := by
        unfold Inbox.upload_chunk
        rw [if_neg h1]
        simp only [hv, hclk, if_neg h4, hsn, if_neg h6, hrr]
      rw [hout] at h
      exact Except.noConfusion h
    by_cases h8 : r.share_id ≠ share_id
    · have hout : Inbox.upload_chunk cfg secretKey now transfer_id share_id item_id
          filename size sha256 ticket contentLength offset is_last record? manifest?
          partFile? body =
          ⟨.error (.http ⟨403, "Share mismatch for item"⟩), record?, partFile?⟩ := by
        unfold Inbox.upload_chunk
        rw [if_neg h1]
        simp only [hv, hclk, if_neg h4, hsn, if_neg h6, hrr, if_pos h8]
      rw [hout] at h
      exact Except.noConfusion h
    by_cases h9 : (r.state = "committed" ∨ r.state = "finalized")
    · have hout : Inbox.upload_chunk cfg secretKey now transfer_id share_id item_id
          filename size sha256 ticket contentLength offset is_last record? manifest?
          partFile? body =
          ⟨.error (.http ⟨409, "Item already committed"⟩), record?, partFile?⟩ := by
        unfold Inbox.upload_chunk
        rw [if_neg h1]
        simp only [hv, hclk, if_neg h4, hsn, if_neg h6, hrr, if_neg h8, if_pos h9]
      rw [hout] at h
      exact Except.noConfusion h
    by_cases h10 : r.state = "paused"
    · have hout : Inbox.upload_chunk cfg secretKey now transfer_id share_id item_id
          filename size sha256 ticket contentLength offset is_last record? manifest?
          partFile? body =
          ⟨.error (.http ⟨409, "Transfer is paused"⟩), record?, partFile?⟩ := by
        unfold Inbox.upload_chunk
        rw [if_neg h1]
        simp only [hv, hclk, if_neg h4, hsn, if_neg h6, hrr, if_neg h8, if_neg h9,
          if_pos h10]
      rw [hout] at h
      exact Except.noConfusion h
    by_cases h11 : (r.expected_sha256 ≠ strLower sha256 ∨ r.expected_size ≠ size)
    · have hout : Inbox.upload_chunk cfg secretKey now transfer_id share_id item_id
          filename size sha256 ticket contentLength offset is_last record? manifest?
          partFile? body =
          ⟨.error (.http ⟨409, "Chunk metadata mismatch"⟩), record?, partFile?⟩ := by
        unfold Inbox.upload_chunk
        rw [if_neg h1]
        simp only [hv, hclk, if_neg h4, hsn, if_neg h6, hrr, if_neg h8, if_neg h9,
          if_neg h10, if_pos h11]
      rw [hout] at h
      exact Except.noConfusion h
    by_cases h12 : offset ≠ ((partFile?.getD []).length : Int)
    · have hout : Inbox.upload_chunk cfg secretKey now transfer_id share_id item_id
          filename size sha256 ticket contentLength offset is_last record? manifest?
          partFile? body =
          ⟨.error (.http ⟨409, "Unexpected chunk offset, expected " ++
            toString ((partFile?.getD []).length : Int)⟩), record?, partFile?⟩ := by
        unfold Inbox.upload_chunk
        rw [if_neg h1]
        simp only [hv, hclk, if_neg h4, hsn, if_neg h6, hrr, if_neg h8, if_neg h9,
          if_neg h10, if_neg h11, if_pos h12]
      rw [hout] at h
      exact Except.noConfusion h
    by_cases h13 : r.expected_size - offset < 0
    · have hout : Inbox.upload_chunk cfg secretKey now transfer_id share_id item_id
          filename size sha256 ticket contentLength offset is_last record? manifest?
          partFile? body =
          ⟨.error (.http ⟨409, "Chunk offset exceeds expected size"⟩),
           record?, partFile?⟩ := by
        unfold Inbox.upload_chunk
        rw [if_neg h1]
        simp only [hv, hclk, if_neg h4, hsn, if_neg h6, hrr, if_neg h8, if_neg h9,
          if_neg h10, if_neg h11, if_neg h12, if_pos h13]
      rw [hout] at h
      exact Except.noConfusion h
    rcases hw : Inbox.writeChunks cfg.upload_chunk_max_bytes (r.expected_size - offset)
        body 0 with e | written
    ·
      have hout : Inbox.upload_chunk cfg secretKey now transfer_id share_id item_id
          filename size sha256 ticket contentLength offset is_last record? manifest?
          partFile? body =
          ⟨.error (.http e), record?, some (partFile?.getD [])⟩ := by
        unfold Inbox.upload_chunk
        rw [if_neg h1]
        simp only [hv, hclk, if_neg h4, hsn, if_neg h6, hrr, if_neg h8, if_neg h9,
          if_neg h10, if_neg h11, if_neg h12, if_neg h13, hw]
      rw [hout] at h
      exact Except.noConfusion h
    by_cases h15 : (is_last = true ∧ offset + (written : Int) ≠ r.expected_size)
    · have hout : Inbox.upload_chunk cfg secretKey now transfer_id share_id item_id
          filename size sha256 ticket contentLength offset is_last record? manifest?
          partFile? body =
          ⟨.error (.http ⟨409, "Final chunk does not match expected size"⟩),
           record?, some ((partFile?.getD []) ++ body.flatten)⟩ := by
        unfold Inbox.upload_chunk
        rw [if_neg h1]
        simp only [hv, hclk, if_neg h4, hsn, if_neg h6, hrr, if_neg h8, if_neg h9,
          if_neg h10, if_neg h11, if_neg h12, if_neg h13, hw, if_pos h15]
      rw [hout] at h
      exact Except.noConfusion h
    have hout : Inbox.upload_chunk cfg secretKey now transfer_id share_id item_id
        filename size sha256 ticket contentLength offset is_last record? manifest?
        partFile? body =
        ⟨.ok ⟨r.item_id, offset + (written : Int), r.expected_size,
          if is_last then "staged" else "receiving"⟩,
         some { r with
           received_size := offset + (written : Int)
           state := if is_last then "staged" else "receiving" },
         some ((partFile?.getD []) ++ body.flatten)⟩ := by
      unfold Inbox.upload_chunk
      rw [if_neg h1]
      simp only [hv, hclk, if_neg h4, hsn, if_neg h6, hrr, if_neg h8, if_neg h9,
        if_neg h10, if_neg h11, if_neg h12, if_neg h13, hw, if_neg h15]
    rw [hout] at h
    dsimp only at h
    injection h with h
    subst h
    have hwlen := Inbox.writeChunks_ok_len cfg.upload_chunk_max_bytes
      (r.expected_size - offset) body 0 written hw
    have hwb := Inbox.writeChunks_ok_bound cfg.upload_chunk_max_bytes
      (r.expected_size - offset) body 0 written hw
    have hoff : offset = ((partFile?.getD []).length : Int) := not_ne_iff.mp h12
    refine ⟨?_, ?_, ?_, ?_⟩
    · show offset + (written : Int) = offset + (body.flatten.length : Int)
      omega
    · show offset + (written : Int) ≤ r.expected_size
      rcases hwb with h0 | hle <;> omega
    · exact ⟨{ r with received_size := offset + (written : Int), state := if is_last then "staged" else "receiving" }, by rw [hout], rfl, rfl⟩
    · refine ⟨(partFile?.getD []) ++ body.flatten, ?_, ?_⟩
      · rw [hout]
      · show (((partFile?.getD []) ++ body.flatten).length : Int) = offset + (written : Int)
        simp only [List.length_append]
        omega
  · rintro r hrec h1 ⟨claims, hv⟩ hclh h4 ⟨sn, hsn⟩ h6 h8 h9 h10 h11 h12
    have hclk : Inbox.clCheck cfg contentLength = none := by
      rcases contentLength with _ | cl
      · rfl
      · obtain ⟨hc0, hcc⟩ := hclh cl rfl
        simp only [Inbox.clCheck]
        rw [if_neg hc0, if_neg hcc]
    have hrr : Inbox.resolveRecord cfg transfer_id share_id item_id sn size
        (strLower sha256) record? manifest? = .ok r := by
      rw [hrec]
      rfl
    have hout : Inbox.upload_chunk cfg secretKey now transfer_id share_id item_id
        filename size sha256 ticket contentLength offset is_last record? manifest?
        partFile? body =
        ⟨.error (.http ⟨409, "Unexpected chunk offset, expected " ++
          toString ((partFile?.getD []).length : Int)⟩), record?, partFile?⟩ := by
      unfold Inbox.upload_chunk
      rw [if_neg h1]
      simp only [hv, hclk, if_neg h4, hsn, if_neg h6, hrr, if_neg h8, if_neg h9,
        if_neg h10, if_neg h11, if_pos h12]
    rw [hout]
    exact ⟨rfl, rfl, rfl⟩

set_option maxRecDepth 1000000 in
/-- C1 witness. -/
theorem upload_chunk_spec_witness :
    (∃ fb, (Inbox.upload_chunk ⟨"inbox", 1000⟩ "sec" 50 "t1" "s1" "i1" "f.txt" 4
        "aaaaaaaaaaaaaaaaaaaaaaaaaaaaaaaaaaaaaaaaaaaaaaaaaaaaaaaaaaaaaaaa"
        (Token.mkToken
          [("exp", .num 100), ("kind", .str "transfer_upload_ticket"),
           ("receiver_share_id", .str "s1"), ("transfer_id", .str "t1")]
          (Crypto.hmacSha256 (Crypto.strBytes "sec")
            (Crypto.strBytes ⟨Js.serValue (.obj
              [("exp", .num 100), ("kind", .str "transfer_upload_ticket"),
               ("receiver_share_id", .str "s1"), ("transfer_id", .str "t1")])⟩)))
        (some 4) 0 true
        (some ⟨"t1:i1", "t1", "i1", "s1", "f.txt", 4,
          "aaaaaaaaaaaaaaaaaaaaaaaaaaaaaaaaaaaaaaaaaaaaaaaaaaaaaaaaaaaaaaaa",
          0, "inbox/transfers/t1/i1.part", none, "pending"⟩)
        none none [[1, 2], [3, 4]]).partFile = some fb ∧ (fb.length : Int) = 4) ∧
    (Inbox.upload_chunk ⟨"inbox", 1000⟩ "sec" 50 "t1" "s1" "i1" "f.txt" 4
        "aaaaaaaaaaaaaaaaaaaaaaaaaaaaaaaaaaaaaaaaaaaaaaaaaaaaaaaaaaaaaaaa"
        (Token.mkToken
          [("exp", .num 100), ("kind", .str "transfer_upload_ticket"),
           ("receiver_share_id", .str "s1"), ("transfer_id", .str "t1")]
          (Crypto.hmacSha256 (Crypto.strBytes "sec")
            (Crypto.strBytes ⟨Js.serValue (.obj
              [("exp", .num 100), ("kind", .str "transfer_upload_ticket"),
               ("receiver_share_id", .str "s1"), ("transfer_id", .str "t1")])⟩)))
        (some 4) 5 true
        (some ⟨"t1:i1", "t1", "i1", "s1", "f.txt", 4,
          "aaaaaaaaaaaaaaaaaaaaaaaaaaaaaaaaaaaaaaaaaaaaaaaaaaaaaaaaaaaaaaaa",
          0, "inbox/transfers/t1/i1.part", none, "pending"⟩)
        none none [[1, 2], [3, 4]]).result =
      .error (.http ⟨409, "Unexpected chunk offset, expected 0"⟩) := by
  constructor
  · obtain ⟨-, -, -, fb, hfb, hlen⟩ :=
      (upload_chunk_spec ⟨"inbox", 1000⟩ "sec" 50 "t1" "s1" "i1" "f.txt" 4
        "aaaaaaaaaaaaaaaaaaaaaaaaaaaaaaaaaaaaaaaaaaaaaaaaaaaaaaaaaaaaaaaa"
        (Token.mkToken
          [("exp", .num 100), ("kind", .str "transfer_upload_ticket"),
           ("receiver_share_id", .str "s1"), ("transfer_id", .str "t1")]
          (Crypto.hmacSha256 (Crypto.strBytes "sec")
            (Crypto.strBytes ⟨Js.serValue (.obj
              [("exp", .num 100), ("kind", .str "transfer_upload_ticket"),
               ("receiver_share_id", .str "s1"), ("transfer_id", .str "t1")])⟩)))
        (some 4) 0 true
        (some ⟨"t1:i1", "t1", "i1", "s1", "f.txt", 4,
          "aaaaaaaaaaaaaaaaaaaaaaaaaaaaaaaaaaaaaaaaaaaaaaaaaaaaaaaaaaaaaaaa",
          0, "inbox/transfers/t1/i1.part", none, "pending"⟩)
        none none [[1, 2], [3, 4]]).1 ⟨"i1", 4, 4, "staged"⟩ rfl
    exact ⟨fb, hfb, hlen.trans rfl⟩
  · exact ((upload_chunk_spec ⟨"inbox", 1000⟩ "sec" 50 "t1" "s1" "i1" "f.txt" 4
        "aaaaaaaaaaaaaaaaaaaaaaaaaaaaaaaaaaaaaaaaaaaaaaaaaaaaaaaaaaaaaaaa"
        (Token.mkToken
          [("exp", .num 100), ("kind", .str "transfer_upload_ticket"),
           ("receiver_share_id", .str "s1"), ("transfer_id", .str "t1")]
          (Crypto.hmacSha256 (Crypto.strBytes "sec")
            (Crypto.strBytes ⟨Js.serValue (.obj
              [("exp", .num 100), ("kind", .str "transfer_upload_ticket"),
               ("receiver_share_id", .str "s1"), ("transfer_id", .str "t1")])⟩)))
        (some 4) 5 true
        (some ⟨"t1:i1", "t1", "i1", "s1", "f.txt", 4,
          "aaaaaaaaaaaaaaaaaaaaaaaaaaaaaaaaaaaaaaaaaaaaaaaaaaaaaaaaaaaaaaaa",
          0, "inbox/transfers/t1/i1.part", none, "pending"⟩)
        none none [[1, 2], [3, 4]]).2
      ⟨"t1:i1", "t1", "i1", "s1", "f.txt", 4,
        "aaaaaaaaaaaaaaaaaaaaaaaaaaaaaaaaaaaaaaaaaaaaaaaaaaaaaaaaaaaaaaaa",
        0, "inbox/transfers/t1/i1.part", none, "pending"⟩ rfl
      (by decide) ⟨_, rfl⟩ (fun cl hcl => by cases hcl; exact ⟨by decide, by decide⟩)
      (by decide) ⟨"f.txt", rfl⟩ (by decide) (by decide) (by decide) (by decide)
      (by decide) (by decide)).1


namespace Search

theorem appendItems_take (maxTotal : Nat) :
    ∀ items res, ∃ k, (appendItems maxTotal res items).1 = res ++ items.take k ∧
      k ≤ items.length := by
  intro items
  induction items with
  | nil => intro res; exact ⟨0, by simp [appendItems], by simp⟩
  | cons it rest ih =>
    intro res
    unfold appendItems
    simp only []
    by_cases hc : maxTotal ≤ (res ++ [it]).length
    · rw [if_pos hc]
      exact ⟨1, by simp, by simp⟩
    · rw [if_neg hc]
      obtain ⟨k, hk, hkle⟩ := ih (res ++ [it])
      refine ⟨k + 1, ?_, by simpa using hkle⟩
      rw [hk]
      simp [List.take_succ_cons]

theorem appendItems_hit (maxTotal : Nat) :
    ∀ items res, (appendItems maxTotal res items).2 = true →
      maxTotal ≤ (appendItems maxTotal res items).1.length := by
  intro items
  induction items with
  | nil => intro res h; exact absurd h (by simp [appendItems])
  | cons it rest ih =>
    intro res h
    unfold appendItems at h ⊢
    simp only [] at h ⊢
    by_cases hc : maxTotal ≤ (res ++ [it]).length
    · rw [if_pos hc] at h ⊢
      exact hc
    · rw [if_neg hc] at h ⊢
      exact ih _ h

theorem appendItems_miss (maxTotal : Nat) :
    ∀ items res, res.length < maxTotal → (appendItems maxTotal res items).2 = false →
      (appendItems maxTotal res items).1.length < maxTotal := by
  intro items
  induction items with
  | nil => intro res hres _; simpa [appendItems] using hres
  | cons it rest ih =>
    intro res hres h
    unfold appendItems at h ⊢
    simp only [] at h ⊢
    by_cases hc : maxTotal ≤ (res ++ [it]).length
    · rw [if_pos hc] at h
      exact absurd h (by simp)
    · rw [if_neg hc] at h ⊢
      exact ih _ (by omega) h

theorem mergeGo_countP (maxTotal : Nat) (timedOut : Bool) (p : ResultItem → Bool) :
    ∀ outcomes res errs tr,
      ((mergeGo maxTotal timedOut outcomes res errs tr).1.countP p) ≤
        res.countP p + (outcomes.map (fun o => match o.2.2 with
          | .ok pay => pay.items.countP p
          | .error _ => 0)).sum := by
  intro outcomes
  induction outcomes with
  | nil => intro res errs tr; simp [mergeGo]
  | cons o rest ih =>
    intro res errs tr
    obtain ⟨d, s, out⟩ := o
    cases out with
    | error e =>
      have := ih res (errs ++ [⟨d.id, s.id, e⟩]) tr
      simpa [mergeGo] using this
    | ok pay =>
      unfold mergeGo
      simp only [List.map_cons, List.sum_cons]
      obtain ⟨k, hk, _⟩ := appendItems_take maxTotal pay.items res
      have htake : ((appendItems maxTotal res pay.items).1.countP p) ≤
          res.countP p + pay.items.countP p := by
        rw [hk, List.countP_append]
        have : ((pay.items.take k).countP p) ≤ pay.items.countP p :=
          (List.take_sublist k pay.items).countP_le p
        omega
      by_cases hbr : ((tr || pay.truncated) || (appendItems maxTotal res pay.items).2) = true
          ∧ maxTotal ≤ (appendItems maxTotal res pay.items).1.length
      · rw [if_pos (by simpa using And.intro hbr.1 hbr.2)]
        simpa using le_trans htake (by omega)
      · rw [if_neg (by simpa using hbr)]
        have := ih (appendItems maxTotal res pay.items).1 errs
          ((tr || pay.truncated) || (appendItems maxTotal res pay.items).2)
        omega

theorem mergeGo_timeout (maxTotal : Nat) :
    ∀ outcomes res errs tr,
      (mergeGo maxTotal true outcomes res errs tr).2.2 = true := by
  intro outcomes
  induction outcomes with
  | nil => intro res errs tr; simp [mergeGo]
  | cons o rest ih =>
    intro res errs tr
    obtain ⟨d, s, out⟩ := o
    cases out with
    | error e => simpa [mergeGo] using ih res (errs ++ [⟨d.id, s.id, e⟩]) tr
    | ok pay =>
      unfold mergeGo
      simp only []
      by_cases hbr : (((tr || pay.truncated) || (appendItems maxTotal res pay.items).2)
          && decide (maxTotal ≤ (appendItems maxTotal res pay.items).1.length)) = true
      · rw [if_pos hbr]
        exact (Bool.and_eq_true_iff.mp hbr).1
      · rw [if_neg hbr]
        exact ih _ _ _

theorem mergeGo_flag_false (maxTotal : Nat) (timedOut : Bool) :
    ∀ outcomes res errs tr, res.length < maxTotal →
      (mergeGo maxTotal timedOut outcomes res errs tr).2.2 = false →
      tr = false ∧ timedOut = false ∧
      (∀ e ∈ outcomes, ∀ pay, e.2.2 = Except.ok pay → pay.truncated = false) ∧
      (mergeGo maxTotal timedOut outcomes res errs tr).1.length < maxTotal := by
  intro outcomes
  induction outcomes with
  | nil =>
    intro res errs tr hres h
    simp only [mergeGo] at h ⊢
    rcases Bool.or_eq_false_iff.mp h with ⟨h1, h2⟩
    exact ⟨h1, h2, by simp, hres⟩
  | cons o rest ih =>
    intro res errs tr hres h
    obtain ⟨d, s, out⟩ := o
    cases out with
    | error e =>
      unfold mergeGo at h ⊢
      obtain ⟨h1, h2, h3, h4⟩ := ih res (errs ++ [⟨d.id, s.id, e⟩]) tr hres h
      refine ⟨h1, h2, ?_, h4⟩
      intro e' he' pay hp
      rcases List.mem_cons.mp he' with rfl | he''
      · exact Except.noConfusion hp
      · exact h3 e' he'' pay hp
    | ok pay =>
      unfold mergeGo at h ⊢
      simp only [] at h ⊢
      by_cases hbr : (((tr || pay.truncated) || (appendItems maxTotal res pay.items).2)
          && decide (maxTotal ≤ (appendItems maxTotal res pay.items).1.length)) = true
      · rw [if_pos hbr] at h
        exact absurd h (by simp [(Bool.and_eq_true_iff.mp hbr).1])
      · rw [if_neg hbr] at h ⊢
        have hres' : (appendItems maxTotal res pay.items).1.length < maxTotal := by
          by_cases hhit : (appendItems maxTotal res pay.items).2 = true
          · by_contra hge
            exact hbr (by
              simp only [Bool.and_eq_true_iff, Bool.or_eq_true_iff]
              exact ⟨Or.inr hhit, by simpa using Nat.le_of_not_lt hge⟩)
          · exact appendItems_miss maxTotal pay.items res hres
              (Bool.not_eq_true _ ▸ hhit)
        obtain ⟨h1, h2, h3, h4⟩ := ih _ errs _ hres' h
        rcases Bool.or_eq_false_iff.mp h1 with ⟨h1a, _⟩
        rcases Bool.or_eq_false_iff.mp h1a with ⟨htr, hpt⟩
        refine ⟨htr, h2, ?_, h4⟩
        intro e' he' pay' hp
        rcases List.mem_cons.mp he' with rfl | he''
        · cases hp; exact hpt
        · exact h3 e' he'' pay' hp

theorem mergeGo_flag_true (maxTotal : Nat) (timedOut : Bool) :
    ∀ outcomes res errs tr,
      (mergeGo maxTotal timedOut outcomes res errs tr).2.2 = true →
      tr = true ∨ timedOut = true ∨
      (∃ e ∈ outcomes, ∃ pay, e.2.2 = Except.ok pay ∧ pay.truncated = true) ∨
      maxTotal ≤ (mergeGo maxTotal timedOut outcomes res errs tr).1.length := by
  intro outcomes
  induction outcomes with
  | nil =>
    intro res errs tr h
    simp only [mergeGo] at h
    rcases Bool.or_eq_true_iff.mp h with h1 | h2
    · exact Or.inl h1
    · exact Or.inr (Or.inl h2)
  | cons o rest ih =>
    intro res errs tr h
    obtain ⟨d, s, out⟩ := o
    cases out with
    | error e =>
      unfold mergeGo at h ⊢
      rcases ih res (errs ++ [⟨d.id, s.id, e⟩]) tr h with h1 | h2 | ⟨e', he', pay, hp, ht⟩ | h4
      · exact Or.inl h1
      · exact Or.inr (Or.inl h2)
      · exact Or.inr (Or.inr (Or.inl ⟨e', List.mem_cons_of_mem _ he', pay, hp, ht⟩))
      · exact Or.inr (Or.inr (Or.inr h4))
    | ok pay =>
      unfold mergeGo at h ⊢
      simp only [] at h ⊢
      by_cases hbr : (((tr || pay.truncated) || (appendItems maxTotal res pay.items).2)
          && decide (maxTotal ≤ (appendItems maxTotal res pay.items).1.length)) = true
      · rw [if_pos hbr] at h ⊢
        exact Or.inr (Or.inr (Or.inr (by
          simpa using (Bool.and_eq_true_iff.mp hbr).2)))
      · rw [if_neg hbr] at h ⊢
        rcases ih _ errs _ h with h1 | h2 | ⟨e', he', pay', hp, ht⟩ | h4
        · rcases Bool.or_eq_true_iff.mp h1 with h1a | hhit
          · rcases Bool.or_eq_true_iff.mp h1a with htr | hpt
            · exact Or.inl htr
            · exact Or.inr (Or.inr (Or.inl ⟨(d, s, Except.ok pay), List.mem_cons_self _ _,
                pay, rfl, hpt⟩))
          · exfalso
            have hge := appendItems_hit maxTotal pay.items res hhit
            exact hbr (by
              simp only [Bool.and_eq_true_iff, Bool.or_eq_true_iff]
              exact ⟨Or.inr hhit, by simpa using hge⟩)
        · exact Or.inr (Or.inl h2)
        · exact Or.inr (Or.inr (Or.inl ⟨e', List.mem_cons_of_mem _ he', pay', hp, ht⟩))
        · exact Or.inr (Or.inr (Or.inr h4))

theorem insertItem_perm (x : ResultItem) :
    ∀ l, List.Perm (insertItem x l) (x :: l) := by
  intro l
  induction l with
  | nil => simp [insertItem]
  | cons y rest ih =>
    unfold insertItem
    by_cases hc : itemLE y x = true
    · rw [if_pos hc]
      exact (ih.cons y).trans (List.Perm.swap x y rest)
    · rw [if_neg hc]

theorem sortItems_perm : ∀ l, List.Perm (sortItems l) l := by
  intro l
  induction l with
  | nil => simp [sortItems]
  | cons x rest ih =>
    unfold sortItems
    exact (insertItem_perm x (sortItems rest)).trans (ih.cons x)

theorem run_search_countP (d : Coord.AgentDevice) (s : Coord.Share) (mp : Nat)
    (ap : AgentPayload) (sid : String) :
    ((run_search d s mp ap).items.countP (fun it => it.share_id == sid)) ≤
      if s.id = sid then mp else 0 := by
  unfold run_search
  simp only [List.countP_map]
  by_cases hs : s.id = sid
  · rw [if_pos hs]
    calc ((ap.items.take mp).countP _) ≤ (ap.items.take mp).length :=
        List.countP_le_length _
      _ ≤ mp := by
        simpa using List.length_take_le mp ap.items
  · rw [if_neg hs]
    have hz : ((ap.items.take mp).countP
        ((fun it => it.share_id == sid) ∘ (fun it =>
          ({ path := it.path
             is_dir := it.is_dir
             device_id := d.id
             share_id := s.id
             share_name := s.name
             device_name := d.name } : ResultItem)))) = 0 := by
      apply List.countP_eq_zero.mpr
      intro a _
      simp [hs]
    simpa using Nat.le_of_eq hz

theorem outcomes_sum_le (sid : String) (max_per : Nat) :
    ∀ (outcomes : List (Coord.AgentDevice × Coord.Share × Except String RunPayload)),
      ((outcomes.map (fun o => o.2.1.id)).Nodup) →
      (∀ o ∈ outcomes, ∀ pay, o.2.2 = Except.ok pay →
        (pay.items.countP (fun it => it.share_id == sid)) ≤
          if o.2.1.id = sid then max_per else 0) →
      ((outcomes.map (fun o => match o.2.2 with
        | Except.ok pay => pay.items.countP (fun it => it.share_id == sid)
        | Except.error _ => 0)).sum) ≤ max_per := by
  intro outcomes
  induction outcomes with
  | nil => intro _ _; simp
  | cons o rest ih =>
    intro hnd hb
    rw [List.map_cons] at hnd
    rcases List.nodup_cons.mp hnd with ⟨hnotin, hnd'⟩
    simp only [List.map_cons, List.sum_cons]
    have hrest := ih hnd' (fun o' ho' pay hp => hb o' (List.mem_cons_of_mem _ ho') pay hp)
    by_cases hs : o.2.1.id = sid
    · have hrest0 : ((rest.map (fun o => match o.2.2 with
          | Except.ok pay => pay.items.countP (fun it => it.share_id == sid)
          | Except.error _ => 0)).sum) = 0 := by
        apply List.sum_eq_zero
        intro x hx
        simp only [List.mem_map] at hx
        obtain ⟨o', ho', rfl⟩ := hx
        cases hoc : o'.2.2 with
        | error e => simp only [hoc]
        | ok pay =>
          have hle := hb o' (List.mem_cons_of_mem _ ho') pay hoc
          have hne : o'.2.1.id ≠ sid := by
            intro he
            refine hnotin ?_
            rw [← hs] at he
            exact List.mem_map.mpr ⟨o', ho', he⟩
          rw [if_neg hne] at hle
          simp only [hoc]
          omega
      rw [hrest0]
      cases hoc : o.2.2 with
      | error e =>
        simp only [hoc]
        omega
      | ok pay =>
        have hle := hb o (List.mem_cons_self _ _) pay hoc
        rw [if_pos hs] at hle
        simp only [hoc]
        omega
    · cases hoc : o.2.2 with
      | error e =>
        simp only [hoc]
        omega
      | ok pay =>
        have hle := hb o (List.mem_cons_self _ _) pay hoc
        rw [if_neg hs] at hle
        simp only [hoc]
        omega

theorem searchFed_eq_of_empty (q path : String) (recursive : Bool)
    (rows : List (Coord.Share × Coord.AgentDevice)) (grants : List Coord.AclGrant)
    (principal : String) (max_shares max_per max_total : Nat) (now : Int)
    (completed : List ((Coord.AgentDevice × Coord.Share) × Except String AgentPayload))
    (timedOut : Bool)
    (hemp : (select_candidates rows grants principal max_shares now).isEmpty = true) :
    search_files_federated q path recursive rows grants principal
        max_shares max_per max_total now completed timedOut =
      { query := q
        base_path := path
        recursive := recursive
        federated := true
        items := []
        truncated := false
        errors := [] } := by
  unfold search_files_federated
  simp only []
  rw [hemp]
  rfl

theorem searchFed_eq_of_nonempty (q path : String) (recursive : Bool)
    (rows : List (Coord.Share × Coord.AgentDevice)) (grants : List Coord.AclGrant)
    (principal : String) (max_shares max_per max_total : Nat) (now : Int)
    (completed : List ((Coord.AgentDevice × Coord.Share) × Except String AgentPayload))
    (timedOut : Bool)
    (hne : (select_candidates rows grants principal max_shares now).isEmpty = false) :
    search_files_federated q path recursive rows grants principal
        max_shares max_per max_total now completed timedOut =
      { query := q
        base_path := path
        recursive := recursive
        federated := true
        items := (sortItems (mergeGo max_total timedOut
          (completed.map (fun ce =>
            (ce.1.1, ce.1.2, ce.2.map (run_search ce.1.1 ce.1.2 max_per))))
          [] [] false).1).take max_total
        truncated := (mergeGo max_total timedOut
          (completed.map (fun ce =>
            (ce.1.1, ce.1.2, ce.2.map (run_search ce.1.1 ce.1.2 max_per))))
          [] [] false).2.2
        errors := (mergeGo max_total timedOut
          (completed.map (fun ce =>
            (ce.1.1, ce.1.2, ce.2.map (run_search ce.1.1 ce.1.2 max_per))))
          [] [] false).2.1 } := by
  unfold search_files_federated
  simp only []
  rw [hne]
  rfl

end Search

/-- C5: the federated search response holds at most `max_results_total`
items, at most `max_results_per_share` items from any single share
(assuming distinct share ids across finished futures), and — whenever any
candidate share was selected — its `truncated` flag is true exactly when
the deadline expired, some agent payload reported per-share truncation,
or the total cap was reached; reaching the `max_shares` candidate cap
does not by itself set the flag. -/
theorem search_files_federated_spec (q path : String) (recursive : Bool)
    (rows : List (Coord.Share × Coord.AgentDevice)) (grants : List Coord.AclGrant)
    (principal : String) (max_shares max_per max_total : Nat) (now : Int)
    (completed : List ((Coord.AgentDevice × Coord.Share) × Except String Search.AgentPayload))
    (timedOut : Bool)
    (hmt : 0 < max_total)
    (hnodup : (completed.map (fun ce => ce.1.2.id)).Nodup) :
    ∀ resp, resp = Search.search_files_federated q path recursive rows grants principal
        max_shares max_per max_total now completed timedOut →
      resp.items.length ≤ max_total ∧
      (∀ sid, (resp.items.filter (fun it => it.share_id == sid)).length ≤ max_per) ∧
      ((Search.select_candidates rows grants principal max_shares now).isEmpty = false →
        ((timedOut = true → resp.truncated = true) ∧
         (resp.truncated = false → timedOut = false ∧
           (∀ ce ∈ completed, ∀ ap, ce.2 = Except.ok ap → ap.truncated = false) ∧
           resp.items.length < max_total) ∧
         (resp.truncated = true → timedOut = true ∨
           (∃ ce ∈ completed, ∃ ap, ce.2 = Except.ok ap ∧ ap.truncated = true) ∨
           resp.items.length = max_total))) := by
  intro resp hresp
  subst hresp
  by_cases hemp : (Search.select_candidates rows grants principal max_shares now).isEmpty = true
  · rw [Search.searchFed_eq_of_empty q path recursive rows grants principal
      max_shares max_per max_total now completed timedOut hemp]
    refine ⟨by simp, fun sid => by simp, fun hne => ?_⟩
    rw [hemp] at hne
    exact Bool.noConfusion hne
  · have hne : (Search.select_candidates rows grants principal max_shares now).isEmpty = false :=
      Bool.eq_false_iff.mpr hemp
    rw [Search.searchFed_eq_of_nonempty q path recursive rows grants principal
      max_shares max_per max_total now completed timedOut hne]
    refine ⟨?_, ?_, fun _ => ⟨?_, ?_, ?_⟩⟩
    · dsimp only
      rw [List.length_take]
      exact min_le_left _ _
    · intro sid
      dsimp only
      rw [← List.countP_eq_length_filter]
      have hsub : (((Search.sortItems (Search.mergeGo max_total timedOut
          (completed.map (fun ce =>
            (ce.1.1, ce.1.2, ce.2.map (Search.run_search ce.1.1 ce.1.2 max_per))))
          [] [] false).1).take max_total).countP (fun it => it.share_id == sid)) ≤
          ((Search.sortItems (Search.mergeGo max_total timedOut
          (completed.map (fun ce =>
            (ce.1.1, ce.1.2, ce.2.map (Search.run_search ce.1.1 ce.1.2 max_per))))
          [] [] false).1).countP (fun it => it.share_id == sid)) :=
        (List.take_sublist _ _).countP_le _
      have hperm : ((Search.sortItems (Search.mergeGo max_total timedOut
          (completed.map (fun ce =>
            (ce.1.1, ce.1.2, ce.2.map (Search.run_search ce.1.1 ce.1.2 max_per))))
          [] [] false).1).countP (fun it => it.share_id == sid)) =
          ((Search.mergeGo max_total timedOut
          (completed.map (fun ce =>
            (ce.1.1, ce.1.2, ce.2.map (Search.run_search ce.1.1 ce.1.2 max_per))))
          [] [] false).1.countP (fun it => it.share_id == sid)) :=
        (Search.sortItems_perm _).countP_eq _
      have hmerge := Search.mergeGo_countP max_total timedOut (fun it => it.share_id == sid)
        (completed.map (fun ce =>
          (ce.1.1, ce.1.2, ce.2.map (Search.run_search ce.1.1 ce.1.2 max_per))))
        [] [] false
      have hnodup2 : (((completed.map (fun ce =>
          (ce.1.1, ce.1.2, ce.2.map (Search.run_search ce.1.1 ce.1.2 max_per)))).map
          (fun o => o.2.1.id)).Nodup) := by
        rw [List.map_map]
        exact hnodup
      have hbound : ∀ o ∈ (completed.map (fun ce =>
          (ce.1.1, ce.1.2, ce.2.map (Search.run_search ce.1.1 ce.1.2 max_per)))),
          ∀ pay, o.2.2 = Except.ok pay →
          ((pay.items.countP (fun it => it.share_id == sid)) ≤
            if o.2.1.id = sid then max_per else 0) := by
        intro o ho pay hp
        obtain ⟨ce, hce, rfl⟩ := List.mem_map.mp ho
        have hp2 : ce.2.map (Search.run_search ce.1.1 ce.1.2 max_per) = Except.ok pay := hp
        cases hc2 : ce.2 with
        | error er =>
          rw [hc2] at hp2
          simp only [Except.map] at hp2
          exact Except.noConfusion hp2
        | ok ap =>
          rw [hc2] at hp2
          simp only [Except.map, Except.ok.injEq] at hp2
          show (pay.items.countP (fun it => it.share_id == sid)) ≤
            if ce.1.2.id = sid then max_per else 0
          rw [← hp2]
          exact Search.run_search_countP ce.1.1 ce.1.2 max_per ap sid
      have hsum := Search.outcomes_sum_le sid max_per
        (completed.map (fun ce =>
          (ce.1.1, ce.1.2, ce.2.map (Search.run_search ce.1.1 ce.1.2 max_per))))
        hnodup2 hbound
      calc (((Search.sortItems (Search.mergeGo max_total timedOut
          (completed.map (fun ce =>
            (ce.1.1, ce.1.2, ce.2.map (Search.run_search ce.1.1 ce.1.2 max_per))))
          [] [] false).1).take max_total).countP (fun it => it.share_id == sid))
          ≤ _ := hsub
        _ = _ := hperm
        _ ≤ _ := hmerge
        _ ≤ max_per := by simpa using hsum
    · intro htO
      dsimp only
      subst htO
      exact Search.mergeGo_timeout max_total _ [] [] false
    · intro htf
      dsimp only at htf ⊢
      have h00 : ([] : List Search.ResultItem).length < max_total := by simpa using hmt
      obtain ⟨h1, h2, h3, h4⟩ := Search.mergeGo_flag_false max_total timedOut
        (completed.map (fun ce =>
          (ce.1.1, ce.1.2, ce.2.map (Search.run_search ce.1.1 ce.1.2 max_per))))
        [] [] false h00 htf
      refine ⟨h2, ?_, ?_⟩
      · intro ce hce ap hap
        have hmem : (ce.1.1, ce.1.2, ce.2.map (Search.run_search ce.1.1 ce.1.2 max_per)) ∈
            (completed.map (fun ce =>
              (ce.1.1, ce.1.2, ce.2.map (Search.run_search ce.1.1 ce.1.2 max_per)))) :=
          List.mem_map.mpr ⟨ce, hce, rfl⟩
        have hok : (ce.1.1, ce.1.2,
            ce.2.map (Search.run_search ce.1.1 ce.1.2 max_per)).2.2 =
            Except.ok (Search.run_search ce.1.1 ce.1.2 max_per ap) := by
          show ce.2.map (Search.run_search ce.1.1 ce.1.2 max_per) = _
          rw [hap]
          rfl
        exact h3 _ hmem (Search.run_search ce.1.1 ce.1.2 max_per ap) hok
      · rw [List.length_take]
        have hlen : ((Search.sortItems (Search.mergeGo max_total timedOut
            (completed.map (fun ce =>
              (ce.1.1, ce.1.2, ce.2.map (Search.run_search ce.1.1 ce.1.2 max_per))))
            [] [] false).1).length) =
            ((Search.mergeGo max_total timedOut
            (completed.map (fun ce =>
              (ce.1.1, ce.1.2, ce.2.map (Search.run_search ce.1.1 ce.1.2 max_per))))
            [] [] false).1.length) :=
          (Search.sortItems_perm _).length_eq
        omega
    · intro htt
      dsimp only at htt ⊢
      rcases Search.mergeGo_flag_true max_total timedOut
        (completed.map (fun ce =>
          (ce.1.1, ce.1.2, ce.2.map (Search.run_search ce.1.1 ce.1.2 max_per))))
        [] [] false htt with h1 | h2 | ⟨e, he, pay, hp, hptr⟩ | h4
      · exact Bool.noConfusion h1
      · exact Or.inl h2
      · refine Or.inr (Or.inl ?_)
        obtain ⟨ce, hce, rfl⟩ := List.mem_map.mp he
        have hp2 : ce.2.map (Search.run_search ce.1.1 ce.1.2 max_per) = Except.ok pay := hp
        cases hc2 : ce.2 with
        | error er =>
          rw [hc2] at hp2
          simp only [Except.map] at hp2
          exact Except.noConfusion hp2
        | ok ap =>
          rw [hc2] at hp2
          simp only [Except.map, Except.ok.injEq] at hp2
          refine ⟨ce, hce, ap, hc2, ?_⟩
          rw [← hp2] at hptr
          exact hptr
      · refine Or.inr (Or.inr ?_)
        rw [List.length_take]
        have hlen : ((Search.sortItems (Search.mergeGo max_total timedOut
            (completed.map (fun ce =>
              (ce.1.1, ce.1.2, ce.2.map (Search.run_search ce.1.1 ce.1.2 max_per))))
            [] [] false).1).length) =
            ((Search.mergeGo max_total timedOut
            (completed.map (fun ce =>
              (ce.1.1, ce.1.2, ce.2.map (Search.run_search ce.1.1 ce.1.2 max_per))))
            [] [] false).1.length) :=
          (Search.sortItems_perm _).length_eq
        omega

/-- With two eligible shares and `max_shares = 1`, the candidate cap is
hit (only one share is searched) yet the response's `truncated` flag is
false: the `max_shares` cap never sets the flag. -/
theorem max_shares_cap_not_flagged :
    ((Search.select_candidates
      [(⟨"s1", "d1", "share1"⟩, ⟨"d1", "alice", "Dev1", "http://d1", true, true, some 0⟩),
       (⟨"s2", "d2", "share2"⟩, ⟨"d2", "alice", "Dev2", "http://d2", true, true, some 0⟩)]
      [] "alice" 2 0).length = 2) ∧
    ((Search.select_candidates
      [(⟨"s1", "d1", "share1"⟩, ⟨"d1", "alice", "Dev1", "http://d1", true, true, some 0⟩),
       (⟨"s2", "d2", "share2"⟩, ⟨"d2", "alice", "Dev2", "http://d2", true, true, some 0⟩)]
      [] "alice" 1 0).length = 1) ∧
    ((Search.search_files_federated "q" "" false
      [(⟨"s1", "d1", "share1"⟩, ⟨"d1", "alice", "Dev1", "http://d1", true, true, some 0⟩),
       (⟨"s2", "d2", "share2"⟩, ⟨"d2", "alice", "Dev2", "http://d2", true, true, some 0⟩)]
      [] "alice" 1 5 10 0
      [((⟨"d1", "alice", "Dev1", "http://d1", true, true, some 0⟩,
         ⟨"s1", "d1", "share1"⟩), Except.ok ⟨[], false⟩)]
      false).truncated = false) := by
  refine ⟨rfl, rfl, rfl⟩

theorem search_files_federated_spec_witness :
    (0 : Nat) < 10 ∧
    (Search.search_files_federated "q" "" false
      [(⟨"s1", "d1", "share1"⟩, ⟨"d1", "alice", "Dev1", "http://d1", true, true, some 0⟩)]
      [] "alice" 1 5 10 0
      [((⟨"d1", "alice", "Dev1", "http://d1", true, true, some 0⟩,
         ⟨"s1", "d1", "share1"⟩), Except.ok ⟨[⟨"a.txt", false⟩], false⟩)]
      false).items.length ≤ 10 :=
  ⟨by decide,
   (search_files_federated_spec "q" "" false
      [(⟨"s1", "d1", "share1"⟩, ⟨"d1", "alice", "Dev1", "http://d1", true, true, some 0⟩)]
      [] "alice" 1 5 10 0
      [((⟨"d1", "alice", "Dev1", "http://d1", true, true, some 0⟩,
         ⟨"s1", "d1", "share1"⟩), Except.ok ⟨[⟨"a.txt", false⟩], false⟩)]
      false (by decide) (by decide) _ rfl).1⟩

end OmniStream
